import Mathlib

/-!
# Verification of the shared_pointer repository

Shallow embedding of the two shared-pointer implementations of the repository:

* `src/SharedPtr.h` — templated `SharedPtr<T>` / `SharedPtr<T[]>` with a
  `detail::ControlBlock` holding the raw pointer and a reference count.
  Modelled in namespace `SP` as an explicit-state machine: a heap of control
  blocks, a list of handle slots, and a log of destruction-strategy
  invocations.
* `src/main.cpp` — type-erased `SharedPtr<T>` with `ControlBlockBase`
  (count + destroy function) and `ControlBlockImpl` (stored deleter), whose
  installed destroy function reads the deleter through a pointer obtained by
  casting `nullptr`.  Modelled in namespace `MC`.

Raw addresses are `Nat`, with `0` playing the role of `nullptr`.
-/

namespace SPV

/-! ## List helper lemmas (indexed slots) -/

theorem lget_some_lt {α : Type} {l : List α} {i : Nat} {a : α}
    (h : l.get? i = some a) : i < l.length := by
  induction l generalizing i with
  | nil => simp [List.get?] at h
  | cons x xs ih =>
    cases i with
    | zero => simp
    | succ n =>
      have := ih (i := n) (by simpa [List.get?] using h)
      simpa using Nat.succ_lt_succ this

theorem lget_set_eq {α : Type} {l : List α} {i : Nat} (a : α) {b : α}
    (h : l.get? i = some b) : (l.set i a).get? i = some a := by
  induction l generalizing i with
  | nil => simp [List.get?] at h
  | cons x xs ih =>
    cases i with
    | zero => simp [List.get?]
    | succ n =>
      simpa [List.get?] using ih (by simpa [List.get?] using h)

theorem lget_set_ne {α : Type} (l : List α) (i j : Nat) (a : α)
    (h : i ≠ j) : (l.set i a).get? j = l.get? j := by
  induction l generalizing i j with
  | nil => simp
  | cons x xs ih =>
    cases i with
    | zero =>
      cases j with
      | zero => exact absurd rfl h
      | succ m => simp [List.get?]
    | succ n =>
      cases j with
      | zero => simp [List.get?]
      | succ m =>
        simpa [List.get?] using ih n m (fun hnm => h (by simpa using hnm))

theorem lset_self {α : Type} {l : List α} {i : Nat} {a : α}
    (h : l.get? i = some a) : l.set i a = l := by
  induction l generalizing i with
  | nil => rfl
  | cons x xs ih =>
    cases i with
    | zero =>
      have hx : x = a := by
        have : some x = some a := h
        exact Option.some.inj this
      subst hx
      rfl
    | succ n =>
      have h2 : xs.get? n = some a := h
      show x :: xs.set n a = x :: xs
      rw [ih h2]

theorem lcountP_set {α : Type} (p : α → Bool) {l : List α} {i : Nat}
    (a : α) {b : α} (h : l.get? i = some b) :
    (l.set i a).countP p + (if p b then 1 else 0)
      = l.countP p + (if p a then 1 else 0) := by
  induction l generalizing i with
  | nil => simp [List.get?] at h
  | cons x xs ih =>
    cases i with
    | zero =>
      simp [List.get?] at h
      subst h
      simp [List.countP_cons]
      omega
    | succ n =>
      have := ih (i := n) (by simpa [List.get?] using h)
      simp [List.countP_cons]
      omega

theorem lcountP_pos_of_get {α : Type} (p : α → Bool) {l : List α} {i : Nat}
    {a : α} (hi : l.get? i = some a) (hpa : p a = true) :
    1 ≤ l.countP p := by
  have hmem : a ∈ l := List.get?_mem hi
  exact (List.countP_pos_iff (p := p) (l := l)).mpr ⟨a, hmem, hpa⟩

theorem lcountP_concat {α : Type} (p : α → Bool) (l : List α) (a : α) :
    (l ++ [a]).countP p = l.countP p + (if p a then 1 else 0) := by
  rw [List.countP_append, List.countP_cons, List.countP_nil]
  omega

theorem lcountP_two {α : Type} (p : α → Bool) {l : List α} {i j : Nat}
    {a b : α} (hi : l.get? i = some a) (hj : l.get? j = some b)
    (hij : i ≠ j) (hpa : p a = true) (hpb : p b = true) :
    2 ≤ l.countP p := by
  induction l generalizing i j with
  | nil => simp [List.get?] at hi
  | cons x xs ih =>
    have hcons : (x :: xs).countP p = xs.countP p + (if p x then 1 else 0) := by
      rw [List.countP_cons]
    cases i with
    | zero =>
      cases j with
      | zero => exact absurd rfl hij
      | succ m =>
        have hx : x = a := Option.some.inj hi
        have hj2 : xs.get? m = some b := hj
        have h1 : 1 ≤ xs.countP p := lcountP_pos_of_get p hj2 hpb
        rw [hcons, hx, hpa]
        have hone : (if true = true then 1 else 0) = 1 := by simp
        omega
    | succ n =>
      cases j with
      | zero =>
        have hx : x = b := Option.some.inj hj
        have hi2 : xs.get? n = some a := hi
        have h1 : 1 ≤ xs.countP p := lcountP_pos_of_get p hi2 hpa
        rw [hcons, hx, hpb]
        have hone : (if true = true then 1 else 0) = 1 := by simp
        omega
      | succ m =>
        have hi2 : xs.get? n = some a := hi
        have hj2 : xs.get? m = some b := hj
        have h2 := ih hi2 hj2 (fun hnm => hij (by simpa using hnm))
        rw [hcons]
        omega

/-! ## Model of src/SharedPtr.h

`SharedPtr<T>` (primary template) and its array partial specialization
`SharedPtr<T[]>` are line-for-line identical except for the stored
destruction function (`delete_object` vs `delete_array`) and the accessors.
The model is therefore shared, tagged by `DKind` — the deleter installed by
the instantiated class — which is fixed at `init` and recorded in every
destruction event, mirroring that a given instantiation can only ever call
its own deleter. -/

namespace SP

/-- Which built-in destruction strategy the instantiation uses:
`delete_object` (`SharedPtr<T>`) or `delete_array` (`SharedPtr<T[]>`). -/
inductive DKind where
  | scalar
  | array
deriving DecidableEq, Repr

/-- `detail::ControlBlock<T*>`: the owned raw pointer and the reference
count (`ref_count_t`; the plain `std::size_t` policy is modelled — the
atomic policy differs only in the arithmetic's memory ordering). -/
structure Block where
  ptr : Nat
  ref_cnt : Nat
deriving DecidableEq, Repr

/-- One invocation of the destruction strategy: `del(cb_->ptr)` inside
`dec`, recording which block fired, the raw address passed, and which
deleter the instantiation bound. -/
structure Event where
  blk : Nat
  res : Nat
  kind : DKind
deriving DecidableEq, Repr

/-- A handle slot: `none` = the handle object has been destroyed;
`some c` = a live handle whose `cb_` member is `c` (`none` = null `cb_`,
`some b` = pointing at control block `b`). -/
abbrev Slot := Option (Option Nat)

/-- Global state: the heap of live control blocks (by block id), the
allocation counter for fresh blocks, the handle slots (a handle's id is its
index; destroyed handles stay as `none` so indices are stable), and the log
of destruction-strategy invocations. -/
structure SPState where
  heap : Nat → Option Block
  nextBlock : Nat
  handles : List Slot
  events : List Event
  kind : DKind

/-- Pointwise update of the control-block heap. -/
def update (f : Nat → Option Block) (b : Nat) (v : Option Block) :
    Nat → Option Block :=
  fun b' => if b' = b then v else f b'

/-- The `cb_` member of handle `h` (`none` when the handle is dead or its
`cb_` is null). -/
def cbOf (s : SPState) (h : Nat) : Option Nat :=
  match s.handles.get? h with
  | some (some c) => c
  | _ => none

/-- `get()`: `cb_ ? cb_->ptr : nullptr`, evaluated on a `cb_` value.
(Reading a freed block would be undefined behavior in the source; the
invariant below shows a live handle's block is always live.) -/
def ptrOfCB (s : SPState) (c : Option Nat) : Nat :=
  match c with
  | none => 0
  | some b =>
    match s.heap b with
    | some blk => blk.ptr
    | none => 0

/-- `get()` of handle `h`. -/
def getOf (s : SPState) (h : Nat) : Nat :=
  ptrOfCB s (cbOf s h)

/-- `use_count()`: `cb_ ? cb_->ref_cnt : 0`. -/
def use_count (s : SPState) (h : Nat) : Nat :=
  match cbOf s h with
  | none => 0
  | some b =>
    match s.heap b with
    | some blk => blk.ref_cnt
    | none => 0

/-- `unique()`: `use_count() == 1`. -/
def unique (s : SPState) (h : Nat) : Bool :=
  use_count s h == 1

/-- `explicit operator bool()`: `get() != nullptr`. -/
def boolConv (s : SPState) (h : Nat) : Bool :=
  getOf s h != 0

/-- `inc()`: `if(cb_) ++cb_->ref_cnt;`. -/
def incCB (s : SPState) (c : Option Nat) : SPState :=
  match c with
  | none => s
  | some b =>
    match s.heap b with
    | none => s
    | some blk =>
      { s with heap := update s.heap b (some ⟨blk.ptr, blk.ref_cnt + 1⟩) }

/-- `dec(del)`: `if(!cb_) return; if(--cb_->ref_cnt==0){ del(cb_->ptr);
delete cb_; }` — on reaching zero the strategy invocation is logged and the
block is freed in the same step. -/
def decCB (s : SPState) (c : Option Nat) : SPState :=
  match c with
  | none => s
  | some b =>
    match s.heap b with
    | none => s
    | some blk =>
      if blk.ref_cnt - 1 = 0 then
        { s with heap := update s.heap b none,
                 events := ⟨b, blk.ptr, s.kind⟩ :: s.events }
      else
        { s with heap := update s.heap b (some ⟨blk.ptr, blk.ref_cnt - 1⟩) }

/-- The handle operations of `SharedPtr<T>` / `SharedPtr<T[]>`.  Handle
arguments are slot indices; an operation on a dead slot is a no-op. -/
inductive Op where
  /-- `SharedPtr(T* p)` (also `SharedPtr()` / `SharedPtr(nullptr)` when
  `raw = 0`): a fresh handle. -/
  | construct (raw : Nat)
  /-- `SharedPtr(const SharedPtr& o)`: a fresh handle copying `src`. -/
  | copyCon (src : Nat)
  /-- `SharedPtr(SharedPtr&& o)`: a fresh handle moving from `src`. -/
  | moveCon (src : Nat)
  /-- `operator=(const SharedPtr&)` via `assign`. -/
  | copyAssign (dst src : Nat)
  /-- `operator=(SharedPtr&&)` via `move_assign`. -/
  | moveAssign (dst src : Nat)
  /-- `reset()`. -/
  | reset (h : Nat)
  /-- `reset(T* p)`. -/
  | resetTo (h : Nat) (raw : Nat)
  /-- `swap` (member and ADL free function: `std::swap(cb_, o.cb_)`). -/
  | swapH (a b : Nat)
  /-- `~SharedPtr()`: the handle object dies. -/
  | destroy (h : Nat)
deriving DecidableEq, Repr

/-- One operation of the state machine, transcribed from src/SharedPtr.h. -/
def step (s : SPState) (op : Op) : SPState :=
  match op with
  | .construct raw =>
    -- cb_(p ? new detail::ControlBlock<T*>(p) : nullptr)
    if raw = 0 then
      { s with handles := s.handles ++ [some none] }
    else
      { s with heap := update s.heap s.nextBlock (some ⟨raw, 1⟩),
               nextBlock := s.nextBlock + 1,
               handles := s.handles ++ [some (some s.nextBlock)] }
  | .copyCon src =>
    match s.handles.get? src with
    | some (some c) =>
      -- cb_(o.cb_) { inc(); }
      let s1 := incCB s c
      { s1 with handles := s1.handles ++ [some c] }
    | _ => s
  | .moveCon src =>
    match s.handles.get? src with
    | some (some c) =>
      -- cb_(o.cb_) { o.cb_ = nullptr; }
      { s with handles := (s.handles.set src (some none)) ++ [some c] }
    | _ => s
  | .copyAssign dst src =>
    -- assign: if(this==&r) return; dec(del); cb_=r.cb_; inc();
    if dst = src then s
    else
      match s.handles.get? dst, s.handles.get? src with
      | some (some cd), some (some cs) =>
        let s1 := decCB s cd
        let s2 := incCB s1 cs
        { s2 with handles := s2.handles.set dst (some cs) }
      | _, _ => s
  | .moveAssign dst src =>
    -- move_assign: if(this==&r) return; dec(del); cb_=r.cb_; r.cb_=nullptr;
    if dst = src then s
    else
      match s.handles.get? dst, s.handles.get? src with
      | some (some cd), some (some cs) =>
        let s1 := decCB s cd
        { s1 with
            handles := (s1.handles.set dst (some cs)).set src (some none) }
      | _, _ => s
  | .reset h =>
    match s.handles.get? h with
    | some (some c) =>
      -- dec(del); cb_ = nullptr;
      let s1 := decCB s c
      { s1 with handles := s1.handles.set h (some none) }
    | _ => s
  | .resetTo h raw =>
    match s.handles.get? h with
    | some (some c) =>
      -- if(get()!=p){ dec(del); cb_ = p ? new ControlBlock(p) : nullptr; }
      if ptrOfCB s c = raw then s
      else
        let s1 := decCB s c
        if raw = 0 then
          { s1 with handles := s1.handles.set h (some none) }
        else
          { s1 with
              heap := update s1.heap s1.nextBlock (some ⟨raw, 1⟩),
              nextBlock := s1.nextBlock + 1,
              handles := s1.handles.set h (some (some s1.nextBlock)) }
    | _ => s
  | .swapH a b =>
    match s.handles.get? a, s.handles.get? b with
    | some (some ca), some (some cb) =>
      -- std::swap(cb_, o.cb_)
      { s with handles := (s.handles.set a (some cb)).set b (some ca) }
    | _, _ => s
  | .destroy h =>
    match s.handles.get? h with
    | some (some c) =>
      -- ~SharedPtr() { dec(del); }  and the handle object is gone
      let s1 := decCB s c
      { s1 with handles := s1.handles.set h none }
    | _ => s

/-- The empty initial state of an instantiation bound to deleter `dk`. -/
def init (dk : DKind) : SPState :=
  { heap := fun _ => none, nextBlock := 0, handles := [], events := [],
    kind := dk }

/-- Run a sequence of handle operations. -/
def exec (s : SPState) (ops : List Op) : SPState :=
  ops.foldl step s

/-- Number of live, Bound handle slots whose `cb_` points at block `b`. -/
def refsL (l : List Slot) (b : Nat) : Nat :=
  l.countP (fun sl => sl == some (some b))

/-- Number of live handles of `s` referencing block `b`. -/
def refs (s : SPState) (b : Nat) : Nat :=
  refsL s.handles b

/-- Number of logged destruction-strategy invocations for block `b`. -/
def eventCountL (ev : List Event) (b : Nat) : Nat :=
  ev.countP (fun e => e.blk == b)

/-- Number of destruction-strategy invocations for block `b` in `s`. -/
def eventCount (s : SPState) (b : Nat) : Nat :=
  eventCountL s.events b

/-- Reachability invariant of the SharedPtr.h model.  Every block id is in
exactly one of three phases: never allocated (fresh), live (its reference
count equals the number of live handles referencing it, is positive, its
resource is non-null, and its strategy has never fired), or freed (no
references remain and its strategy fired exactly once). -/
structure Inv (s : SPState) : Prop where
  fresh : ∀ b, s.nextBlock ≤ b →
    s.heap b = none ∧ refs s b = 0 ∧ eventCount s b = 0
  live : ∀ b blk, s.heap b = some blk →
    blk.ref_cnt = refs s b ∧ 1 ≤ blk.ref_cnt ∧ blk.ptr ≠ 0 ∧
      eventCount s b = 0
  dead : ∀ b, b < s.nextBlock → s.heap b = none →
    refs s b = 0 ∧ eventCount s b = 1

/-! ### Small evaluation lemmas -/

@[simp] theorem sref_none (b : Nat) :
    ((none : Slot) == some (some b)) = false := rfl

@[simp] theorem sref_some_none (b : Nat) :
    ((some none : Slot) == some (some b)) = false := rfl

@[simp] theorem sref_some_some (b b' : Nat) :
    ((some (some b') : Slot) == some (some b)) = (b' == b) := rfl

theorem update_same (f : Nat → Option Block) (b : Nat) (v : Option Block) :
    update f b v b = v := by
  simp [update]

theorem update_ne (f : Nat → Option Block) (b : Nat) (v : Option Block)
    (b' : Nat) (h : b' ≠ b) : update f b v b' = f b' := by
  simp [update, h]

theorem eventCountL_cons (e : Event) (ev : List Event) (b : Nat) :
    eventCountL (e :: ev) b
      = eventCountL ev b + (if e.blk == b then 1 else 0) := by
  rw [eventCountL, eventCountL, List.countP_cons]

theorem refsL_concat (l : List Slot) (v : Slot) (b : Nat) :
    refsL (l ++ [v]) b = refsL l b + (if v == some (some b) then 1 else 0) :=
  SPV.lcountP_concat _ l v

theorem refsL_set (l : List Slot) (i : Nat) (v : Slot) {old : Slot}
    (h : l.get? i = some old) (b : Nat) :
    refsL (l.set i v) b + (if old == some (some b) then 1 else 0)
      = refsL l b + (if v == some (some b) then 1 else 0) :=
  SPV.lcountP_set _ v h

/-! ### Consequences of the invariant -/

theorem refs_pos_of_slot {s : SPState} {h b : Nat}
    (hh : s.handles.get? h = some (some (some b))) : 1 ≤ refs s b :=
  SPV.lcountP_pos_of_get _ hh (by simp)

theorem Inv.lt_next {s : SPState} (hInv : Inv s) {b : Nat} {blk : Block}
    (h : s.heap b = some blk) : b < s.nextBlock := by
  by_contra hge
  have hnone := (hInv.fresh b (Nat.le_of_not_lt hge)).1
  rw [hnone] at h
  cases h

/-- A block with at least one live reference is itself live, with all the
live-phase facts. -/
theorem Inv.block_of_refs {s : SPState} (hInv : Inv s) {b : Nat}
    (hpos : 1 ≤ refs s b) :
    ∃ blk, s.heap b = some blk ∧ blk.ref_cnt = refs s b ∧
      1 ≤ blk.ref_cnt ∧ blk.ptr ≠ 0 ∧ eventCount s b = 0 ∧
      b < s.nextBlock := by
  cases hheap : s.heap b with
  | some blk =>
    obtain ⟨h1, h2, h3, h4⟩ := hInv.live b blk hheap
    exact ⟨blk, rfl, h1, by omega, h3, h4, hInv.lt_next hheap⟩
  | none =>
    by_cases hb : b < s.nextBlock
    · have := (hInv.dead b hb hheap).1
      omega
    · have := (hInv.fresh b (Nat.le_of_not_lt hb)).2.1
      omega

/-- A live handle's control block is itself live, with all the live-phase
facts. -/
theorem Inv.block_of_slot {s : SPState} (hInv : Inv s) {h b : Nat}
    (hh : s.handles.get? h = some (some (some b))) :
    ∃ blk, s.heap b = some blk ∧ blk.ref_cnt = refs s b ∧
      1 ≤ blk.ref_cnt ∧ blk.ptr ≠ 0 ∧ eventCount s b = 0 ∧
      b < s.nextBlock :=
  hInv.block_of_refs (refs_pos_of_slot hh)

theorem nbeq_false {a b : Nat} (h : a ≠ b) : (a == b) = false := by
  simpa using h

theorem nbeq_true {a b : Nat} (h : a = b) : (a == b) = true := by
  simpa using h

theorem refsL_set_eq (l : List Slot) (i : Nat) {old : Slot}
    (h : l.get? i = some old) (v : Slot) (b : Nat)
    (ho : (old == some (some b)) = false)
    (hv : (v == some (some b)) = false) :
    refsL (l.set i v) b = refsL l b := by
  have hset := refsL_set l i v h b
  simp only [ho, hv, if_false, Bool.false_eq_true] at hset
  omega

theorem refsL_set_sub (l : List Slot) (i : Nat) {old : Slot}
    (h : l.get? i = some old) (v : Slot) (b : Nat)
    (ho : (old == some (some b)) = true)
    (hv : (v == some (some b)) = false) :
    refsL (l.set i v) b + 1 = refsL l b := by
  have hset := refsL_set l i v h b
  simp only [ho, hv, if_true, if_false, Bool.false_eq_true] at hset
  omega

theorem refsL_set_add (l : List Slot) (i : Nat) {old : Slot}
    (h : l.get? i = some old) (v : Slot) (b : Nat)
    (ho : (old == some (some b)) = false)
    (hv : (v == some (some b)) = true) :
    refsL (l.set i v) b = refsL l b + 1 := by
  have hset := refsL_set l i v h b
  simp only [ho, hv, if_true, if_false, Bool.false_eq_true] at hset
  omega

theorem refsL_set_same (l : List Slot) (i : Nat) {old : Slot}
    (h : l.get? i = some old) (v : Slot) (b : Nat)
    (hov : (old == some (some b)) = (v == some (some b))) :
    refsL (l.set i v) b = refsL l b := by
  have hset := refsL_set l i v h b
  rw [hov] at hset
  omega

/-- Replacing the handle list by one with the same per-block reference
counts preserves the invariant. -/
theorem inv_handles_congr {s : SPState} (hInv : Inv s) (L : List Slot)
    (hL : ∀ b, refsL L b = refs s b) :
    Inv { s with handles := L } := by
  refine ⟨?_, ?_, ?_⟩
  · intro b hb
    obtain ⟨g1, g2, g3⟩ := hInv.fresh b hb
    exact ⟨g1, by show refsL L b = 0; rw [hL b]; exact g2, g3⟩
  · intro b blk hb
    obtain ⟨g1, g2, g3, g4⟩ := hInv.live b blk hb
    exact ⟨by show blk.ref_cnt = refsL L b; rw [hL b]; exact g1, g2, g3, g4⟩
  · intro b hb hn
    obtain ⟨g1, g2⟩ := hInv.dead b hb hn
    exact ⟨by show refsL L b = 0; rw [hL b]; exact g1, g2⟩

theorem decCB_handles (s : SPState) (c : Option Nat) :
    (decCB s c).handles = s.handles := by
  cases c with
  | none => rfl
  | some b =>
    cases hb : s.heap b with
    | none => simp [decCB, hb]
    | some blk =>
      by_cases h1 : blk.ref_cnt - 1 = 0 <;> simp [decCB, hb, h1]

theorem decCB_nextBlock (s : SPState) (c : Option Nat) :
    (decCB s c).nextBlock = s.nextBlock := by
  cases c with
  | none => rfl
  | some b =>
    cases hb : s.heap b with
    | none => simp [decCB, hb]
    | some blk =>
      by_cases h1 : blk.ref_cnt - 1 = 0 <;> simp [decCB, hb, h1]

/-- Master preservation lemma for releasing operations: running `dec` on a
`cb_` value `cd` (whose block, if any, has at least one live reference)
while replacing the handle list by any list `L` whose per-block reference
counts equal the old ones minus exactly the one reference to `cd`'s block
preserves the invariant. -/
theorem inv_dec_general {s : SPState} (hInv : Inv s) (cd : Option Nat)
    (hex : ∀ bd, cd = some bd → 1 ≤ refs s bd) (L : List Slot)
    (hL : ∀ x, refsL L x + (if cd = some x then 1 else 0)
      = refsL s.handles x) :
    Inv { decCB s cd with handles := L } := by
  cases cd with
  | none =>
    show Inv { s with handles := L }
    apply inv_handles_congr hInv
    intro b
    have hLb := hL b
    rw [if_neg (by simp)] at hLb
    have hr : refs s b = refsL s.handles b := rfl
    omega
  | some bd =>
    obtain ⟨blk, hheap, hcnt, hpos, hptr, hev, hlt⟩ :=
      hInv.block_of_refs (hex bd rfl)
    have hcnt' : blk.ref_cnt = refsL s.handles bd := hcnt
    have hLbd : refsL L bd + 1 = refsL s.handles bd := by
      have := hL bd
      rw [if_pos rfl] at this
      exact this
    have hLne : ∀ x, bd ≠ x → refsL L x = refsL s.handles x := by
      intro x hx
      have := hL x
      rw [if_neg (by simpa using hx)] at this
      omega
    by_cases h1 : blk.ref_cnt - 1 = 0
    · -- last reference: the strategy fires and the block is freed
      simp only [decCB, hheap, h1, if_true]
      refine ⟨?_, ?_, ?_⟩
      · intro b hb
        simp only at hb
        have hne : bd ≠ b := by omega
        obtain ⟨g1, g2, g3⟩ := hInv.fresh b hb
        refine ⟨?_, ?_, ?_⟩
        · simpa [update_ne _ _ _ _ (fun hc => hne hc.symm)] using g1
        · show refsL L b = 0
          have g2' : refsL s.handles b = 0 := g2
          have := hLne b hne
          omega
        · show eventCountL (⟨bd, blk.ptr, s.kind⟩ :: s.events) b = 0
          rw [eventCountL_cons]
          have g3' : eventCountL s.events b = 0 := g3
          simp [nbeq_false hne, g3']
      · intro b blk' hb
        simp only at hb
        have hne : bd ≠ b := by
          intro hc
          subst hc
          rw [update_same] at hb
          cases hb
        rw [update_ne _ _ _ _ (fun hc => hne hc.symm)] at hb
        obtain ⟨g1, g2, g3, g4⟩ := hInv.live b blk' hb
        refine ⟨?_, g2, g3, ?_⟩
        · show blk'.ref_cnt = refsL L b
          have g1' : blk'.ref_cnt = refsL s.handles b := g1
          have := hLne b hne
          omega
        · show eventCountL (⟨bd, blk.ptr, s.kind⟩ :: s.events) b = 0
          rw [eventCountL_cons]
          have g4' : eventCountL s.events b = 0 := g4
          simp [nbeq_false hne, g4']
      · intro b hb hn
        simp only at hb hn
        by_cases hbd : b = bd
        · subst hbd
          constructor
          · show refsL L b = 0
            omega
          · show eventCountL (⟨b, blk.ptr, s.kind⟩ :: s.events) b = 1
            rw [eventCountL_cons]
            have hev' : eventCountL s.events b = 0 := hev
            simp [hev']
        · have hne : bd ≠ b := fun hc => hbd hc.symm
          rw [update_ne _ _ _ _ hbd] at hn
          obtain ⟨g1, g2⟩ := hInv.dead b hb hn
          constructor
          · show refsL L b = 0
            have g1' : refsL s.handles b = 0 := g1
            have := hLne b hne
            omega
          · show eventCountL (⟨bd, blk.ptr, s.kind⟩ :: s.events) b = 1
            rw [eventCountL_cons]
            have g2' : eventCountL s.events b = 1 := g2
            simp [nbeq_false hne, g2']
    · -- other references remain: only the count drops
      have htwo : 2 ≤ blk.ref_cnt := by omega
      simp only [decCB, hheap, h1, if_false]
      refine ⟨?_, ?_, ?_⟩
      · intro b hb
        simp only at hb
        have hne : bd ≠ b := by omega
        obtain ⟨g1, g2, g3⟩ := hInv.fresh b hb
        refine ⟨?_, ?_, g3⟩
        · simpa [update_ne _ _ _ _ (fun hc => hne hc.symm)] using g1
        · show refsL L b = 0
          have g2' : refsL s.handles b = 0 := g2
          have := hLne b hne
          omega
      · intro b blk' hb
        simp only at hb
        by_cases hbd : b = bd
        · subst hbd
          rw [update_same] at hb
          have hblk' : blk' = ⟨blk.ptr, blk.ref_cnt - 1⟩ :=
            (Option.some.inj hb).symm
          subst hblk'
          refine ⟨?_, by show 1 ≤ blk.ref_cnt - 1; omega,
            by show blk.ptr ≠ 0; exact hptr, hev⟩
          show blk.ref_cnt - 1 = refsL L b
          omega
        · rw [update_ne _ _ _ _ hbd] at hb
          have hne : bd ≠ b := fun hc => hbd hc.symm
          obtain ⟨g1, g2, g3, g4⟩ := hInv.live b blk' hb
          refine ⟨?_, g2, g3, g4⟩
          show blk'.ref_cnt = refsL L b
          have g1' : blk'.ref_cnt = refsL s.handles b := g1
          have := hLne b hne
          omega
      · intro b hb hn
        simp only at hb hn
        by_cases hbd : b = bd
        · subst hbd
          rw [update_same] at hn
          cases hn
        · rw [update_ne _ _ _ _ hbd] at hn
          have hne : bd ≠ b := fun hc => hbd hc.symm
          obtain ⟨g1, g2⟩ := hInv.dead b hb hn
          constructor
          · show refsL L b = 0
            have g1' : refsL s.handles b = 0 := g1
            have := hLne b hne
            omega
          · exact g2

/-- `dec` on a live handle's `cb_` followed by clearing that handle's slot
(to live-empty or dead) preserves the invariant: the shared shape of
`reset()`, `reset(nullptr)` and `~SharedPtr()`. -/
theorem inv_dec_clear {s : SPState} (hInv : Inv s) {dst : Nat}
    {cd : Option Nat} (hdst : s.handles.get? dst = some (some cd))
    {v : Slot} (hv : v = some none ∨ v = none) :
    Inv { decCB s cd with handles := (decCB s cd).handles.set dst v } := by
  rw [decCB_handles]
  apply inv_dec_general hInv cd
  · intro bd hbd
    subst hbd
    exact refs_pos_of_slot hdst
  · intro x
    have hset := refsL_set s.handles dst v hdst x
    have hvref : (v == some (some x)) = false := by
      rcases hv with h | h <;> subst h <;> rfl
    rw [hvref] at hset
    simp only [Bool.false_eq_true, if_false] at hset
    have hcond : (if ((some cd : Slot) == some (some x)) = true
        then (1 : Nat) else 0) = (if cd = some x then 1 else 0) := by
      by_cases hcx : cd = some x
      · subst hcx
        simp
      · simp [hcx]
    omega

/-- Binding a freshly allocated control block (count 1) into a live, empty
handle slot preserves the invariant: the rebinding half of `reset(p)` and
of construction from raw. -/
theorem inv_alloc_bind {t : SPState} (hInv : Inv t) {h : Nat}
    (hh : t.handles.get? h = some (some none)) {raw : Nat}
    (hraw : raw ≠ 0) :
    Inv { t with
      heap := update t.heap t.nextBlock (some ⟨raw, 1⟩),
      nextBlock := t.nextBlock + 1,
      handles := t.handles.set h (some (some t.nextBlock)) } := by
  obtain ⟨hfh, hfr, hfe⟩ := hInv.fresh t.nextBlock (Nat.le_refl _)
  refine ⟨?_, ?_, ?_⟩
  · intro b hb
    simp only at hb
    have hne : t.nextBlock ≠ b := by omega
    obtain ⟨g1, g2, g3⟩ := hInv.fresh b (by omega)
    refine ⟨?_, ?_, g3⟩
    · simpa [update_ne _ _ _ _ (fun hc => hne hc.symm)] using g1
    · show refsL (t.handles.set h (some (some t.nextBlock))) b = 0
      rw [refsL_set_eq t.handles h hh _ b (by simp)
        (by simp [nbeq_false hne])]
      exact g2
  · intro b blk hb
    simp only at hb
    by_cases hbd : b = t.nextBlock
    · subst hbd
      rw [update_same] at hb
      have hblk : blk = ⟨raw, 1⟩ := (Option.some.inj hb).symm
      subst hblk
      refine ⟨?_, by show 1 ≤ 1; omega, by show raw ≠ 0; exact hraw, hfe⟩
      show (1 : Nat)
        = refsL (t.handles.set h (some (some t.nextBlock))) t.nextBlock
      rw [refsL_set_add t.handles h hh _ t.nextBlock (by simp) (by simp)]
      have hfr' : refsL t.handles t.nextBlock = 0 := hfr
      omega
    · rw [update_ne _ _ _ _ hbd] at hb
      have hne : t.nextBlock ≠ b := fun hc => hbd hc.symm
      obtain ⟨g1, g2, g3, g4⟩ := hInv.live b blk hb
      refine ⟨?_, g2, g3, g4⟩
      show blk.ref_cnt = refsL (t.handles.set h (some (some t.nextBlock))) b
      rw [refsL_set_eq t.handles h hh _ b (by simp)
        (by simp [nbeq_false hne])]
      exact g1
  · intro b hb hn
    simp only at hb hn
    by_cases hbd : b = t.nextBlock
    · subst hbd
      rw [update_same] at hn
      cases hn
    · rw [update_ne _ _ _ _ hbd] at hn
      have hne : t.nextBlock ≠ b := fun hc => hbd hc.symm
      have hblt : b < t.nextBlock := by omega
      obtain ⟨g1, g2⟩ := hInv.dead b hblt hn
      constructor
      · show refsL (t.handles.set h (some (some t.nextBlock))) b = 0
        rw [refsL_set_eq t.handles h hh _ b (by simp)
          (by simp [nbeq_false hne])]
        exact g1
      · exact g2

/-! ### Preservation of the invariant by each operation -/

theorem inv_construct {s : SPState} (hInv : Inv s) (raw : Nat) :
    Inv (step s (.construct raw)) := by
  by_cases hraw : raw = 0
  · subst hraw
    simp only [step, if_pos rfl]
    apply inv_handles_congr hInv
    intro b
    rw [refsL_concat]
    simp [refs]
  · simp only [step, if_neg hraw]
    obtain ⟨hfh, hfr, hfe⟩ := hInv.fresh s.nextBlock (Nat.le_refl _)
    refine ⟨?_, ?_, ?_⟩
    · intro b hb
      simp only at hb
      have hne : s.nextBlock ≠ b := by omega
      obtain ⟨g1, g2, g3⟩ := hInv.fresh b (by omega)
      refine ⟨?_, ?_, g3⟩
      · simpa [update_ne _ _ _ _ (fun hc => hne hc.symm)] using g1
      · show refsL (s.handles ++ [some (some s.nextBlock)]) b = 0
        rw [refsL_concat]
        simp only [sref_some_some, nbeq_false hne, if_false,
          Bool.false_eq_true]
        have g2' : refsL s.handles b = 0 := g2
        omega
    · intro b blk hb
      simp only at hb
      by_cases hbd : b = s.nextBlock
      · subst hbd
        rw [update_same] at hb
        have hblk : blk = ⟨raw, 1⟩ := (Option.some.inj hb).symm
        subst hblk
        refine ⟨?_, by show 1 ≤ 1; omega, by show raw ≠ 0; exact hraw, hfe⟩
        show (1 : Nat)
          = refsL (s.handles ++ [some (some s.nextBlock)]) s.nextBlock
        rw [refsL_concat]
        have hfr' : refsL s.handles s.nextBlock = 0 := hfr
        simp only [sref_some_some, nbeq_true rfl, if_true]
        omega
      · rw [update_ne _ _ _ _ hbd] at hb
        have hne : s.nextBlock ≠ b := fun hc => hbd hc.symm
        obtain ⟨g1, g2, g3, g4⟩ := hInv.live b blk hb
        refine ⟨?_, g2, g3, g4⟩
        show blk.ref_cnt = refsL (s.handles ++ [some (some s.nextBlock)]) b
        rw [refsL_concat]
        simp only [sref_some_some, nbeq_false hne, if_false,
          Bool.false_eq_true]
        have g1' : blk.ref_cnt = refsL s.handles b := g1
        omega
    · intro b hb hn
      simp only at hb hn
      by_cases hbd : b = s.nextBlock
      · subst hbd
        rw [update_same] at hn
        cases hn
      · rw [update_ne _ _ _ _ hbd] at hn
        have hne : s.nextBlock ≠ b := fun hc => hbd hc.symm
        have hblt : b < s.nextBlock := by omega
        obtain ⟨g1, g2⟩ := hInv.dead b hblt hn
        constructor
        · show refsL (s.handles ++ [some (some s.nextBlock)]) b = 0
          rw [refsL_concat]
          simp only [sref_some_some, nbeq_false hne, if_false,
            Bool.false_eq_true]
          have g1' : refsL s.handles b = 0 := g1
          omega
        · exact g2

theorem inv_copyCon {s : SPState} (hInv : Inv s) (src : Nat) :
    Inv (step s (.copyCon src)) := by
  cases hslot : s.handles.get? src with
  | none =>
    simp only [step, hslot]
    exact hInv
  | some sl =>
    cases sl with
    | none =>
      simp only [step, hslot]
      exact hInv
    | some c =>
      cases c with
      | none =>
        simp only [step, hslot, incCB]
        apply inv_handles_congr hInv
        intro b
        rw [refsL_concat]
        simp [refs]
      | some b0 =>
        obtain ⟨blk, hheap, hcnt, hpos, hptr, hev, hlt⟩ :=
          hInv.block_of_slot hslot
        simp only [step, hslot, incCB, hheap]
        refine ⟨?_, ?_, ?_⟩
        · intro b hb
          simp only at hb
          have hne : b0 ≠ b := by omega
          obtain ⟨g1, g2, g3⟩ := hInv.fresh b hb
          refine ⟨?_, ?_, g3⟩
          · simpa [update_ne _ _ _ _ (fun hc => hne hc.symm)] using g1
          · show refsL (s.handles ++ [some (some b0)]) b = 0
            rw [refsL_concat]
            simp only [sref_some_some, nbeq_false hne, if_false,
              Bool.false_eq_true]
            have g2' : refsL s.handles b = 0 := g2
            omega
        · intro b blk' hb
          simp only at hb
          by_cases hbd : b = b0
          · subst hbd
            rw [update_same] at hb
            have hblk' : blk' = ⟨blk.ptr, blk.ref_cnt + 1⟩ :=
              (Option.some.inj hb).symm
            subst hblk'
            refine ⟨?_, by show 1 ≤ blk.ref_cnt + 1; omega,
              by show blk.ptr ≠ 0; exact hptr, hev⟩
            show blk.ref_cnt + 1 = refsL (s.handles ++ [some (some b)]) b
            rw [refsL_concat]
            simp only [sref_some_some, nbeq_true rfl, if_true]
            have hcnt' : blk.ref_cnt = refsL s.handles b := hcnt
            omega
          · rw [update_ne _ _ _ _ hbd] at hb
            have hne : b0 ≠ b := fun hc => hbd hc.symm
            obtain ⟨g1, g2, g3, g4⟩ := hInv.live b blk' hb
            refine ⟨?_, g2, g3, g4⟩
            show blk'.ref_cnt = refsL (s.handles ++ [some (some b0)]) b
            rw [refsL_concat]
            simp only [sref_some_some, nbeq_false hne, if_false,
              Bool.false_eq_true]
            have g1' : blk'.ref_cnt = refsL s.handles b := g1
            omega
        · intro b hb hn
          simp only at hb hn
          by_cases hbd : b = b0
          · subst hbd
            rw [update_same] at hn
            cases hn
          · rw [update_ne _ _ _ _ hbd] at hn
            have hne : b0 ≠ b := fun hc => hbd hc.symm
            obtain ⟨g1, g2⟩ := hInv.dead b hb hn
            constructor
            · show refsL (s.handles ++ [some (some b0)]) b = 0
              rw [refsL_concat]
              simp only [sref_some_some, nbeq_false hne, if_false,
                Bool.false_eq_true]
              have g1' : refsL s.handles b = 0 := g1
              omega
            · exact g2

theorem inv_moveCon {s : SPState} (hInv : Inv s) (src : Nat) :
    Inv (step s (.moveCon src)) := by
  cases hslot : s.handles.get? src with
  | none =>
    simp only [step, hslot]
    exact hInv
  | some sl =>
    cases sl with
    | none =>
      simp only [step, hslot]
      exact hInv
    | some c =>
      simp only [step, hslot]
      apply inv_handles_congr hInv
      intro b
      rw [refsL_concat]
      cases c with
      | none =>
        rw [refsL_set_eq s.handles src hslot (some none) b
          (by simp) (by simp)]
        simp [refs]
      | some b0 =>
        by_cases hb : b0 = b
        · subst hb
          have hsub := refsL_set_sub s.handles src hslot (some none) b0
            (by simp) (by simp)
          simp only [sref_some_some, nbeq_true rfl, if_true]
          have hr : refs s b0 = refsL s.handles b0 := rfl
          omega
        · rw [refsL_set_eq s.handles src hslot (some none) b
            (by simp [nbeq_false hb]) (by simp)]
          simp only [sref_some_some, nbeq_false hb, if_false,
            Bool.false_eq_true]
          have hr : refs s b = refsL s.handles b := rfl
          omega

theorem inv_swapH {s : SPState} (hInv : Inv s) (a b : Nat) :
    Inv (step s (.swapH a b)) := by
  by_cases hab : a = b
  · subst hab
    cases hslot : s.handles.get? a with
    | none =>
      simp only [step, hslot]
      exact hInv
    | some sl =>
      cases sl with
      | none =>
        simp only [step, hslot]
        exact hInv
      | some c =>
        simp only [step, hslot]
        rw [List.set_set, lset_self hslot]
        exact hInv
  · cases hsa : s.handles.get? a with
    | none =>
      simp only [step, hsa]
      exact hInv
    | some sla =>
      cases hsb : s.handles.get? b with
      | none =>
        cases sla with
        | none =>
          simp only [step, hsa, hsb]
          exact hInv
        | some ca =>
          simp only [step, hsa, hsb]
          exact hInv
      | some slb =>
        cases sla with
        | none =>
          simp only [step, hsa, hsb]
          exact hInv
        | some ca =>
          cases slb with
          | none =>
            simp only [step, hsa, hsb]
            exact hInv
          | some cb =>
            simp only [step, hsa, hsb]
            apply inv_handles_congr hInv
            intro x
            have hsb' : (s.handles.set a (some cb)).get? b = some (some cb) :=
              by rw [lget_set_ne _ _ _ _ hab]; exact hsb
            have e1 := refsL_set s.handles a (some cb) hsa x
            have e2 := refsL_set (s.handles.set a (some cb)) b (some ca)
              hsb' x
            have hr : refs s x = refsL s.handles x := rfl
            omega

theorem inv_reset {s : SPState} (hInv : Inv s) (h : Nat) :
    Inv (step s (.reset h)) := by
  cases hslot : s.handles.get? h with
  | none =>
    simp only [step, hslot]
    exact hInv
  | some sl =>
    cases sl with
    | none =>
      simp only [step, hslot]
      exact hInv
    | some c =>
      simp only [step, hslot]
      exact inv_dec_clear hInv hslot (Or.inl rfl)

theorem inv_destroy {s : SPState} (hInv : Inv s) (h : Nat) :
    Inv (step s (.destroy h)) := by
  cases hslot : s.handles.get? h with
  | none =>
    simp only [step, hslot]
    exact hInv
  | some sl =>
    cases sl with
    | none =>
      simp only [step, hslot]
      exact hInv
    | some c =>
      simp only [step, hslot]
      exact inv_dec_clear hInv hslot (Or.inr rfl)

theorem inv_resetTo {s : SPState} (hInv : Inv s) (h raw : Nat) :
    Inv (step s (.resetTo h raw)) := by
  cases hslot : s.handles.get? h with
  | none =>
    simp only [step, hslot]
    exact hInv
  | some sl =>
    cases sl with
    | none =>
      simp only [step, hslot]
      exact hInv
    | some c =>
      simp only [step, hslot]
      by_cases hg : ptrOfCB s c = raw
      · simp only [if_pos hg]
        exact hInv
      · simp only [if_neg hg]
        by_cases hraw : raw = 0
        · subst hraw
          simp only [if_pos rfl]
          exact inv_dec_clear hInv hslot (Or.inl rfl)
        · simp only [if_neg hraw]
          have hT : Inv { decCB s c with
              handles := (decCB s c).handles.set h (some none) } :=
            inv_dec_clear hInv hslot (Or.inl rfl)
          have hTh : ((decCB s c).handles.set h (some none)).get? h
              = some (some none) := by
            rw [decCB_handles]
            exact SPV.lget_set_eq _ hslot
          have hA := inv_alloc_bind hT hTh hraw
          rw [show (decCB s c).handles.set h (some (some (decCB s c).nextBlock))
            = ((decCB s c).handles.set h (some none)).set h
                (some (some (decCB s c).nextBlock)) from
            (List.set_set _ _ _ _).symm]
          exact hA

theorem inv_moveAssign {s : SPState} (hInv : Inv s) (dst src : Nat) :
    Inv (step s (.moveAssign dst src)) := by
  by_cases hds : dst = src
  · simp only [step, if_pos hds]
    exact hInv
  · cases hsd : s.handles.get? dst with
    | none =>
      simp only [step, if_neg hds, hsd]
      exact hInv
    | some sld =>
      cases sld with
      | none =>
        simp only [step, if_neg hds, hsd]
        exact hInv
      | some cd =>
        cases hss : s.handles.get? src with
        | none =>
          simp only [step, if_neg hds, hsd, hss]
          exact hInv
        | some sls =>
          cases sls with
          | none =>
            simp only [step, if_neg hds, hsd, hss]
            exact hInv
          | some cs =>
            simp only [step, if_neg hds, hsd, hss]
            rw [decCB_handles]
            apply inv_dec_general hInv cd
            · intro bd hbd
              subst hbd
              exact refs_pos_of_slot hsd
            · intro x
              have hss' : (s.handles.set dst (some cs)).get? src
                  = some (some cs) := by
                rw [SPV.lget_set_ne _ _ _ _ hds]
                exact hss
              have e1 := refsL_set s.handles dst (some cs) hsd x
              have e2 := refsL_set (s.handles.set dst (some cs)) src
                (some none) hss' x
              simp only [sref_some_none, Bool.false_eq_true, if_false] at e2
              have hcond : (if ((some cd : Slot) == some (some x)) = true
                  then (1 : Nat) else 0)
                  = (if cd = some x then 1 else 0) := by
                by_cases hcx : cd = some x
                · subst hcx
                  simp
                · simp [hcx]
              omega

theorem inv_copyAssign {s : SPState} (hInv : Inv s) (dst src : Nat) :
    Inv (step s (.copyAssign dst src)) := by
  by_cases hds : dst = src
  · simp only [step, if_pos hds]
    exact hInv
  · cases hsd : s.handles.get? dst with
    | none =>
      simp only [step, if_neg hds, hsd]
      exact hInv
    | some sld =>
      cases sld with
      | none =>
        simp only [step, if_neg hds, hsd]
        exact hInv
      | some cd =>
        cases hss : s.handles.get? src with
        | none =>
          simp only [step, if_neg hds, hsd, hss]
          exact hInv
        | some sls =>
          cases sls with
          | none =>
            simp only [step, if_neg hds, hsd, hss]
            exact hInv
          | some cs =>
            cases cs with
            | none =>
              simp only [step, if_neg hds, hsd, hss, incCB]
              exact inv_dec_clear hInv hsd (Or.inl rfl)
            | some bs =>
              obtain ⟨blks, hheaps, hcnts, hposs, hptrs, hevs, hlts⟩ :=
                hInv.block_of_slot hss
              cases cd with
              | none =>
                -- dst held nothing: pure increment plus repointing
                simp only [step, if_neg hds, hsd, hss, decCB, incCB, hheaps]
                refine ⟨?_, ?_, ?_⟩
                · intro b hb
                  simp only at hb
                  have hne : bs ≠ b := by omega
                  obtain ⟨g1, g2, g3⟩ := hInv.fresh b hb
                  refine ⟨?_, ?_, g3⟩
                  · simpa [update_ne _ _ _ _ (fun hc => hne hc.symm)] using g1
                  · show refsL (s.handles.set dst (some (some bs))) b = 0
                    rw [refsL_set_eq s.handles dst hsd _ b (by simp)
                      (by simp [nbeq_false hne])]
                    exact g2
                · intro b blk' hb
                  simp only at hb
                  by_cases hbd : b = bs
                  · subst hbd
                    rw [update_same] at hb
                    have hblk' : blk' = ⟨blks.ptr, blks.ref_cnt + 1⟩ :=
                      (Option.some.inj hb).symm
                    subst hblk'
                    refine ⟨?_, by show 1 ≤ blks.ref_cnt + 1; omega,
                      by show blks.ptr ≠ 0; exact hptrs, hevs⟩
                    show blks.ref_cnt + 1
                      = refsL (s.handles.set dst (some (some b))) b
                    rw [refsL_set_add s.handles dst hsd _ b (by simp)
                      (by simp)]
                    have hcnts' : blks.ref_cnt = refsL s.handles b := hcnts
                    omega
                  · rw [update_ne _ _ _ _ hbd] at hb
                    have hne : bs ≠ b := fun hc => hbd hc.symm
                    obtain ⟨g1, g2, g3, g4⟩ := hInv.live b blk' hb
                    refine ⟨?_, g2, g3, g4⟩
                    show blk'.ref_cnt
                      = refsL (s.handles.set dst (some (some bs))) b
                    rw [refsL_set_eq s.handles dst hsd _ b (by simp)
                      (by simp [nbeq_false hne])]
                    exact g1
                · intro b hb hn
                  simp only at hb hn
                  by_cases hbd : b = bs
                  · subst hbd
                    rw [update_same] at hn
                    cases hn
                  · rw [update_ne _ _ _ _ hbd] at hn
                    have hne : bs ≠ b := fun hc => hbd hc.symm
                    obtain ⟨g1, g2⟩ := hInv.dead b hb hn
                    refine ⟨?_, g2⟩
                    show refsL (s.handles.set dst (some (some bs))) b = 0
                    rw [refsL_set_eq s.handles dst hsd _ b (by simp)
                      (by simp [nbeq_false hne])]
                    exact g1
              | some bd =>
                obtain ⟨blkd, hheapd, hcntd, hposd, hptrd, hevd, hltd⟩ :=
                  hInv.block_of_slot hsd
                by_cases hbb : bs = bd
                · -- dst and src already share the block: count net unchanged
                  subst hbb
                  have h2 : 2 ≤ refsL s.handles bs :=
                    SPV.lcountP_two _ hsd hss hds (by simp) (by simp)
                  have hcntd' : blkd.ref_cnt = refsL s.handles bs := hcntd
                  have hfree : ¬(blkd.ref_cnt - 1 = 0) := by omega
                  simp only [step, if_neg hds, hsd, hss, decCB, hheapd,
                    if_neg hfree, incCB, update_same]
                  have hrefs : ∀ x,
                      refsL (s.handles.set dst (some (some bs))) x
                        = refsL s.handles x := fun x =>
                    refsL_set_same s.handles dst hsd _ x rfl
                  refine ⟨?_, ?_, ?_⟩
                  · intro b hb
                    simp only at hb
                    have hne : bs ≠ b := by omega
                    obtain ⟨g1, g2, g3⟩ := hInv.fresh b hb
                    refine ⟨?_, ?_, g3⟩
                    · have hne' : b ≠ bs := fun hc => hne hc.symm
                      simp only [update_ne _ _ _ _ hne']
                      exact g1
                    · show refsL (s.handles.set dst (some (some bs))) b = 0
                      rw [hrefs b]
                      exact g2
                  · intro b blk' hb
                    simp only at hb
                    by_cases hbd2 : b = bs
                    · subst hbd2
                      rw [update_same] at hb
                      have hblk' : blk'
                          = ⟨blkd.ptr, blkd.ref_cnt - 1 + 1⟩ :=
                        (Option.some.inj hb).symm
                      subst hblk'
                      refine ⟨?_, by show 1 ≤ blkd.ref_cnt - 1 + 1; omega,
                        by show blkd.ptr ≠ 0; exact hptrd, hevd⟩
                      show blkd.ref_cnt - 1 + 1
                        = refsL (s.handles.set dst (some (some b))) b
                      rw [hrefs b]
                      omega
                    · rw [update_ne _ _ _ _ hbd2,
                        update_ne _ _ _ _ hbd2] at hb
                      obtain ⟨g1, g2, g3, g4⟩ := hInv.live b blk' hb
                      refine ⟨?_, g2, g3, g4⟩
                      show blk'.ref_cnt
                        = refsL (s.handles.set dst (some (some bs))) b
                      rw [hrefs b]
                      exact g1
                  · intro b hb hn
                    simp only at hb hn
                    by_cases hbd2 : b = bs
                    · subst hbd2
                      rw [update_same] at hn
                      cases hn
                    · rw [update_ne _ _ _ _ hbd2,
                        update_ne _ _ _ _ hbd2] at hn
                      obtain ⟨g1, g2⟩ := hInv.dead b hb hn
                      refine ⟨?_, g2⟩
                      show refsL (s.handles.set dst (some (some bs))) b = 0
                      rw [hrefs b]
                      exact g1
                · -- distinct blocks: dst's block loses a reference,
                  -- src's block gains one
                  by_cases hfree : blkd.ref_cnt - 1 = 0
                  · have hupd : update s.heap bd none bs = s.heap bs :=
                      update_ne _ _ _ _ hbb
                    simp only [step, if_neg hds, hsd, hss, decCB, hheapd,
                      if_pos hfree, incCB, hupd, hheaps]
                    have hone : refsL s.handles bd = 1 := by
                      have hcntd' : blkd.ref_cnt = refsL s.handles bd := hcntd
                      omega
                    refine ⟨?_, ?_, ?_⟩
                    · intro b hb
                      simp only at hb
                      have hned : bd ≠ b := by omega
                      have hnes : bs ≠ b := by omega
                      obtain ⟨g1, g2, g3⟩ := hInv.fresh b hb
                      refine ⟨?_, ?_, ?_⟩
                      · have hne1 : b ≠ bs := fun hc => hnes hc.symm
                        have hne2 : b ≠ bd := fun hc => hned hc.symm
                        simp only [update_ne _ _ _ _ hne1,
                          update_ne _ _ _ _ hne2]
                        exact g1
                      · show refsL (s.handles.set dst (some (some bs))) b = 0
                        rw [refsL_set_eq s.handles dst hsd _ b
                          (by simp [nbeq_false hned])
                          (by simp [nbeq_false hnes])]
                        exact g2
                      · show eventCountL
                          (⟨bd, blkd.ptr, s.kind⟩ :: s.events) b = 0
                        rw [eventCountL_cons]
                        have g3' : eventCountL s.events b = 0 := g3
                        simp [nbeq_false hned, g3']
                    · intro b blk' hb
                      simp only at hb
                      by_cases hb_s : b = bs
                      · subst hb_s
                        rw [update_same] at hb
                        have hblk' : blk' = ⟨blks.ptr, blks.ref_cnt + 1⟩ :=
                          (Option.some.inj hb).symm
                        subst hblk'
                        have hnds : bd ≠ b := fun hc => hbb hc.symm
                        refine ⟨?_, by show 1 ≤ blks.ref_cnt + 1; omega,
                          by show blks.ptr ≠ 0; exact hptrs, ?_⟩
                        · show blks.ref_cnt + 1
                            = refsL (s.handles.set dst (some (some b))) b
                          rw [refsL_set_add s.handles dst hsd _ b
                            (by simp [nbeq_false hnds]) (by simp)]
                          have hcnts' : blks.ref_cnt = refsL s.handles b :=
                            hcnts
                          omega
                        · show eventCountL
                            (⟨bd, blkd.ptr, s.kind⟩ :: s.events) b = 0
                          rw [eventCountL_cons]
                          have hevs' : eventCountL s.events b = 0 := hevs
                          simp [nbeq_false hnds, hevs']
                      · rw [update_ne _ _ _ _ hb_s] at hb
                        by_cases hb_d : b = bd
                        · subst hb_d
                          rw [update_same] at hb
                          cases hb
                        · rw [update_ne _ _ _ _ hb_d] at hb
                          have hned : bd ≠ b := fun hc => hb_d hc.symm
                          have hnes : bs ≠ b := fun hc => hb_s hc.symm
                          obtain ⟨g1, g2, g3, g4⟩ := hInv.live b blk' hb
                          refine ⟨?_, g2, g3, ?_⟩
                          · show blk'.ref_cnt
                              = refsL (s.handles.set dst (some (some bs))) b
                            rw [refsL_set_eq s.handles dst hsd _ b
                              (by simp [nbeq_false hned])
                              (by simp [nbeq_false hnes])]
                            exact g1
                          · show eventCountL
                              (⟨bd, blkd.ptr, s.kind⟩ :: s.events) b = 0
                            rw [eventCountL_cons]
                            have g4' : eventCountL s.events b = 0 := g4
                            simp [nbeq_false hned, g4']
                    · intro b hb hn
                      simp only at hb hn
                      by_cases hb_d : b = bd
                      · subst hb_d
                        constructor
                        · show refsL (s.handles.set dst (some (some bs))) b
                            = 0
                          have hnsb : bs ≠ b := fun hc => hbb hc
                          have hsub := refsL_set_sub s.handles dst hsd
                            (some (some bs)) b (by simp)
                            (by simp [nbeq_false hnsb])
                          omega
                        · show eventCountL
                            (⟨b, blkd.ptr, s.kind⟩ :: s.events) b = 1
                          rw [eventCountL_cons]
                          have hevd' : eventCountL s.events b = 0 := hevd
                          simp [hevd']
                      · by_cases hb_s : b = bs
                        · subst hb_s
                          rw [update_same] at hn
                          cases hn
                        · rw [update_ne _ _ _ _ hb_s,
                            update_ne _ _ _ _ hb_d] at hn
                          have hned : bd ≠ b := fun hc => hb_d hc.symm
                          have hnes : bs ≠ b := fun hc => hb_s hc.symm
                          obtain ⟨g1, g2⟩ := hInv.dead b hb hn
                          constructor
                          · show refsL (s.handles.set dst (some (some bs))) b
                              = 0
                            rw [refsL_set_eq s.handles dst hsd _ b
                              (by simp [nbeq_false hned])
                              (by simp [nbeq_false hnes])]
                            exact g1
                          · show eventCountL
                              (⟨bd, blkd.ptr, s.kind⟩ :: s.events) b = 1
                            rw [eventCountL_cons]
                            have g2' : eventCountL s.events b = 1 := g2
                            simp [nbeq_false hned, g2']
                  · have hupd : update s.heap bd
                        (some ⟨blkd.ptr, blkd.ref_cnt - 1⟩) bs
                        = s.heap bs := update_ne _ _ _ _ hbb
                    simp only [step, if_neg hds, hsd, hss, decCB, hheapd,
                      if_neg hfree, incCB, hupd, hheaps]
                    refine ⟨?_, ?_, ?_⟩
                    · intro b hb
                      simp only at hb
                      have hned : bd ≠ b := by omega
                      have hnes : bs ≠ b := by omega
                      obtain ⟨g1, g2, g3⟩ := hInv.fresh b hb
                      refine ⟨?_, ?_, g3⟩
                      · have hne1 : b ≠ bs := fun hc => hnes hc.symm
                        have hne2 : b ≠ bd := fun hc => hned hc.symm
                        simp only [update_ne _ _ _ _ hne1,
                          update_ne _ _ _ _ hne2]
                        exact g1
                      · show refsL (s.handles.set dst (some (some bs))) b = 0
                        rw [refsL_set_eq s.handles dst hsd _ b
                          (by simp [nbeq_false hned])
                          (by simp [nbeq_false hnes])]
                        exact g2
                    · intro b blk' hb
                      simp only at hb
                      by_cases hb_s : b = bs
                      · subst hb_s
                        rw [update_same] at hb
                        have hblk' : blk' = ⟨blks.ptr, blks.ref_cnt + 1⟩ :=
                          (Option.some.inj hb).symm
                        subst hblk'
                        have hnds : bd ≠ b := fun hc => hbb hc.symm
                        refine ⟨?_, by show 1 ≤ blks.ref_cnt + 1; omega,
                          by show blks.ptr ≠ 0; exact hptrs, hevs⟩
                        show blks.ref_cnt + 1
                          = refsL (s.handles.set dst (some (some b))) b
                        rw [refsL_set_add s.handles dst hsd _ b
                          (by simp [nbeq_false hnds]) (by simp)]
                        have hcnts' : blks.ref_cnt = refsL s.handles b :=
                          hcnts
                        omega
                      · rw [update_ne _ _ _ _ hb_s] at hb
                        by_cases hb_d : b = bd
                        · subst hb_d
                          rw [update_same] at hb
                          have hblk' : blk'
                              = ⟨blkd.ptr, blkd.ref_cnt - 1⟩ :=
                            (Option.some.inj hb).symm
                          subst hblk'
                          have hnsb : bs ≠ b := fun hc => hbb hc
                          refine ⟨?_, by show 1 ≤ blkd.ref_cnt - 1; omega,
                            by show blkd.ptr ≠ 0; exact hptrd, hevd⟩
                          show blkd.ref_cnt - 1
                            = refsL (s.handles.set dst (some (some bs))) b
                          have hsub := refsL_set_sub s.handles dst hsd
                            (some (some bs)) b (by simp)
                            (by simp [nbeq_false hnsb])
                          have hcntd' : blkd.ref_cnt = refsL s.handles b :=
                            hcntd
                          omega
                        · rw [update_ne _ _ _ _ hb_d] at hb
                          have hned : bd ≠ b := fun hc => hb_d hc.symm
                          have hnes : bs ≠ b := fun hc => hb_s hc.symm
                          obtain ⟨g1, g2, g3, g4⟩ := hInv.live b blk' hb
                          refine ⟨?_, g2, g3, g4⟩
                          show blk'.ref_cnt
                            = refsL (s.handles.set dst (some (some bs))) b
                          rw [refsL_set_eq s.handles dst hsd _ b
                            (by simp [nbeq_false hned])
                            (by simp [nbeq_false hnes])]
                          exact g1
                    · intro b hb hn
                      simp only at hb hn
                      by_cases hb_s : b = bs
                      · subst hb_s
                        rw [update_same] at hn
                        cases hn
                      · rw [update_ne _ _ _ _ hb_s] at hn
                        by_cases hb_d : b = bd
                        · subst hb_d
                          rw [update_same] at hn
                          cases hn
                        · rw [update_ne _ _ _ _ hb_d] at hn
                          have hned : bd ≠ b := fun hc => hb_d hc.symm
                          have hnes : bs ≠ b := fun hc => hb_s hc.symm
                          obtain ⟨g1, g2⟩ := hInv.dead b hb hn
                          refine ⟨?_, g2⟩
                          show refsL (s.handles.set dst (some (some bs))) b
                            = 0
                          rw [refsL_set_eq s.handles dst hsd _ b
                            (by simp [nbeq_false hned])
                            (by simp [nbeq_false hnes])]
                          exact g1

/-- Every operation of src/SharedPtr.h preserves the invariant. -/
theorem inv_step {s : SPState} (hInv : Inv s) (op : Op) :
    Inv (step s op) := by
  cases op with
  | construct raw => exact inv_construct hInv raw
  | copyCon src => exact inv_copyCon hInv src
  | moveCon src => exact inv_moveCon hInv src
  | copyAssign dst src => exact inv_copyAssign hInv dst src
  | moveAssign dst src => exact inv_moveAssign hInv dst src
  | reset h => exact inv_reset hInv h
  | resetTo h raw => exact inv_resetTo hInv h raw
  | swapH a b => exact inv_swapH hInv a b
  | destroy h => exact inv_destroy hInv h

/-- The empty state satisfies the invariant. -/
theorem inv_init (dk : DKind) : Inv (init dk) := by
  refine ⟨?_, ?_, ?_⟩
  · intro b _
    exact ⟨rfl, rfl, rfl⟩
  · intro b blk hb
    cases hb
  · intro b hb _
    cases hb

/-- The invariant holds in every reachable state. -/
theorem inv_exec {s : SPState} (hInv : Inv s) (ops : List Op) :
    Inv (exec s ops) := by
  induction ops generalizing s with
  | nil => exact hInv
  | cons op ops ih => exact ih (inv_step hInv op)

/-! ### Accessors with a reported-failure contract -/

/-- `operator*` of `SharedPtr<T>`: `assert(get()); return *get();` — a
failed assertion is a reported failure at the call site, modelled as
`none`; `mem` maps raw addresses to stored values. -/
def derefSP (mem : Nat → Int) (s : SPState) (h : Nat) : Option Int :=
  if getOf s h = 0 then none else some (mem (getOf s h))

/-- `operator[]` of `SharedPtr<T[]>`: `assert(get()); return get()[i];`
(the index itself is not validated, matching raw-array semantics). -/
def elemAt (mem : Nat → Int) (s : SPState) (h i : Nat) : Option Int :=
  if getOf s h = 0 then none else some (mem (getOf s h + i))

/-- `operator->` of `SharedPtr<T>`:
`T* operator->() const noexcept { return get(); }` — unlike `operator*`
it performs no assertion: it hands back `get()` unconditionally, which on
an Empty handle is the null pointer (address 0). -/
def arrowSP (s : SPState) (h : Nat) : Nat :=
  getOf s h

/-! ### Small inversion lemmas on the accessors -/

theorem cbOf_eq_of_slot {s : SPState} {h : Nat} {c : Option Nat}
    (hs : s.handles.get? h = some (some c)) : cbOf s h = c := by
  unfold cbOf
  rw [hs]

theorem slot_of_cbOf {s : SPState} {h b : Nat}
    (hc : cbOf s h = some b) :
    s.handles.get? h = some (some (some b)) := by
  unfold cbOf at hc
  cases hq : s.handles.get? h with
  | none =>
    rw [hq] at hc
    cases hc
  | some sl =>
    cases sl with
    | none =>
      rw [hq] at hc
      cases hc
    | some c =>
      rw [hq] at hc
      simp only at hc
      subst hc
      rfl

/-- `dec` never touches the heap entry of a block it is not releasing. -/
theorem decCB_heap_other (s : SPState) (cd : Option Nat) (b : Nat)
    (hcd : cd ≠ some b) : (decCB s cd).heap b = s.heap b := by
  cases cd with
  | none => rfl
  | some bd =>
    have hne : b ≠ bd := fun hc => hcd (by rw [hc])
    cases hh : s.heap bd with
    | none => simp [decCB, hh]
    | some blk =>
      by_cases h1 : blk.ref_cnt - 1 = 0
      · simp [decCB, hh, h1, update_ne _ _ _ _ hne]
      · simp [decCB, hh, h1, update_ne _ _ _ _ hne]

end SP

/-! ## Model of src/main.cpp

The type-erased implementation: `ControlBlockBase` holds an atomic count and
a `DestroyFn`; `ControlBlockImpl<U, Deleter>` stores the deleter by value
and installs a capture-free destroy function in its constructor body.  Every
non-null construction path (the deleter constructor, with
`std::default_delete` as default, and `reset`) goes through
`ControlBlockImpl`. -/

namespace MC

/-- The destroy function installed by `ControlBlockImpl`'s constructor:

```cpp
destroy_fn = [](void* p) noexcept {
    Deleter del = static_cast<ControlBlockImpl*>(
                     static_cast<ControlBlockBase*>(nullptr)
                  )->deleter;
    del(static_cast<U*>(p));
};
```

Pointers are `Option Nat` with `none` for a null pointer; reading the
`deleter` field through a pointer is defined only on `some` addresses.  The
`self` pointer is produced by casting the null pointer, so the field read
dereferences a null-derived pointer: the result is `none` (undefined
behavior).  The `some` branch is the safe-execution path that would apply
the stored deleter to `p`. -/
def implDestroyFn : Nat → Option Unit := fun _p =>
  let self : Option Nat := none
  match self with
  | none => none
  | some _a => some ()

/-- `ControlBlockBase` (as completed by `ControlBlockImpl`): the reference
count and the stored destroy function.  The deleter value itself is opaque
and never reachable through defined behavior. -/
structure MBlock where
  count : Nat
  destroyFn : Nat → Option Unit

/-- A `SharedPtr` object's two data members `ptr_` and `cb_`. -/
structure MHandle where
  ptr : Nat
  cb : Option Nat
deriving DecidableEq, Repr

/-- One invocation of a block's destroy path: the block, the resource
address passed, and whether the invocation's deleter read dereferenced the
null-derived pointer (undefined behavior). -/
structure MEvent where
  blk : Nat
  res : Nat
  ub : Bool
deriving DecidableEq, Repr

/-- Global state of the main.cpp machine. -/
structure MState where
  heap : Nat → Option MBlock
  nextB : Nat
  handles : List (Option MHandle)
  events : List MEvent

def mupdate (f : Nat → Option MBlock) (b : Nat) (v : Option MBlock) :
    Nat → Option MBlock :=
  fun b' => if b' = b then v else f b'

/-- `release()`: `if (cb_->count.fetch_sub(1, acq_rel) == 1)
cb_->destroy(ptr_);` where `destroy` runs `destroy_fn(ptr)` and then
`delete this`.  The destroy invocation is logged together with whether its
deleter read was the null dereference. -/
def mrelease (s : MState) (p : Nat) (cb : Option Nat) : MState :=
  match cb with
  | none => s
  | some b =>
    match s.heap b with
    | none => s
    | some blk =>
      if blk.count = 1 then
        { s with heap := mupdate s.heap b none,
                 events := ⟨b, p, (blk.destroyFn p).isNone⟩ :: s.events }
      else
        { s with
            heap := mupdate s.heap b (some ⟨blk.count - 1, blk.destroyFn⟩) }

/-- `add_ref()`: `if (cb_) cb_->count.fetch_add(1, relaxed);`. -/
def mincCB (s : MState) (cb : Option Nat) : MState :=
  match cb with
  | none => s
  | some b =>
    match s.heap b with
    | none => s
    | some blk =>
      { s with heap := mupdate s.heap b (some ⟨blk.count + 1, blk.destroyFn⟩) }

/-- The handle operations of main.cpp's `SharedPtr<T>`. -/
inductive MOp where
  /-- `SharedPtr(T* ptr, Deleter d = ...)` with non-null `raw`, or the
  default constructor when `raw = 0` (the deleter constructor's null path
  leaves the members uninitialized and is modelled by `mctorRaw`). -/
  | mconstruct (raw : Nat)
  /-- copy constructor. -/
  | mcopyCon (src : Nat)
  /-- move constructor. -/
  | mmoveCon (src : Nat)
  /-- `operator=(SharedPtr other)` where `other` is copy-constructed. -/
  | massignCopy (dst src : Nat)
  /-- `operator=(SharedPtr other)` where `other` is move-constructed. -/
  | massignMove (dst src : Nat)
  /-- `reset(ptr)` / `reset(ptr, d)` with non-null `ptr`. -/
  | mreset (h raw : Nat)
  /-- member `swap`. -/
  | mswap (a b : Nat)
  /-- `~SharedPtr()`. -/
  | mdestroy (h : Nat)
deriving DecidableEq, Repr

/-- One operation of the state machine, transcribed from src/main.cpp. -/
def mstep (s : MState) (op : MOp) : MState :=
  match op with
  | .mconstruct raw =>
    if raw = 0 then
      -- SharedPtr() : ptr_(nullptr), cb_(nullptr)
      { s with handles := s.handles ++ [some ⟨0, none⟩] }
    else
      -- cb_ = new ControlBlockImpl<T, Deleter>(ptr, d); ptr_ = ptr;
      { s with heap := mupdate s.heap s.nextB (some ⟨1, implDestroyFn⟩),
               nextB := s.nextB + 1,
               handles := s.handles ++ [some ⟨raw, some s.nextB⟩] }
  | .mcopyCon src =>
    match s.handles.get? src with
    | some (some hs) =>
      -- ptr_(other.ptr_), cb_(other.cb_) { add_ref(); }
      let s1 := mincCB s hs.cb
      { s1 with handles := s1.handles ++ [some hs] }
    | _ => s
  | .mmoveCon src =>
    match s.handles.get? src with
    | some (some hs) =>
      -- takes both members; other.ptr_ = nullptr; other.cb_ = nullptr;
      { s with
          handles := (s.handles.set src (some ⟨0, none⟩)) ++ [some hs] }
    | _ => s
  | .massignCopy dst src =>
    match s.handles.get? src, s.handles.get? dst with
    | some (some hs), some (some hd) =>
      -- `other` is copy-constructed from src: add_ref
      let s1 := mincCB s hs.cb
      -- swap(other): dst takes src's fields; `other` now holds dst's old
      let s2 : MState := { s1 with handles := s1.handles.set dst (some hs) }
      -- `other` is destroyed at the end of operator=: release
      mrelease s2 hd.ptr hd.cb
    | _, _ => s
  | .massignMove dst src =>
    match s.handles.get? src, s.handles.get? dst with
    | some (some hs), some (some _hd) =>
      -- `other` is move-constructed from src: src becomes ⟨null, null⟩
      let s1 : MState :=
        { s with handles := s.handles.set src (some ⟨0, none⟩) }
      -- swap(other): dst takes src's old fields; `other` holds what dst
      -- held at this point (already nulled when dst = src)
      let hd' : MHandle :=
        match s1.handles.get? dst with
        | some (some x) => x
        | _ => ⟨0, none⟩
      let s2 : MState := { s1 with handles := s1.handles.set dst (some hs) }
      mrelease s2 hd'.ptr hd'.cb
    | _, _ => s
  | .mreset h raw =>
    match s.handles.get? h with
    | some (some hd) =>
      if raw = 0 then
        -- `SharedPtr(ptr).swap(*this)` with null ptr runs the deleter
        -- constructor, which leaves the temporary's members uninitialized
        -- (see `mctorRaw`): that execution is undefined and outside this
        -- machine
        s
      else
        -- SharedPtr(ptr[, d]).swap(*this); temporary destroyed
        let s1 : MState :=
          { s with heap := mupdate s.heap s.nextB (some ⟨1, implDestroyFn⟩),
                   nextB := s.nextB + 1 }
        let s2 : MState :=
          { s1 with handles := s1.handles.set h (some ⟨raw, some s.nextB⟩) }
        mrelease s2 hd.ptr hd.cb
    | _ => s
  | .mswap a b =>
    match s.handles.get? a, s.handles.get? b with
    | some (some ha), some (some hb) =>
      -- std::swap(ptr_, other.ptr_); std::swap(cb_, other.cb_);
      { s with handles := (s.handles.set a (some hb)).set b (some ha) }
    | _, _ => s
  | .mdestroy h =>
    match s.handles.get? h with
    | some (some hd) =>
      let s1 := mrelease s hd.ptr hd.cb
      { s1 with handles := s1.handles.set h none }
    | _ => s

def minit : MState :=
  { heap := fun _ => none, nextB := 0, handles := [], events := [] }

def mexec (s : MState) (ops : List MOp) : MState :=
  ops.foldl mstep s

/-! ### Accessors of main.cpp's SharedPtr -/

/-- `get()`: `return ptr_;`. -/
def mget (h : MHandle) : Nat := h.ptr

/-- `explicit operator bool()`: `ptr_ != nullptr`. -/
def mbool (h : MHandle) : Bool := h.ptr != 0

/-- `use_count()`: `cb_ ? cb_->count.load() : 0`. -/
def muse_count (s : MState) (hd : MHandle) : Nat :=
  match hd.cb with
  | none => 0
  | some b =>
    match s.heap b with
    | some blk => blk.count
    | none => 0

/-- `operator==`: `a.ptr_ == b.ptr_`. -/
def mainEq (a b : MHandle) : Bool := a.ptr == b.ptr

/-- `operator!=`: `!(a == b)`. -/
def mainNe (a b : MHandle) : Bool := !(mainEq a b)

/-- `operator*`: `if (!ptr_) throw std::runtime_error("Null ptr");
return *ptr_;` — `mem` maps raw addresses to the stored values. -/
def mstar (mem : Nat → Int) (h : MHandle) : Except String Int :=
  if h.ptr = 0 then Except.error "Null ptr" else Except.ok (mem h.ptr)

/-- `operator->`: `if (!ptr_) throw std::runtime_error("Null ptr");
return ptr_;`. -/
def marrow (h : MHandle) : Except String Nat :=
  if h.ptr = 0 then Except.error "Null ptr" else Except.ok h.ptr

/-- The deleter constructor
`SharedPtr(T* ptr, Deleter d = Deleter())` of main.cpp:

```cpp
{ if (ptr) { cb_ = new ControlBlockImpl<T, Deleter>(ptr, std::move(d));
             ptr_ = ptr; } }
```

`ptr_` and `cb_` have no member initializers, so on the null path the
constructor body never assigns them and the members keep whatever
indeterminate values were in the object's storage — modelled by the `junk`
parameter. -/
def mctorRaw (s : MState) (junk : MHandle) (raw : Nat) : MState × MHandle :=
  if raw = 0 then
    (s, junk)
  else
    ({ s with heap := mupdate s.heap s.nextB (some ⟨1, implDestroyFn⟩),
              nextB := s.nextB + 1 },
     ⟨raw, some s.nextB⟩)

/-! ### Invariants of the main.cpp machine -/

theorem mupdate_same (f : Nat → Option MBlock) (b : Nat)
    (v : Option MBlock) : mupdate f b v b = v := by
  simp [mupdate]

theorem mupdate_ne (f : Nat → Option MBlock) (b : Nat) (v : Option MBlock)
    (b' : Nat) (h : b' ≠ b) : mupdate f b v b' = f b' := by
  simp [mupdate, h]

/-- Number of logged destroy invocations for block `b`. -/
def meventCount (s : MState) (b : Nat) : Nat :=
  s.events.countP (fun e => e.blk == b)

/-- Every control block of main.cpp stores the `ControlBlockImpl` destroy
function (every non-null construction path installs it). -/
def FnInv (s : MState) : Prop :=
  ∀ b blk, s.heap b = some blk → blk.destroyFn = implDestroyFn

/-- Every logged destroy invocation read its deleter through the
null-derived pointer (undefined behavior). -/
def EventsUB (s : MState) : Prop :=
  ∀ e, e ∈ s.events → e.ub = true

/-- Does the slot hold a live handle whose `cb_` points at block `b`? -/
def mrefSlot (b : Nat) : Option MHandle → Bool
  | some hd => hd.cb == some b
  | none => false

/-- Number of live handle slots of the list referencing block `b`. -/
def mrefsL (l : List (Option MHandle)) (b : Nat) : Nat :=
  l.countP (fun sl => mrefSlot b sl)

/-- Number of live handles of `s` whose `cb_` points at block `b`. -/
def mrefs (s : MState) (b : Nat) : Nat :=
  mrefsL s.handles b

@[simp] theorem mrefSlot_none (b : Nat) : mrefSlot b none = false := rfl

@[simp] theorem mrefSlot_some (b : Nat) (hd : MHandle) :
    mrefSlot b (some hd) = (hd.cb == some b) := rfl

@[simp] theorem ocb_none (b : Nat) :
    ((none : Option Nat) == some b) = false := rfl

@[simp] theorem ocb_some (b b' : Nat) :
    ((some b' : Option Nat) == some b) = (b' == b) := rfl

theorem mrefsL_concat (l : List (Option MHandle)) (v : Option MHandle)
    (b : Nat) : mrefsL (l ++ [v]) b
      = mrefsL l b + (if mrefSlot b v then 1 else 0) :=
  SPV.lcountP_concat _ l v

theorem mrefsL_set (l : List (Option MHandle)) (i : Nat)
    (v : Option MHandle) {old : Option MHandle}
    (h : l.get? i = some old) (b : Nat) :
    mrefsL (l.set i v) b + (if mrefSlot b old then 1 else 0)
      = mrefsL l b + (if mrefSlot b v then 1 else 0) :=
  SPV.lcountP_set _ v h

theorem mrefsL_set_eq (l : List (Option MHandle)) (i : Nat)
    {old : Option MHandle} (h : l.get? i = some old) (v : Option MHandle)
    (b : Nat) (ho : mrefSlot b old = false) (hv : mrefSlot b v = false) :
    mrefsL (l.set i v) b = mrefsL l b := by
  have hset := mrefsL_set l i v h b
  simp only [ho, hv, if_false, Bool.false_eq_true] at hset
  omega

theorem mrefsL_set_sub (l : List (Option MHandle)) (i : Nat)
    {old : Option MHandle} (h : l.get? i = some old) (v : Option MHandle)
    (b : Nat) (ho : mrefSlot b old = true) (hv : mrefSlot b v = false) :
    mrefsL (l.set i v) b + 1 = mrefsL l b := by
  have hset := mrefsL_set l i v h b
  simp only [ho, hv, if_true, if_false, Bool.false_eq_true] at hset
  omega

theorem mrefsL_set_add (l : List (Option MHandle)) (i : Nat)
    {old : Option MHandle} (h : l.get? i = some old) (v : Option MHandle)
    (b : Nat) (ho : mrefSlot b old = false) (hv : mrefSlot b v = true) :
    mrefsL (l.set i v) b = mrefsL l b + 1 := by
  have hset := mrefsL_set l i v h b
  simp only [ho, hv, if_true, if_false, Bool.false_eq_true] at hset
  omega

theorem mrefsL_set_same (l : List (Option MHandle)) (i : Nat)
    {old : Option MHandle} (h : l.get? i = some old) (v : Option MHandle)
    (b : Nat) (hov : mrefSlot b old = mrefSlot b v) :
    mrefsL (l.set i v) b = mrefsL l b := by
  have hset := mrefsL_set l i v h b
  rw [hov] at hset
  omega

theorem mrefs_pos_of_slot {s : MState} {k b : Nat} {hd : MHandle}
    (hk : s.handles.get? k = some (some hd)) (hcb : hd.cb = some b) :
    1 ≤ mrefs s b :=
  SPV.lcountP_pos_of_get _ hk (by simp [hcb])

/-- Reference-counting invariant of the main.cpp machine: every allocated
block is either live — its count equals the number of live handles whose
`cb_` points at it, that number is positive, and its destroy path has never
fired — or freed, with no referencing handle left and exactly one logged
destroy invocation (fired in the step that freed it). -/
structure MInv (s : MState) : Prop where
  fresh : ∀ b, s.nextB ≤ b →
    s.heap b = none ∧ mrefs s b = 0 ∧ meventCount s b = 0
  live : ∀ b blk, s.heap b = some blk →
    blk.count = mrefs s b ∧ 1 ≤ mrefs s b ∧ meventCount s b = 0
  dead : ∀ b, b < s.nextB → s.heap b = none →
    mrefs s b = 0 ∧ meventCount s b = 1

theorem MInv.lt_nextB {s : MState} (hInv : MInv s) {b : Nat} {blk : MBlock}
    (h : s.heap b = some blk) : b < s.nextB := by
  by_contra hge
  have hnone := (hInv.fresh b (Nat.le_of_not_lt hge)).1
  rw [hnone] at h
  cases h

/-- A block with at least one live reference is itself live, with all the
live-phase facts. -/
theorem MInv.live_block_of_refs {s : MState} (hInv : MInv s) {b : Nat}
    (hpos : 1 ≤ mrefs s b) :
    ∃ blk, s.heap b = some blk ∧ blk.count = mrefs s b ∧
      1 ≤ blk.count ∧ meventCount s b = 0 ∧ b < s.nextB := by
  cases hheap : s.heap b with
  | some blk =>
    obtain ⟨h1, h2, h3⟩ := hInv.live b blk hheap
    exact ⟨blk, rfl, h1, by omega, h3, hInv.lt_nextB hheap⟩
  | none =>
    by_cases hb : b < s.nextB
    · have := (hInv.dead b hb hheap).1
      omega
    · have := (hInv.fresh b (Nat.le_of_not_lt hb)).2.1
      omega

theorem FnInv_of_eq {s t : MState} (h : FnInv s) (he : t.heap = s.heap) :
    FnInv t := by
  intro b blk hb
  apply h
  rw [← he]
  exact hb

theorem EventsUB_of_eq {s t : MState} (h : EventsUB s)
    (he : t.events = s.events) : EventsUB t := by
  intro e hee
  apply h
  rw [← he]
  exact hee

theorem fn_inc {s : MState} (h1 : FnInv s) (cb : Option Nat) :
    FnInv (mincCB s cb) := by
  cases cb with
  | none => exact h1
  | some b =>
    cases hb : s.heap b with
    | none =>
      simp only [mincCB, hb]
      exact h1
    | some blk =>
      simp only [mincCB, hb]
      intro b' blk' hb'
      simp only at hb'
      by_cases hbb : b' = b
      · subst hbb
        rw [mupdate_same] at hb'
        have : blk' = ⟨blk.count + 1, blk.destroyFn⟩ :=
          (Option.some.inj hb').symm
        subst this
        exact h1 b' blk hb
      · rw [mupdate_ne _ _ _ _ hbb] at hb'
        exact h1 b' blk' hb'

theorem ub_inc {s : MState} (h2 : EventsUB s) (cb : Option Nat) :
    EventsUB (mincCB s cb) := by
  cases cb with
  | none => exact h2
  | some b =>
    cases hb : s.heap b with
    | none =>
      simp only [mincCB, hb]
      exact h2
    | some blk =>
      simp only [mincCB, hb]
      exact h2

theorem fn_release {s : MState} (h1 : FnInv s) (p : Nat)
    (cb : Option Nat) : FnInv (mrelease s p cb) := by
  cases cb with
  | none => exact h1
  | some b =>
    cases hb : s.heap b with
    | none =>
      simp only [mrelease, hb]
      exact h1
    | some blk =>
      by_cases hc : blk.count = 1
      · simp only [mrelease, hb, if_pos hc]
        intro b' blk' hb'
        simp only at hb'
        by_cases hbb : b' = b
        · subst hbb
          rw [mupdate_same] at hb'
          cases hb'
        · rw [mupdate_ne _ _ _ _ hbb] at hb'
          exact h1 b' blk' hb'
      · simp only [mrelease, hb, if_neg hc]
        intro b' blk' hb'
        simp only at hb'
        by_cases hbb : b' = b
        · subst hbb
          rw [mupdate_same] at hb'
          have : blk' = ⟨blk.count - 1, blk.destroyFn⟩ :=
            (Option.some.inj hb').symm
          subst this
          exact h1 b' blk hb
        · rw [mupdate_ne _ _ _ _ hbb] at hb'
          exact h1 b' blk' hb'

theorem ub_release {s : MState} (h1 : FnInv s) (h2 : EventsUB s) (p : Nat)
    (cb : Option Nat) : EventsUB (mrelease s p cb) := by
  cases cb with
  | none => exact h2
  | some b =>
    cases hb : s.heap b with
    | none =>
      simp only [mrelease, hb]
      exact h2
    | some blk =>
      by_cases hc : blk.count = 1
      · simp only [mrelease, hb, if_pos hc]
        intro e he
        rcases List.mem_cons.mp he with he1 | he2
        · subst he1
          show (blk.destroyFn p).isNone = true
          rw [h1 b blk hb]
          rfl
        · exact h2 e he2
      · simp only [mrelease, hb, if_neg hc]
        exact h2

/-- Every main.cpp operation preserves the destroy-function fact and the
all-invocations-are-UB fact. -/
theorem fnub_step {s : MState} (h1 : FnInv s) (h2 : EventsUB s)
    (op : MOp) : FnInv (mstep s op) ∧ EventsUB (mstep s op) := by
  cases op with
  | mconstruct raw =>
    by_cases hraw : raw = 0
    · subst hraw
      simp only [mstep, if_pos rfl]
      exact ⟨FnInv_of_eq h1 rfl, EventsUB_of_eq h2 rfl⟩
    · simp only [mstep, if_neg hraw]
      constructor
      · intro b blk hb
        simp only at hb
        by_cases hbb : b = s.nextB
        · subst hbb
          rw [mupdate_same] at hb
          have hblk : blk = ⟨1, implDestroyFn⟩ := (Option.some.inj hb).symm
          subst hblk
          rfl
        · rw [mupdate_ne _ _ _ _ hbb] at hb
          exact h1 b blk hb
      · exact EventsUB_of_eq h2 rfl
  | mcopyCon src =>
    cases hs : s.handles.get? src with
    | none =>
      simp only [mstep, hs]
      exact ⟨h1, h2⟩
    | some sl =>
      cases sl with
      | none =>
        simp only [mstep, hs]
        exact ⟨h1, h2⟩
      | some hsv =>
        simp only [mstep, hs]
        exact ⟨FnInv_of_eq (fn_inc h1 hsv.cb) rfl,
          EventsUB_of_eq (ub_inc h2 hsv.cb) rfl⟩
  | mmoveCon src =>
    cases hs : s.handles.get? src with
    | none =>
      simp only [mstep, hs]
      exact ⟨h1, h2⟩
    | some sl =>
      cases sl with
      | none =>
        simp only [mstep, hs]
        exact ⟨h1, h2⟩
      | some hsv =>
        simp only [mstep, hs]
        exact ⟨FnInv_of_eq h1 rfl, EventsUB_of_eq h2 rfl⟩
  | massignCopy dst src =>
    cases hs : s.handles.get? src with
    | none =>
      simp only [mstep, hs]
      exact ⟨h1, h2⟩
    | some sl =>
      cases sl with
      | none =>
        simp only [mstep, hs]
        exact ⟨h1, h2⟩
      | some hsv =>
        cases hd : s.handles.get? dst with
        | none =>
          simp only [mstep, hs, hd]
          exact ⟨h1, h2⟩
        | some sld =>
          cases sld with
          | none =>
            simp only [mstep, hs, hd]
            exact ⟨h1, h2⟩
          | some hdv =>
            simp only [mstep, hs, hd]
            have f2 : FnInv { mincCB s hsv.cb with
                handles := (mincCB s hsv.cb).handles.set dst (some hsv) } :=
              FnInv_of_eq (fn_inc h1 hsv.cb) rfl
            have u2 : EventsUB { mincCB s hsv.cb with
                handles := (mincCB s hsv.cb).handles.set dst (some hsv) } :=
              EventsUB_of_eq (ub_inc h2 hsv.cb) rfl
            exact ⟨fn_release f2 hdv.ptr hdv.cb, ub_release f2 u2 hdv.ptr hdv.cb⟩
  | massignMove dst src =>
    cases hs : s.handles.get? src with
    | none =>
      simp only [mstep, hs]
      exact ⟨h1, h2⟩
    | some sl =>
      cases sl with
      | none =>
        simp only [mstep, hs]
        exact ⟨h1, h2⟩
      | some hsv =>
        cases hd : s.handles.get? dst with
        | none =>
          simp only [mstep, hs, hd]
          exact ⟨h1, h2⟩
        | some sld =>
          cases sld with
          | none =>
            simp only [mstep, hs, hd]
            exact ⟨h1, h2⟩
          | some hdv =>
            simp only [mstep, hs, hd]
            constructor
            · apply fn_release
              exact FnInv_of_eq h1 rfl
            · apply ub_release
              · exact FnInv_of_eq h1 rfl
              · exact EventsUB_of_eq h2 rfl
  | mreset h raw =>
    cases hsl : s.handles.get? h with
    | none =>
      simp only [mstep, hsl]
      exact ⟨h1, h2⟩
    | some sl =>
      cases sl with
      | none =>
        simp only [mstep, hsl]
        exact ⟨h1, h2⟩
      | some hdv =>
        by_cases hraw : raw = 0
        · subst hraw
          simp only [mstep, hsl, if_pos rfl]
          exact ⟨h1, h2⟩
        · simp only [mstep, hsl, if_neg hraw]
          have f1 : FnInv { s with
              heap := mupdate s.heap s.nextB (some ⟨1, implDestroyFn⟩),
              nextB := s.nextB + 1 } := by
            intro b blk hb
            simp only at hb
            by_cases hbb : b = s.nextB
            · subst hbb
              rw [mupdate_same] at hb
              have hblk : blk = ⟨1, implDestroyFn⟩ :=
                (Option.some.inj hb).symm
              subst hblk
              rfl
            · rw [mupdate_ne _ _ _ _ hbb] at hb
              exact h1 b blk hb
          have f2 := FnInv_of_eq f1 (t := { { s with
              heap := mupdate s.heap s.nextB (some ⟨1, implDestroyFn⟩),
              nextB := s.nextB + 1 } with
              handles := s.handles.set h (some ⟨raw, some s.nextB⟩) }) rfl
          have u2 := EventsUB_of_eq h2 (t := { { s with
              heap := mupdate s.heap s.nextB (some ⟨1, implDestroyFn⟩),
              nextB := s.nextB + 1 } with
              handles := s.handles.set h (some ⟨raw, some s.nextB⟩) }) rfl
          exact ⟨fn_release f2 hdv.ptr hdv.cb, ub_release f2 u2 hdv.ptr hdv.cb⟩
  | mswap a b =>
    cases hsa : s.handles.get? a with
    | none =>
      simp only [mstep, hsa]
      exact ⟨h1, h2⟩
    | some sla =>
      cases hsb : s.handles.get? b with
      | none =>
        cases sla with
        | none =>
          simp only [mstep, hsa, hsb]
          exact ⟨h1, h2⟩
        | some ha =>
          simp only [mstep, hsa, hsb]
          exact ⟨h1, h2⟩
      | some slb =>
        cases sla with
        | none =>
          simp only [mstep, hsa, hsb]
          exact ⟨h1, h2⟩
        | some ha =>
          cases slb with
          | none =>
            simp only [mstep, hsa, hsb]
            exact ⟨h1, h2⟩
          | some hb =>
            simp only [mstep, hsa, hsb]
            exact ⟨FnInv_of_eq h1 rfl, EventsUB_of_eq h2 rfl⟩
  | mdestroy h =>
    cases hsl : s.handles.get? h with
    | none =>
      simp only [mstep, hsl]
      exact ⟨h1, h2⟩
    | some sl =>
      cases sl with
      | none =>
        simp only [mstep, hsl]
        exact ⟨h1, h2⟩
      | some hdv =>
        simp only [mstep, hsl]
        exact ⟨FnInv_of_eq (fn_release h1 hdv.ptr hdv.cb) rfl,
          EventsUB_of_eq (ub_release h1 h2 hdv.ptr hdv.cb) rfl⟩

theorem fn_minit : FnInv minit := by
  intro b blk hb
  cases hb

theorem ub_minit : EventsUB minit := by
  intro e he
  cases he

theorem minv_minit : MInv minit := by
  refine ⟨?_, ?_, ?_⟩
  · intro b _
    exact ⟨rfl, rfl, rfl⟩
  · intro b blk hb
    cases hb
  · intro b hb _
    cases hb

theorem fnub_exec {s : MState} (h1 : FnInv s) (h2 : EventsUB s)
    (ops : List MOp) :
    FnInv (mexec s ops) ∧ EventsUB (mexec s ops) := by
  induction ops generalizing s with
  | nil => exact ⟨h1, h2⟩
  | cons op ops ih =>
    obtain ⟨g1, g2⟩ := fnub_step h1 h2 op
    exact ih g1 g2

/-! ### Structural lemmas of the release/increment pipeline -/

@[simp] theorem mrefSlot_mk (b p : Nat) (c : Option Nat) :
    mrefSlot b (some ⟨p, c⟩) = (c == some b) := rfl

theorem mrelease_handles (s : MState) (p : Nat) (cb : Option Nat) :
    (mrelease s p cb).handles = s.handles := by
  cases cb with
  | none => rfl
  | some b =>
    cases hb : s.heap b with
    | none => simp [mrelease, hb]
    | some blk =>
      by_cases hc : blk.count = 1 <;> simp [mrelease, hb, hc]

theorem mrelease_handles_comm (s : MState) (L : List (Option MHandle))
    (p : Nat) (cb : Option Nat) :
    mrelease { s with handles := L } p cb
      = { mrelease s p cb with handles := L } := by
  cases cb with
  | none => rfl
  | some b =>
    show mrelease { s with handles := L } p (some b)
      = { mrelease s p (some b) with handles := L }
    cases hb : s.heap b with
    | none => simp [mrelease, hb]
    | some blk =>
      by_cases hc : blk.count = 1 <;> simp [mrelease, hb, hc]

theorem mrelease_heap_other (s : MState) (p : Nat) (cb : Option Nat)
    (b : Nat) (hcb : cb ≠ some b) : (mrelease s p cb).heap b = s.heap b := by
  cases cb with
  | none => rfl
  | some bd =>
    have hne : b ≠ bd := fun hc => hcb (by rw [hc])
    cases hh : s.heap bd with
    | none => simp [mrelease, hh]
    | some blk =>
      by_cases hc : blk.count = 1
      · simp [mrelease, hh, hc, mupdate_ne _ _ _ _ hne]
      · simp [mrelease, hh, hc, mupdate_ne _ _ _ _ hne]

theorem muse_count_handles (t : MState) (L : List (Option MHandle))
    (hd : MHandle) : muse_count { t with handles := L } hd
      = muse_count t hd := rfl

/-- Replacing the handle list by one with the same per-block reference
counts preserves the main.cpp invariant. -/
theorem minv_handles_congr {s : MState} (hInv : MInv s)
    (L : List (Option MHandle)) (hL : ∀ b, mrefsL L b = mrefs s b) :
    MInv { s with handles := L } := by
  refine ⟨?_, ?_, ?_⟩
  · intro b hb
    obtain ⟨g1, g2, g3⟩ := hInv.fresh b hb
    exact ⟨g1, by show mrefsL L b = 0; rw [hL b]; exact g2, g3⟩
  · intro b blk hb
    obtain ⟨g1, g2, g3⟩ := hInv.live b blk hb
    refine ⟨by show blk.count = mrefsL L b; rw [hL b]; exact g1, ?_, g3⟩
    show 1 ≤ mrefsL L b
    rw [hL b]
    exact g2
  · intro b hb hn
    obtain ⟨g1, g2⟩ := hInv.dead b hb hn
    exact ⟨by show mrefsL L b = 0; rw [hL b]; exact g1, g2⟩

/-- Master preservation lemma for the releasing operations of main.cpp:
`release()` on a `cb_` value `cd` (whose block, if any, has at least one
live reference) combined with a new handle list `L` whose per-block
reference counts equal the old ones minus exactly the one reference to
`cd`'s block preserves the invariant. -/
theorem minv_dec_general {s : MState} (hInv : MInv s) (cd : Option Nat)
    (p : Nat) (hex : ∀ bd, cd = some bd → 1 ≤ mrefs s bd)
    (L : List (Option MHandle))
    (hL : ∀ x, mrefsL L x + (if cd = some x then 1 else 0)
      = mrefsL s.handles x) :
    MInv { mrelease s p cd with handles := L } := by
  cases cd with
  | none =>
    show MInv { s with handles := L }
    apply minv_handles_congr hInv
    intro b
    have hLb := hL b
    rw [if_neg (by simp)] at hLb
    have hr : mrefs s b = mrefsL s.handles b := rfl
    omega
  | some bd =>
    obtain ⟨blk, hheap, hcnt, hpos, hev, hlt⟩ :=
      hInv.live_block_of_refs (hex bd rfl)
    have hcnt' : blk.count = mrefsL s.handles bd := hcnt
    have hLbd : mrefsL L bd + 1 = mrefsL s.handles bd := by
      have := hL bd
      rw [if_pos rfl] at this
      exact this
    have hLne : ∀ x, bd ≠ x → mrefsL L x = mrefsL s.handles x := by
      intro x hx
      have := hL x
      rw [if_neg (by simpa using hx)] at this
      omega
    by_cases h1 : blk.count = 1
    · -- last reference: the destroy path fires and the block is freed
      simp only [mrelease, hheap, h1, if_true]
      refine ⟨?_, ?_, ?_⟩
      · intro b hb
        simp only at hb
        have hne : bd ≠ b := by omega
        obtain ⟨g1, g2, g3⟩ := hInv.fresh b hb
        refine ⟨?_, ?_, ?_⟩
        · simpa [mupdate_ne _ _ _ _ (fun hc => hne hc.symm)] using g1
        · show mrefsL L b = 0
          have g2' : mrefsL s.handles b = 0 := g2
          have := hLne b hne
          omega
        · show (⟨bd, p, (blk.destroyFn p).isNone⟩ :: s.events).countP
            (fun e => e.blk == b) = 0
          rw [List.countP_cons]
          have g3' : s.events.countP (fun e => e.blk == b) = 0 := g3
          simp [SP.nbeq_false hne, g3']
      · intro b blk' hb
        simp only at hb
        have hne : bd ≠ b := by
          intro hc
          subst hc
          rw [mupdate_same] at hb
          cases hb
        rw [mupdate_ne _ _ _ _ (fun hc => hne hc.symm)] at hb
        obtain ⟨g1, g2, g3⟩ := hInv.live b blk' hb
        refine ⟨?_, ?_, ?_⟩
        · show blk'.count = mrefsL L b
          have g1' : blk'.count = mrefsL s.handles b := g1
          have := hLne b hne
          omega
        · show 1 ≤ mrefsL L b
          have g2' : 1 ≤ mrefsL s.handles b := g2
          have := hLne b hne
          omega
        · show (⟨bd, p, (blk.destroyFn p).isNone⟩ :: s.events).countP
            (fun e => e.blk == b) = 0
          rw [List.countP_cons]
          have g3' : s.events.countP (fun e => e.blk == b) = 0 := g3
          simp [SP.nbeq_false hne, g3']
      · intro b hb hn
        simp only at hb hn
        by_cases hbd : b = bd
        · subst hbd
          constructor
          · show mrefsL L b = 0
            omega
          · show (⟨b, p, (blk.destroyFn p).isNone⟩ :: s.events).countP
              (fun e => e.blk == b) = 1
            rw [List.countP_cons]
            have hev' : s.events.countP (fun e => e.blk == b) = 0 := hev
            simp [hev']
        · have hne : bd ≠ b := fun hc => hbd hc.symm
          rw [mupdate_ne _ _ _ _ hbd] at hn
          obtain ⟨g1, g2⟩ := hInv.dead b hb hn
          constructor
          · show mrefsL L b = 0
            have g1' : mrefsL s.handles b = 0 := g1
            have := hLne b hne
            omega
          · show (⟨bd, p, (blk.destroyFn p).isNone⟩ :: s.events).countP
              (fun e => e.blk == b) = 1
            rw [List.countP_cons]
            have g2' : s.events.countP (fun e => e.blk == b) = 1 := g2
            simp [SP.nbeq_false hne, g2']
    · -- other references remain: only the count drops
      have htwo : 2 ≤ blk.count := by omega
      simp only [mrelease, hheap, h1, if_false]
      refine ⟨?_, ?_, ?_⟩
      · intro b hb
        simp only at hb
        have hne : bd ≠ b := by omega
        obtain ⟨g1, g2, g3⟩ := hInv.fresh b hb
        refine ⟨?_, ?_, g3⟩
        · simpa [mupdate_ne _ _ _ _ (fun hc => hne hc.symm)] using g1
        · show mrefsL L b = 0
          have g2' : mrefsL s.handles b = 0 := g2
          have := hLne b hne
          omega
      · intro b blk' hb
        simp only at hb
        by_cases hbd : b = bd
        · subst hbd
          rw [mupdate_same] at hb
          have hblk' : blk' = ⟨blk.count - 1, blk.destroyFn⟩ :=
            (Option.some.inj hb).symm
          subst hblk'
          refine ⟨?_, ?_, hev⟩
          · show blk.count - 1 = mrefsL L b
            omega
          · show 1 ≤ mrefsL L b
            omega
        · rw [mupdate_ne _ _ _ _ hbd] at hb
          have hne : bd ≠ b := fun hc => hbd hc.symm
          obtain ⟨g1, g2, g3⟩ := hInv.live b blk' hb
          refine ⟨?_, ?_, g3⟩
          · show blk'.count = mrefsL L b
            have g1' : blk'.count = mrefsL s.handles b := g1
            have := hLne b hne
            omega
          · show 1 ≤ mrefsL L b
            have g2' : 1 ≤ mrefsL s.handles b := g2
            have := hLne b hne
            omega
      · intro b hb hn
        simp only at hb hn
        by_cases hbd : b = bd
        · subst hbd
          rw [mupdate_same] at hn
          cases hn
        · rw [mupdate_ne _ _ _ _ hbd] at hn
          have hne : bd ≠ b := fun hc => hbd hc.symm
          obtain ⟨g1, g2⟩ := hInv.dead b hb hn
          constructor
          · show mrefsL L b = 0
            have g1' : mrefsL s.handles b = 0 := g1
            have := hLne b hne
            omega
          · exact g2

/-! ### Preservation of the main.cpp invariant by each operation -/

theorem minv_construct {s : MState} (hInv : MInv s) (raw : Nat) :
    MInv (mstep s (.mconstruct raw)) := by
  by_cases hraw : raw = 0
  · subst hraw
    simp only [mstep, if_pos rfl]
    apply minv_handles_congr hInv
    intro b
    rw [mrefsL_concat]
    simp [mrefs]
  · simp only [mstep, if_neg hraw]
    obtain ⟨hfh, hfr, hfe⟩ := hInv.fresh s.nextB (Nat.le_refl _)
    refine ⟨?_, ?_, ?_⟩
    · intro b hb
      simp only at hb
      have hne : s.nextB ≠ b := by omega
      obtain ⟨g1, g2, g3⟩ := hInv.fresh b (by omega)
      refine ⟨?_, ?_, g3⟩
      · simpa [mupdate_ne _ _ _ _ (fun hc => hne hc.symm)] using g1
      · show mrefsL (s.handles ++ [some ⟨raw, some s.nextB⟩]) b = 0
        rw [mrefsL_concat]
        simp only [mrefSlot_mk, ocb_some, SP.nbeq_false hne, if_false,
          Bool.false_eq_true]
        have g2' : mrefsL s.handles b = 0 := g2
        omega
    · intro b blk hb
      simp only at hb
      by_cases hbd : b = s.nextB
      · subst hbd
        rw [mupdate_same] at hb
        have hblk : blk = ⟨1, implDestroyFn⟩ := (Option.some.inj hb).symm
        subst hblk
        refine ⟨?_, ?_, hfe⟩
        · show (1 : Nat)
            = mrefsL (s.handles ++ [some ⟨raw, some s.nextB⟩]) s.nextB
          rw [mrefsL_concat]
          have hfr' : mrefsL s.handles s.nextB = 0 := hfr
          simp only [mrefSlot_mk, ocb_some, SP.nbeq_true rfl, if_true]
          omega
        · show 1 ≤ mrefsL (s.handles ++ [some ⟨raw, some s.nextB⟩]) s.nextB
          rw [mrefsL_concat]
          have hfr' : mrefsL s.handles s.nextB = 0 := hfr
          simp only [mrefSlot_mk, ocb_some, SP.nbeq_true rfl, if_true]
          omega
      · rw [mupdate_ne _ _ _ _ hbd] at hb
        have hne : s.nextB ≠ b := fun hc => hbd hc.symm
        obtain ⟨g1, g2, g3⟩ := hInv.live b blk hb
        refine ⟨?_, ?_, g3⟩
        · show blk.count = mrefsL (s.handles ++ [some ⟨raw, some s.nextB⟩]) b
          rw [mrefsL_concat]
          simp only [mrefSlot_mk, ocb_some, SP.nbeq_false hne, if_false,
            Bool.false_eq_true]
          have g1' : blk.count = mrefsL s.handles b := g1
          omega
        · show 1 ≤ mrefsL (s.handles ++ [some ⟨raw, some s.nextB⟩]) b
          rw [mrefsL_concat]
          simp only [mrefSlot_mk, ocb_some, SP.nbeq_false hne, if_false,
            Bool.false_eq_true]
          have g2' : 1 ≤ mrefsL s.handles b := g2
          omega
    · intro b hb hn
      simp only at hb hn
      by_cases hbd : b = s.nextB
      · subst hbd
        rw [mupdate_same] at hn
        cases hn
      · rw [mupdate_ne _ _ _ _ hbd] at hn
        have hne : s.nextB ≠ b := fun hc => hbd hc.symm
        have hblt : b < s.nextB := by omega
        obtain ⟨g1, g2⟩ := hInv.dead b hblt hn
        refine ⟨?_, g2⟩
        show mrefsL (s.handles ++ [some ⟨raw, some s.nextB⟩]) b = 0
        rw [mrefsL_concat]
        simp only [mrefSlot_mk, ocb_some, SP.nbeq_false hne, if_false,
          Bool.false_eq_true]
        have g1' : mrefsL s.handles b = 0 := g1
        omega

theorem minv_copyCon {s : MState} (hInv : MInv s) (src : Nat) :
    MInv (mstep s (.mcopyCon src)) := by
  cases hs : s.handles.get? src with
  | none =>
    simp only [mstep, hs]
    exact hInv
  | some sl =>
    cases sl with
    | none =>
      simp only [mstep, hs]
      exact hInv
    | some hsv =>
      cases hcs : hsv.cb with
      | none =>
        simp only [mstep, hs, mincCB, hcs]
        apply minv_handles_congr hInv
        intro b
        rw [mrefsL_concat]
        simp [mrefs, hcs]
      | some b0 =>
        obtain ⟨blk, hheap, hcnt, hpos, hev, hlt⟩ :=
          hInv.live_block_of_refs (mrefs_pos_of_slot hs hcs)
        simp only [mstep, hs, mincCB, hcs, hheap]
        refine ⟨?_, ?_, ?_⟩
        · intro b hb
          simp only at hb
          have hne : b0 ≠ b := by omega
          obtain ⟨g1, g2, g3⟩ := hInv.fresh b hb
          refine ⟨?_, ?_, g3⟩
          · simpa [mupdate_ne _ _ _ _ (fun hc => hne hc.symm)] using g1
          · show mrefsL (s.handles ++ [some hsv]) b = 0
            rw [mrefsL_concat]
            simp only [mrefSlot_some, hcs, ocb_some, SP.nbeq_false hne,
              if_false, Bool.false_eq_true]
            have g2' : mrefsL s.handles b = 0 := g2
            omega
        · intro b blk' hb
          simp only at hb
          by_cases hbd : b = b0
          · subst hbd
            rw [mupdate_same] at hb
            have hblk' : blk' = ⟨blk.count + 1, blk.destroyFn⟩ :=
              (Option.some.inj hb).symm
            subst hblk'
            refine ⟨?_, ?_, hev⟩
            · show blk.count + 1 = mrefsL (s.handles ++ [some hsv]) b
              rw [mrefsL_concat]
              simp only [mrefSlot_some, hcs, ocb_some, SP.nbeq_true rfl,
                if_true]
              have hcnt' : blk.count = mrefsL s.handles b := hcnt
              omega
            · show 1 ≤ mrefsL (s.handles ++ [some hsv]) b
              rw [mrefsL_concat]
              simp only [mrefSlot_some, hcs, ocb_some, SP.nbeq_true rfl,
                if_true]
              omega
          · rw [mupdate_ne _ _ _ _ hbd] at hb
            have hne : b0 ≠ b := fun hc => hbd hc.symm
            obtain ⟨g1, g2, g3⟩ := hInv.live b blk' hb
            refine ⟨?_, ?_, g3⟩
            · show blk'.count = mrefsL (s.handles ++ [some hsv]) b
              rw [mrefsL_concat]
              simp only [mrefSlot_some, hcs, ocb_some, SP.nbeq_false hne,
                if_false, Bool.false_eq_true]
              have g1' : blk'.count = mrefsL s.handles b := g1
              omega
            · show 1 ≤ mrefsL (s.handles ++ [some hsv]) b
              rw [mrefsL_concat]
              simp only [mrefSlot_some, hcs, ocb_some, SP.nbeq_false hne,
                if_false, Bool.false_eq_true]
              have g2' : 1 ≤ mrefsL s.handles b := g2
              omega
        · intro b hb hn
          simp only at hb hn
          by_cases hbd : b = b0
          · subst hbd
            rw [mupdate_same] at hn
            cases hn
          · rw [mupdate_ne _ _ _ _ hbd] at hn
            have hne : b0 ≠ b := fun hc => hbd hc.symm
            obtain ⟨g1, g2⟩ := hInv.dead b hb hn
            refine ⟨?_, g2⟩
            show mrefsL (s.handles ++ [some hsv]) b = 0
            rw [mrefsL_concat]
            simp only [mrefSlot_some, hcs, ocb_some, SP.nbeq_false hne,
              if_false, Bool.false_eq_true]
            have g1' : mrefsL s.handles b = 0 := g1
            omega

theorem minv_moveCon {s : MState} (hInv : MInv s) (src : Nat) :
    MInv (mstep s (.mmoveCon src)) := by
  cases hs : s.handles.get? src with
  | none =>
    simp only [mstep, hs]
    exact hInv
  | some sl =>
    cases sl with
    | none =>
      simp only [mstep, hs]
      exact hInv
    | some hsv =>
      simp only [mstep, hs]
      apply minv_handles_congr hInv
      intro b
      rw [mrefsL_concat]
      cases hcs : hsv.cb with
      | none =>
        rw [mrefsL_set_eq s.handles src hs (some ⟨0, none⟩) b
          (by simp [hcs]) (by simp)]
        simp only [mrefSlot_some, hcs, ocb_none, if_false,
          Bool.false_eq_true]
        have hr : mrefs s b = mrefsL s.handles b := rfl
        omega
      | some b0 =>
        by_cases hb : b0 = b
        · subst hb
          have hsub := mrefsL_set_sub s.handles src hs (some ⟨0, none⟩) b0
            (by simp [hcs]) (by simp)
          simp only [mrefSlot_some, hcs, ocb_some, SP.nbeq_true rfl,
            if_true]
          have hr : mrefs s b0 = mrefsL s.handles b0 := rfl
          omega
        · rw [mrefsL_set_eq s.handles src hs (some ⟨0, none⟩) b
            (by simp [hcs, SP.nbeq_false hb]) (by simp)]
          simp only [mrefSlot_some, hcs, ocb_some, SP.nbeq_false hb,
            if_false, Bool.false_eq_true]
          have hr : mrefs s b = mrefsL s.handles b := rfl
          omega

theorem minv_swap {s : MState} (hInv : MInv s) (a b : Nat) :
    MInv (mstep s (.mswap a b)) := by
  by_cases hab : a = b
  · subst hab
    cases hsa : s.handles.get? a with
    | none =>
      simp only [mstep, hsa]
      exact hInv
    | some sla =>
      cases sla with
      | none =>
        simp only [mstep, hsa]
        exact hInv
      | some ha =>
        simp only [mstep, hsa]
        rw [List.set_set, lset_self hsa]
        exact hInv
  · cases hsa : s.handles.get? a with
    | none =>
      simp only [mstep, hsa]
      exact hInv
    | some sla =>
      cases hsb : s.handles.get? b with
      | none =>
        cases sla with
        | none =>
          simp only [mstep, hsa, hsb]
          exact hInv
        | some ha =>
          simp only [mstep, hsa, hsb]
          exact hInv
      | some slb =>
        cases sla with
        | none =>
          simp only [mstep, hsa, hsb]
          exact hInv
        | some ha =>
          cases slb with
          | none =>
            simp only [mstep, hsa, hsb]
            exact hInv
          | some hb2 =>
            simp only [mstep, hsa, hsb]
            apply minv_handles_congr hInv
            intro x
            have hsb' : (s.handles.set a (some hb2)).get? b
                = some (some hb2) := by
              rw [lget_set_ne _ _ _ _ hab]
              exact hsb
            have e1 := mrefsL_set s.handles a (some hb2) hsa x
            have e2 := mrefsL_set (s.handles.set a (some hb2)) b (some ha)
              hsb' x
            have hr : mrefs s x = mrefsL s.handles x := rfl
            omega

theorem minv_destroy {s : MState} (hInv : MInv s) (h : Nat) :
    MInv (mstep s (.mdestroy h)) := by
  cases hsl : s.handles.get? h with
  | none =>
    simp only [mstep, hsl]
    exact hInv
  | some sl =>
    cases sl with
    | none =>
      simp only [mstep, hsl]
      exact hInv
    | some hdv =>
      simp only [mstep, hsl]
      rw [mrelease_handles]
      apply minv_dec_general hInv hdv.cb hdv.ptr
      · intro bd hbd
        exact mrefs_pos_of_slot hsl hbd
      · intro x
        have hset := mrefsL_set s.handles h none hsl x
        simp only [mrefSlot_none, Bool.false_eq_true, if_false] at hset
        have hcond : (if mrefSlot x (some hdv) = true then (1 : Nat) else 0)
            = (if hdv.cb = some x then 1 else 0) := by
          by_cases hcx : hdv.cb = some x
          · simp [hcx]
          · simp [hcx]
        omega

theorem minv_assignMove {s : MState} (hInv : MInv s) (dst src : Nat) :
    MInv (mstep s (.massignMove dst src)) := by
  cases hs : s.handles.get? src with
  | none =>
    simp only [mstep, hs]
    exact hInv
  | some sl =>
    cases sl with
    | none =>
      simp only [mstep, hs]
      exact hInv
    | some hsv =>
      cases hd : s.handles.get? dst with
      | none =>
        simp only [mstep, hs, hd]
        exact hInv
      | some sld =>
        cases sld with
        | none =>
          simp only [mstep, hs, hd]
          exact hInv
        | some hdv =>
          by_cases hds : dst = src
          · -- self-move: the temporary releases the already-nulled fields
            subst hds
            have hg : (s.handles.set dst (some (⟨0, none⟩ : MHandle))).get?
                dst = some (some (⟨0, none⟩ : MHandle)) :=
              lget_set_eq _ hs
            simp only [mstep, hs, hg, mrelease]
            rw [List.set_set]
            exact minv_handles_congr hInv (s.handles.set dst (some hsv))
              (fun x => mrefsL_set_same s.handles dst hs (some hsv) x rfl)
          · -- distinct handles
            have hsd : src ≠ dst := fun hc => hds hc.symm
            have hgd : (s.handles.set src (some (⟨0, none⟩ : MHandle))).get?
                dst = some (some hdv) := by
              rw [lget_set_ne _ _ _ _ hsd]
              exact hd
            simp only [mstep, hs, hd, hgd]
            show MInv (mrelease { s with handles :=
              (s.handles.set src (some ⟨0, none⟩)).set dst (some hsv) }
              hdv.ptr hdv.cb)
            rw [mrelease_handles_comm]
            apply minv_dec_general hInv hdv.cb hdv.ptr
            · intro bd hbd
              exact mrefs_pos_of_slot hd hbd
            · intro x
              have e1 := mrefsL_set s.handles src
                (some (⟨0, none⟩ : MHandle)) hs x
              have e2 := mrefsL_set (s.handles.set src (some ⟨0, none⟩)) dst
                (some hsv) hgd x
              have hz : mrefSlot x (some (⟨0, none⟩ : MHandle)) = false := rfl
              rw [hz] at e1
              simp only [Bool.false_eq_true, if_false] at e1
              have hcond : (if mrefSlot x (some hdv) = true then (1 : Nat)
                  else 0) = (if hdv.cb = some x then 1 else 0) := by
                by_cases hcx : hdv.cb = some x
                · simp [hcx]
                · simp [hcx]
              omega

theorem minv_assignCopy {s : MState} (hInv : MInv s) (dst src : Nat) :
    MInv (mstep s (.massignCopy dst src)) := by
  cases hs : s.handles.get? src with
  | none =>
    simp only [mstep, hs]
    exact hInv
  | some sl =>
    cases sl with
    | none =>
      simp only [mstep, hs]
      exact hInv
    | some hsv =>
      cases hd : s.handles.get? dst with
      | none =>
        simp only [mstep, hs, hd]
        exact hInv
      | some sld =>
        cases sld with
        | none =>
          simp only [mstep, hs, hd]
          exact hInv
        | some hdv =>
          cases hcs : hsv.cb with
          | none =>
            -- src holds nothing: add_ref is a no-op; the temporary then
            -- releases dst's old reference
            simp only [mstep, hs, hd, mincCB, hcs]
            show MInv (mrelease
              { s with handles := (s.handles.set dst (some hsv)) }
              hdv.ptr hdv.cb)
            rw [mrelease_handles_comm]
            apply minv_dec_general hInv hdv.cb hdv.ptr
            · intro bd hbd
              exact mrefs_pos_of_slot hd hbd
            · intro x
              have e1 := mrefsL_set s.handles dst (some hsv) hd x
              have hz : mrefSlot x (some hsv) = false := by simp [hcs]
              rw [hz] at e1
              simp only [Bool.false_eq_true, if_false] at e1
              have hcond : (if mrefSlot x (some hdv) = true then (1 : Nat)
                  else 0) = (if hdv.cb = some x then 1 else 0) := by
                by_cases hcx : hdv.cb = some x
                · simp [hcx]
                · simp [hcx]
              omega
          | some bs =>
            obtain ⟨blks, hheaps, hcnts, hposs, hevs, hlts⟩ :=
              hInv.live_block_of_refs (mrefs_pos_of_slot hs hcs)
            cases hcd : hdv.cb with
            | none =>
              -- dst held nothing: pure increment plus repointing; the
              -- temporary's release is a no-op
              simp only [mstep, hs, hd, mincCB, hcs, hheaps, mrelease, hcd]
              refine ⟨?_, ?_, ?_⟩
              · intro b hb
                simp only at hb
                have hne : bs ≠ b := by omega
                obtain ⟨g1, g2, g3⟩ := hInv.fresh b hb
                refine ⟨?_, ?_, g3⟩
                · simpa [mupdate_ne _ _ _ _ (fun hc => hne hc.symm)] using g1
                · show mrefsL (s.handles.set dst (some hsv)) b = 0
                  rw [mrefsL_set_eq s.handles dst hd _ b (by simp [hcd])
                    (by simp [hcs, SP.nbeq_false hne])]
                  exact g2
              · intro b blk' hb
                simp only at hb
                by_cases hbd : b = bs
                · subst hbd
                  rw [mupdate_same] at hb
                  have hblk' : blk' = ⟨blks.count + 1, blks.destroyFn⟩ :=
                    (Option.some.inj hb).symm
                  subst hblk'
                  refine ⟨?_, ?_, hevs⟩
                  · show blks.count + 1
                      = mrefsL (s.handles.set dst (some hsv)) b
                    rw [mrefsL_set_add s.handles dst hd _ b (by simp [hcd])
                      (by simp [hcs])]
                    have hcnts' : blks.count = mrefsL s.handles b := hcnts
                    omega
                  · show 1 ≤ mrefsL (s.handles.set dst (some hsv)) b
                    rw [mrefsL_set_add s.handles dst hd _ b (by simp [hcd])
                      (by simp [hcs])]
                    omega
                · rw [mupdate_ne _ _ _ _ hbd] at hb
                  have hne : bs ≠ b := fun hc => hbd hc.symm
                  obtain ⟨g1, g2, g3⟩ := hInv.live b blk' hb
                  refine ⟨?_, ?_, g3⟩
                  · show blk'.count = mrefsL (s.handles.set dst (some hsv)) b
                    rw [mrefsL_set_eq s.handles dst hd _ b (by simp [hcd])
                      (by simp [hcs, SP.nbeq_false hne])]
                    exact g1
                  · show 1 ≤ mrefsL (s.handles.set dst (some hsv)) b
                    rw [mrefsL_set_eq s.handles dst hd _ b (by simp [hcd])
                      (by simp [hcs, SP.nbeq_false hne])]
                    exact g2
              · intro b hb hn
                simp only at hb hn
                by_cases hbd : b = bs
                · subst hbd
                  rw [mupdate_same] at hn
                  cases hn
                · rw [mupdate_ne _ _ _ _ hbd] at hn
                  have hne : bs ≠ b := fun hc => hbd hc.symm
                  obtain ⟨g1, g2⟩ := hInv.dead b hb hn
                  refine ⟨?_, g2⟩
                  show mrefsL (s.handles.set dst (some hsv)) b = 0
                  rw [mrefsL_set_eq s.handles dst hd _ b (by simp [hcd])
                    (by simp [hcs, SP.nbeq_false hne])]
                  exact g1
            | some bd =>
              by_cases hbb : bs = bd
              · -- dst and src share the block: increment before release,
                -- so the release can never free and the count is unchanged
                rw [← hbb] at hcd
                have hone : ¬(blks.count + 1 = 1) := by omega
                simp only [mstep, hs, hd, mincCB, hcs, hheaps, mrelease,
                  hcd, mupdate_same, if_neg hone]
                have hrefs : ∀ x, mrefsL (s.handles.set dst (some hsv)) x
                    = mrefsL s.handles x := fun x =>
                  mrefsL_set_same s.handles dst hd (some hsv) x
                    (by simp [hcd, hcs])
                refine ⟨?_, ?_, ?_⟩
                · intro b hb
                  simp only at hb
                  have hne : bs ≠ b := by omega
                  obtain ⟨g1, g2, g3⟩ := hInv.fresh b hb
                  refine ⟨?_, ?_, g3⟩
                  · have hne' : b ≠ bs := fun hc => hne hc.symm
                    simp only [mupdate_ne _ _ _ _ hne']
                    exact g1
                  · show mrefsL (s.handles.set dst (some hsv)) b = 0
                    rw [hrefs b]
                    exact g2
                · intro b blk' hb
                  simp only at hb
                  by_cases hbd2 : b = bs
                  · subst hbd2
                    rw [mupdate_same] at hb
                    have hblk' : blk'
                        = ⟨blks.count + 1 - 1, blks.destroyFn⟩ :=
                      (Option.some.inj hb).symm
                    subst hblk'
                    refine ⟨?_, ?_, hevs⟩
                    · show blks.count + 1 - 1
                        = mrefsL (s.handles.set dst (some hsv)) b
                      rw [hrefs b]
                      have hcnts' : blks.count = mrefsL s.handles b := hcnts
                      omega
                    · show 1 ≤ mrefsL (s.handles.set dst (some hsv)) b
                      rw [hrefs b]
                      have hcnts' : blks.count = mrefsL s.handles b := hcnts
                      omega
                  · rw [mupdate_ne _ _ _ _ hbd2,
                      mupdate_ne _ _ _ _ hbd2] at hb
                    obtain ⟨g1, g2, g3⟩ := hInv.live b blk' hb
                    refine ⟨?_, ?_, g3⟩
                    · show blk'.count
                        = mrefsL (s.handles.set dst (some hsv)) b
                      rw [hrefs b]
                      exact g1
                    · show 1 ≤ mrefsL (s.handles.set dst (some hsv)) b
                      rw [hrefs b]
                      exact g2
                · intro b hb hn
                  simp only at hb hn
                  by_cases hbd2 : b = bs
                  · subst hbd2
                    rw [mupdate_same] at hn
                    cases hn
                  · rw [mupdate_ne _ _ _ _ hbd2,
                      mupdate_ne _ _ _ _ hbd2] at hn
                    obtain ⟨g1, g2⟩ := hInv.dead b hb hn
                    refine ⟨?_, g2⟩
                    show mrefsL (s.handles.set dst (some hsv)) b = 0
                    rw [hrefs b]
                    exact g1
              · -- distinct blocks: src's block gains a reference, then
                -- dst's old block loses one
                obtain ⟨blkd, hheapd, hcntd, hposd, hevd, hltd⟩ :=
                  hInv.live_block_of_refs (mrefs_pos_of_slot hd hcd)
                have hupd : mupdate s.heap bs
                    (some ⟨blks.count + 1, blks.destroyFn⟩) bd = s.heap bd :=
                  mupdate_ne _ _ _ _ (fun hc => hbb hc.symm)
                by_cases hfree : blkd.count = 1
                · simp only [mstep, hs, hd, mincCB, hcs, hheaps, mrelease,
                    hcd, hupd, hheapd, if_pos hfree]
                  refine ⟨?_, ?_, ?_⟩
                  · intro b hb
                    simp only at hb
                    have hned : bd ≠ b := by omega
                    have hnes : bs ≠ b := by omega
                    obtain ⟨g1, g2, g3⟩ := hInv.fresh b hb
                    refine ⟨?_, ?_, ?_⟩
                    · have hne1 : b ≠ bd := fun hc => hned hc.symm
                      have hne2 : b ≠ bs := fun hc => hnes hc.symm
                      simp only [mupdate_ne _ _ _ _ hne1,
                        mupdate_ne _ _ _ _ hne2]
                      exact g1
                    · show mrefsL (s.handles.set dst (some hsv)) b = 0
                      rw [mrefsL_set_eq s.handles dst hd _ b
                        (by simp [hcd, SP.nbeq_false hned])
                        (by simp [hcs, SP.nbeq_false hnes])]
                      exact g2
                    · show (⟨bd, hdv.ptr, (blkd.destroyFn hdv.ptr).isNone⟩
                          :: s.events).countP (fun e => e.blk == b) = 0
                      rw [List.countP_cons]
                      have g3' : s.events.countP (fun e => e.blk == b) = 0 :=
                        g3
                      simp [SP.nbeq_false hned, g3']
                  · intro b blk' hb
                    simp only at hb
                    by_cases hb_d : b = bd
                    · subst hb_d
                      rw [mupdate_same] at hb
                      cases hb
                    · rw [mupdate_ne _ _ _ _ hb_d] at hb
                      by_cases hb_s : b = bs
                      · subst hb_s
                        rw [mupdate_same] at hb
                        have hblk' : blk'
                            = ⟨blks.count + 1, blks.destroyFn⟩ :=
                          (Option.some.inj hb).symm
                        subst hblk'
                        have hnds : bd ≠ b := fun hc => hb_d hc.symm
                        refine ⟨?_, ?_, ?_⟩
                        · show blks.count + 1
                            = mrefsL (s.handles.set dst (some hsv)) b
                          rw [mrefsL_set_add s.handles dst hd _ b
                            (by simp [hcd, SP.nbeq_false hnds])
                            (by simp [hcs])]
                          have hcnts' : blks.count = mrefsL s.handles b :=
                            hcnts
                          omega
                        · show 1 ≤ mrefsL (s.handles.set dst (some hsv)) b
                          rw [mrefsL_set_add s.handles dst hd _ b
                            (by simp [hcd, SP.nbeq_false hnds])
                            (by simp [hcs])]
                          omega
                        · show (⟨bd, hdv.ptr,
                              (blkd.destroyFn hdv.ptr).isNone⟩
                              :: s.events).countP (fun e => e.blk == b) = 0
                          rw [List.countP_cons]
                          have hevs' : s.events.countP
                              (fun e => e.blk == b) = 0 := hevs
                          simp [SP.nbeq_false hnds, hevs']
                      · rw [mupdate_ne _ _ _ _ hb_s] at hb
                        have hned : bd ≠ b := fun hc => hb_d hc.symm
                        have hnes : bs ≠ b := fun hc => hb_s hc.symm
                        obtain ⟨g1, g2, g3⟩ := hInv.live b blk' hb
                        refine ⟨?_, ?_, ?_⟩
                        · show blk'.count
                            = mrefsL (s.handles.set dst (some hsv)) b
                          rw [mrefsL_set_eq s.handles dst hd _ b
                            (by simp [hcd, SP.nbeq_false hned])
                            (by simp [hcs, SP.nbeq_false hnes])]
                          exact g1
                        · show 1 ≤ mrefsL (s.handles.set dst (some hsv)) b
                          rw [mrefsL_set_eq s.handles dst hd _ b
                            (by simp [hcd, SP.nbeq_false hned])
                            (by simp [hcs, SP.nbeq_false hnes])]
                          exact g2
                        · show (⟨bd, hdv.ptr,
                              (blkd.destroyFn hdv.ptr).isNone⟩
                              :: s.events).countP (fun e => e.blk == b) = 0
                          rw [List.countP_cons]
                          have g3' : s.events.countP
                              (fun e => e.blk == b) = 0 := g3
                          simp [SP.nbeq_false hned, g3']
                  · intro b hb hn
                    simp only at hb hn
                    by_cases hb_d : b = bd
                    · subst hb_d
                      constructor
                      · show mrefsL (s.handles.set dst (some hsv)) b = 0
                        have hnsb : bs ≠ b := fun hc => hbb hc
                        have hsub := mrefsL_set_sub s.handles dst hd
                          (some hsv) b (by simp [hcd])
                          (by simp [hcs, SP.nbeq_false hnsb])
                        have hcntd' : blkd.count = mrefsL s.handles b :=
                          hcntd
                        omega
                      · show (⟨b, hdv.ptr, (blkd.destroyFn hdv.ptr).isNone⟩
                            :: s.events).countP (fun e => e.blk == b) = 1
                        rw [List.countP_cons]
                        have hevd' : s.events.countP
                            (fun e => e.blk == b) = 0 := hevd
                        simp [hevd']
                    · rw [mupdate_ne _ _ _ _ hb_d] at hn
                      by_cases hb_s : b = bs
                      · subst hb_s
                        rw [mupdate_same] at hn
                        cases hn
                      · rw [mupdate_ne _ _ _ _ hb_s] at hn
                        have hned : bd ≠ b := fun hc => hb_d hc.symm
                        have hnes : bs ≠ b := fun hc => hb_s hc.symm
                        obtain ⟨g1, g2⟩ := hInv.dead b hb hn
                        constructor
                        · show mrefsL (s.handles.set dst (some hsv)) b = 0
                          rw [mrefsL_set_eq s.handles dst hd _ b
                            (by simp [hcd, SP.nbeq_false hned])
                            (by simp [hcs, SP.nbeq_false hnes])]
                          exact g1
                        · show (⟨bd, hdv.ptr,
                              (blkd.destroyFn hdv.ptr).isNone⟩
                              :: s.events).countP (fun e => e.blk == b) = 1
                          rw [List.countP_cons]
                          have g2' : s.events.countP
                              (fun e => e.blk == b) = 1 := g2
                          simp [SP.nbeq_false hned, g2']
                · have htwo : 2 ≤ blkd.count := by omega
                  simp only [mstep, hs, hd, mincCB, hcs, hheaps, mrelease,
                    hcd, hupd, hheapd, if_neg hfree]
                  refine ⟨?_, ?_, ?_⟩
                  · intro b hb
                    simp only at hb
                    have hned : bd ≠ b := by omega
                    have hnes : bs ≠ b := by omega
                    obtain ⟨g1, g2, g3⟩ := hInv.fresh b hb
                    refine ⟨?_, ?_, g3⟩
                    · have hne1 : b ≠ bd := fun hc => hned hc.symm
                      have hne2 : b ≠ bs := fun hc => hnes hc.symm
                      simp only [mupdate_ne _ _ _ _ hne1,
                        mupdate_ne _ _ _ _ hne2]
                      exact g1
                    · show mrefsL (s.handles.set dst (some hsv)) b = 0
                      rw [mrefsL_set_eq s.handles dst hd _ b
                        (by simp [hcd, SP.nbeq_false hned])
                        (by simp [hcs, SP.nbeq_false hnes])]
                      exact g2
                  · intro b blk' hb
                    simp only at hb
                    by_cases hb_d : b = bd
                    · subst hb_d
                      rw [mupdate_same] at hb
                      have hblk' : blk'
                          = ⟨blkd.count - 1, blkd.destroyFn⟩ :=
                        (Option.some.inj hb).symm
                      subst hblk'
                      have hnsb : bs ≠ b := fun hc => hbb hc
                      refine ⟨?_, ?_, hevd⟩
                      · show blkd.count - 1
                          = mrefsL (s.handles.set dst (some hsv)) b
                        have hsub := mrefsL_set_sub s.handles dst hd
                          (some hsv) b (by simp [hcd])
                          (by simp [hcs, SP.nbeq_false hnsb])
                        have hcntd' : blkd.count = mrefsL s.handles b :=
                          hcntd
                        omega
                      · show 1 ≤ mrefsL (s.handles.set dst (some hsv)) b
                        have hsub := mrefsL_set_sub s.handles dst hd
                          (some hsv) b (by simp [hcd])
                          (by simp [hcs, SP.nbeq_false hnsb])
                        have hcntd' : blkd.count = mrefsL s.handles b :=
                          hcntd
                        omega
                    · rw [mupdate_ne _ _ _ _ hb_d] at hb
                      by_cases hb_s : b = bs
                      · subst hb_s
                        rw [mupdate_same] at hb
                        have hblk' : blk'
                            = ⟨blks.count + 1, blks.destroyFn⟩ :=
                          (Option.some.inj hb).symm
                        subst hblk'
                        have hnds : bd ≠ b := fun hc => hb_d hc.symm
                        refine ⟨?_, ?_, hevs⟩
                        · show blks.count + 1
                            = mrefsL (s.handles.set dst (some hsv)) b
                          rw [mrefsL_set_add s.handles dst hd _ b
                            (by simp [hcd, SP.nbeq_false hnds])
                            (by simp [hcs])]
                          have hcnts' : blks.count = mrefsL s.handles b :=
                            hcnts
                          omega
                        · show 1 ≤ mrefsL (s.handles.set dst (some hsv)) b
                          rw [mrefsL_set_add s.handles dst hd _ b
                            (by simp [hcd, SP.nbeq_false hnds])
                            (by simp [hcs])]
                          omega
                      · rw [mupdate_ne _ _ _ _ hb_s] at hb
                        have hned : bd ≠ b := fun hc => hb_d hc.symm
                        have hnes : bs ≠ b := fun hc => hb_s hc.symm
                        obtain ⟨g1, g2, g3⟩ := hInv.live b blk' hb
                        refine ⟨?_, ?_, g3⟩
                        · show blk'.count
                            = mrefsL (s.handles.set dst (some hsv)) b
                          rw [mrefsL_set_eq s.handles dst hd _ b
                            (by simp [hcd, SP.nbeq_false hned])
                            (by simp [hcs, SP.nbeq_false hnes])]
                          exact g1
                        · show 1 ≤ mrefsL (s.handles.set dst (some hsv)) b
                          rw [mrefsL_set_eq s.handles dst hd _ b
                            (by simp [hcd, SP.nbeq_false hned])
                            (by simp [hcs, SP.nbeq_false hnes])]
                          exact g2
                  · intro b hb hn
                    simp only at hb hn
                    by_cases hb_d : b = bd
                    · subst hb_d
                      rw [mupdate_same] at hn
                      cases hn
                    · rw [mupdate_ne _ _ _ _ hb_d] at hn
                      by_cases hb_s : b = bs
                      · subst hb_s
                        rw [mupdate_same] at hn
                        cases hn
                      · rw [mupdate_ne _ _ _ _ hb_s] at hn
                        have hned : bd ≠ b := fun hc => hb_d hc.symm
                        have hnes : bs ≠ b := fun hc => hb_s hc.symm
                        obtain ⟨g1, g2⟩ := hInv.dead b hb hn
                        refine ⟨?_, g2⟩
                        show mrefsL (s.handles.set dst (some hsv)) b = 0
                        rw [mrefsL_set_eq s.handles dst hd _ b
                          (by simp [hcd, SP.nbeq_false hned])
                          (by simp [hcs, SP.nbeq_false hnes])]
                        exact g1

theorem minv_reset {s : MState} (hInv : MInv s) (h raw : Nat) :
    MInv (mstep s (.mreset h raw)) := by
  cases hsl : s.handles.get? h with
  | none =>
    simp only [mstep, hsl]
    exact hInv
  | some sl =>
    cases sl with
    | none =>
      simp only [mstep, hsl]
      exact hInv
    | some hdv =>
      by_cases hraw : raw = 0
      · subst hraw
        simp only [mstep, hsl, if_pos rfl]
        exact hInv
      · obtain ⟨hfh, hfr, hfe⟩ := hInv.fresh s.nextB (Nat.le_refl _)
        cases hcd : hdv.cb with
        | none =>
          -- the handle held nothing: the temporary's release is a no-op
          simp only [mstep, hsl, if_neg hraw, mrelease, hcd]
          refine ⟨?_, ?_, ?_⟩
          · intro b hb
            simp only at hb
            have hne : s.nextB ≠ b := by omega
            obtain ⟨g1, g2, g3⟩ := hInv.fresh b (by omega)
            refine ⟨?_, ?_, g3⟩
            · simpa [mupdate_ne _ _ _ _ (fun hc => hne hc.symm)] using g1
            · show mrefsL (s.handles.set h (some ⟨raw, some s.nextB⟩)) b = 0
              rw [mrefsL_set_eq s.handles h hsl _ b (by simp [hcd])
                (by simp [SP.nbeq_false hne])]
              exact g2
          · intro b blk hb
            simp only at hb
            by_cases hbd : b = s.nextB
            · subst hbd
              rw [mupdate_same] at hb
              have hblk : blk = ⟨1, implDestroyFn⟩ :=
                (Option.some.inj hb).symm
              subst hblk
              refine ⟨?_, ?_, hfe⟩
              · show (1 : Nat) = mrefsL
                    (s.handles.set h (some ⟨raw, some s.nextB⟩)) s.nextB
                rw [mrefsL_set_add s.handles h hsl _ s.nextB
                  (by simp [hcd]) (by simp)]
                have hfr' : mrefsL s.handles s.nextB = 0 := hfr
                omega
              · show 1 ≤ mrefsL
                    (s.handles.set h (some ⟨raw, some s.nextB⟩)) s.nextB
                rw [mrefsL_set_add s.handles h hsl _ s.nextB
                  (by simp [hcd]) (by simp)]
                omega
            · rw [mupdate_ne _ _ _ _ hbd] at hb
              have hne : s.nextB ≠ b := fun hc => hbd hc.symm
              obtain ⟨g1, g2, g3⟩ := hInv.live b blk hb
              refine ⟨?_, ?_, g3⟩
              · show blk.count
                  = mrefsL (s.handles.set h (some ⟨raw, some s.nextB⟩)) b
                rw [mrefsL_set_eq s.handles h hsl _ b (by simp [hcd])
                  (by simp [SP.nbeq_false hne])]
                exact g1
              · show 1 ≤ mrefsL (s.handles.set h (some ⟨raw, some s.nextB⟩)) b
                rw [mrefsL_set_eq s.handles h hsl _ b (by simp [hcd])
                  (by simp [SP.nbeq_false hne])]
                exact g2
          · intro b hb hn
            simp only at hb hn
            by_cases hbd : b = s.nextB
            · subst hbd
              rw [mupdate_same] at hn
              cases hn
            · rw [mupdate_ne _ _ _ _ hbd] at hn
              have hne : s.nextB ≠ b := fun hc => hbd hc.symm
              have hblt : b < s.nextB := by omega
              obtain ⟨g1, g2⟩ := hInv.dead b hblt hn
              refine ⟨?_, g2⟩
              show mrefsL (s.handles.set h (some ⟨raw, some s.nextB⟩)) b = 0
              rw [mrefsL_set_eq s.handles h hsl _ b (by simp [hcd])
                (by simp [SP.nbeq_false hne])]
              exact g1
        | some bd =>
          obtain ⟨blkd, hheapd, hcntd, hposd, hevd, hltd⟩ :=
            hInv.live_block_of_refs (mrefs_pos_of_slot hsl hcd)
          have hbne : bd ≠ s.nextB := by omega
          have hupd : mupdate s.heap s.nextB (some ⟨1, implDestroyFn⟩) bd
              = s.heap bd := mupdate_ne _ _ _ _ hbne
          by_cases hfree : blkd.count = 1
          · simp only [mstep, hsl, if_neg hraw, mrelease, hcd, hupd,
              hheapd, if_pos hfree]
            refine ⟨?_, ?_, ?_⟩
            · intro b hb
              simp only at hb
              have hned : bd ≠ b := by omega
              have hnen : s.nextB ≠ b := by omega
              obtain ⟨g1, g2, g3⟩ := hInv.fresh b (by omega)
              refine ⟨?_, ?_, ?_⟩
              · have hne1 : b ≠ bd := fun hc => hned hc.symm
                have hne2 : b ≠ s.nextB := fun hc => hnen hc.symm
                simp only [mupdate_ne _ _ _ _ hne1,
                  mupdate_ne _ _ _ _ hne2]
                exact g1
              · show mrefsL (s.handles.set h (some ⟨raw, some s.nextB⟩)) b = 0
                rw [mrefsL_set_eq s.handles h hsl _ b
                  (by simp [hcd, SP.nbeq_false hned])
                  (by simp [SP.nbeq_false hnen])]
                exact g2
              · show (⟨bd, hdv.ptr, (blkd.destroyFn hdv.ptr).isNone⟩
                    :: s.events).countP (fun e => e.blk == b) = 0
                rw [List.countP_cons]
                have g3' : s.events.countP (fun e => e.blk == b) = 0 := g3
                simp [SP.nbeq_false hned, g3']
            · intro b blk' hb
              simp only at hb
              by_cases hb_d : b = bd
              · subst hb_d
                rw [mupdate_same] at hb
                cases hb
              · rw [mupdate_ne _ _ _ _ hb_d] at hb
                by_cases hb_n : b = s.nextB
                · subst hb_n
                  rw [mupdate_same] at hb
                  have hblk' : blk' = ⟨1, implDestroyFn⟩ :=
                    (Option.some.inj hb).symm
                  subst hblk'
                  refine ⟨?_, ?_, ?_⟩
                  · show (1 : Nat) = mrefsL
                        (s.handles.set h (some ⟨raw, some s.nextB⟩)) s.nextB
                    rw [mrefsL_set_add s.handles h hsl _ s.nextB
                      (by simp [hcd, SP.nbeq_false hbne]) (by simp)]
                    have hfr' : mrefsL s.handles s.nextB = 0 := hfr
                    omega
                  · show 1 ≤ mrefsL
                        (s.handles.set h (some ⟨raw, some s.nextB⟩)) s.nextB
                    rw [mrefsL_set_add s.handles h hsl _ s.nextB
                      (by simp [hcd, SP.nbeq_false hbne]) (by simp)]
                    omega
                  · show (⟨bd, hdv.ptr, (blkd.destroyFn hdv.ptr).isNone⟩
                        :: s.events).countP (fun e => e.blk == s.nextB) = 0
                    rw [List.countP_cons]
                    have hfe' : s.events.countP
                        (fun e => e.blk == s.nextB) = 0 := hfe
                    simp [SP.nbeq_false hbne, hfe']
                · rw [mupdate_ne _ _ _ _ hb_n] at hb
                  have hned : bd ≠ b := fun hc => hb_d hc.symm
                  have hnen : s.nextB ≠ b := fun hc => hb_n hc.symm
                  obtain ⟨g1, g2, g3⟩ := hInv.live b blk' hb
                  refine ⟨?_, ?_, ?_⟩
                  · show blk'.count
                      = mrefsL (s.handles.set h (some ⟨raw, some s.nextB⟩)) b
                    rw [mrefsL_set_eq s.handles h hsl _ b
                      (by simp [hcd, SP.nbeq_false hned])
                      (by simp [SP.nbeq_false hnen])]
                    exact g1
                  · show 1 ≤ mrefsL
                        (s.handles.set h (some ⟨raw, some s.nextB⟩)) b
                    rw [mrefsL_set_eq s.handles h hsl _ b
                      (by simp [hcd, SP.nbeq_false hned])
                      (by simp [SP.nbeq_false hnen])]
                    exact g2
                  · show (⟨bd, hdv.ptr, (blkd.destroyFn hdv.ptr).isNone⟩
                        :: s.events).countP (fun e => e.blk == b) = 0
                    rw [List.countP_cons]
                    have g3' : s.events.countP (fun e => e.blk == b) = 0 :=
                      g3
                    simp [SP.nbeq_false hned, g3']
            · intro b hb hn
              simp only at hb hn
              by_cases hb_d : b = bd
              · subst hb_d
                constructor
                · show mrefsL (s.handles.set h (some ⟨raw, some s.nextB⟩)) b
                    = 0
                  have hnnb : s.nextB ≠ b := fun hc => hbne hc.symm
                  have hsub := mrefsL_set_sub s.handles h hsl
                    (some ⟨raw, some s.nextB⟩) b (by simp [hcd])
                    (by simp [SP.nbeq_false hnnb])
                  have hcntd' : blkd.count = mrefsL s.handles b := hcntd
                  omega
                · show (⟨b, hdv.ptr, (blkd.destroyFn hdv.ptr).isNone⟩
                      :: s.events).countP (fun e => e.blk == b) = 1
                  rw [List.countP_cons]
                  have hevd' : s.events.countP (fun e => e.blk == b) = 0 :=
                    hevd
                  simp [hevd']
              · rw [mupdate_ne _ _ _ _ hb_d] at hn
                by_cases hb_n : b = s.nextB
                · subst hb_n
                  rw [mupdate_same] at hn
                  cases hn
                · rw [mupdate_ne _ _ _ _ hb_n] at hn
                  have hned : bd ≠ b := fun hc => hb_d hc.symm
                  have hnen : s.nextB ≠ b := fun hc => hb_n hc.symm
                  have hblt : b < s.nextB := by omega
                  obtain ⟨g1, g2⟩ := hInv.dead b hblt hn
                  constructor
                  · show mrefsL (s.handles.set h (some ⟨raw, some s.nextB⟩)) b
                      = 0
                    rw [mrefsL_set_eq s.handles h hsl _ b
                      (by simp [hcd, SP.nbeq_false hned])
                      (by simp [SP.nbeq_false hnen])]
                    exact g1
                  · show (⟨bd, hdv.ptr, (blkd.destroyFn hdv.ptr).isNone⟩
                        :: s.events).countP (fun e => e.blk == b) = 1
                    rw [List.countP_cons]
                    have g2' : s.events.countP (fun e => e.blk == b) = 1 :=
                      g2
                    simp [SP.nbeq_false hned, g2']
          · have htwo : 2 ≤ blkd.count := by omega
            simp only [mstep, hsl, if_neg hraw, mrelease, hcd, hupd,
              hheapd, if_neg hfree]
            refine ⟨?_, ?_, ?_⟩
            · intro b hb
              simp only at hb
              have hned : bd ≠ b := by omega
              have hnen : s.nextB ≠ b := by omega
              obtain ⟨g1, g2, g3⟩ := hInv.fresh b (by omega)
              refine ⟨?_, ?_, g3⟩
              · have hne1 : b ≠ bd := fun hc => hned hc.symm
                have hne2 : b ≠ s.nextB := fun hc => hnen hc.symm
                simp only [mupdate_ne _ _ _ _ hne1,
                  mupdate_ne _ _ _ _ hne2]
                exact g1
              · show mrefsL (s.handles.set h (some ⟨raw, some s.nextB⟩)) b = 0
                rw [mrefsL_set_eq s.handles h hsl _ b
                  (by simp [hcd, SP.nbeq_false hned])
                  (by simp [SP.nbeq_false hnen])]
                exact g2
            · intro b blk' hb
              simp only at hb
              by_cases hb_d : b = bd
              · subst hb_d
                rw [mupdate_same] at hb
                have hblk' : blk' = ⟨blkd.count - 1, blkd.destroyFn⟩ :=
                  (Option.some.inj hb).symm
                subst hblk'
                have hnnb : s.nextB ≠ b := fun hc => hbne hc.symm
                refine ⟨?_, ?_, hevd⟩
                · show blkd.count - 1
                    = mrefsL (s.handles.set h (some ⟨raw, some s.nextB⟩)) b
                  have hsub := mrefsL_set_sub s.handles h hsl
                    (some ⟨raw, some s.nextB⟩) b (by simp [hcd])
                    (by simp [SP.nbeq_false hnnb])
                  have hcntd' : blkd.count = mrefsL s.handles b := hcntd
                  omega
                · show 1 ≤ mrefsL
                      (s.handles.set h (some ⟨raw, some s.nextB⟩)) b
                  have hsub := mrefsL_set_sub s.handles h hsl
                    (some ⟨raw, some s.nextB⟩) b (by simp [hcd])
                    (by simp [SP.nbeq_false hnnb])
                  have hcntd' : blkd.count = mrefsL s.handles b := hcntd
                  omega
              · rw [mupdate_ne _ _ _ _ hb_d] at hb
                by_cases hb_n : b = s.nextB
                · subst hb_n
                  rw [mupdate_same] at hb
                  have hblk' : blk' = ⟨1, implDestroyFn⟩ :=
                    (Option.some.inj hb).symm
                  subst hblk'
                  refine ⟨?_, ?_, hfe⟩
                  · show (1 : Nat) = mrefsL
                        (s.handles.set h (some ⟨raw, some s.nextB⟩)) s.nextB
                    rw [mrefsL_set_add s.handles h hsl _ s.nextB
                      (by simp [hcd, SP.nbeq_false hbne]) (by simp)]
                    have hfr' : mrefsL s.handles s.nextB = 0 := hfr
                    omega
                  · show 1 ≤ mrefsL
                        (s.handles.set h (some ⟨raw, some s.nextB⟩)) s.nextB
                    rw [mrefsL_set_add s.handles h hsl _ s.nextB
                      (by simp [hcd, SP.nbeq_false hbne]) (by simp)]
                    omega
                · rw [mupdate_ne _ _ _ _ hb_n] at hb
                  have hned : bd ≠ b := fun hc => hb_d hc.symm
                  have hnen : s.nextB ≠ b := fun hc => hb_n hc.symm
                  obtain ⟨g1, g2, g3⟩ := hInv.live b blk' hb
                  refine ⟨?_, ?_, g3⟩
                  · show blk'.count
                      = mrefsL (s.handles.set h (some ⟨raw, some s.nextB⟩)) b
                    rw [mrefsL_set_eq s.handles h hsl _ b
                      (by simp [hcd, SP.nbeq_false hned])
                      (by simp [SP.nbeq_false hnen])]
                    exact g1
                  · show 1 ≤ mrefsL
                        (s.handles.set h (some ⟨raw, some s.nextB⟩)) b
                    rw [mrefsL_set_eq s.handles h hsl _ b
                      (by simp [hcd, SP.nbeq_false hned])
                      (by simp [SP.nbeq_false hnen])]
                    exact g2
            · intro b hb hn
              simp only at hb hn
              by_cases hb_d : b = bd
              · subst hb_d
                rw [mupdate_same] at hn
                cases hn
              · rw [mupdate_ne _ _ _ _ hb_d] at hn
                by_cases hb_n : b = s.nextB
                · subst hb_n
                  rw [mupdate_same] at hn
                  cases hn
                · rw [mupdate_ne _ _ _ _ hb_n] at hn
                  have hned : bd ≠ b := fun hc => hb_d hc.symm
                  have hnen : s.nextB ≠ b := fun hc => hb_n hc.symm
                  have hblt : b < s.nextB := by omega
                  obtain ⟨g1, g2⟩ := hInv.dead b hblt hn
                  refine ⟨?_, g2⟩
                  show mrefsL (s.handles.set h (some ⟨raw, some s.nextB⟩)) b
                    = 0
                  rw [mrefsL_set_eq s.handles h hsl _ b
                    (by simp [hcd, SP.nbeq_false hned])
                    (by simp [SP.nbeq_false hnen])]
                  exact g1

/-- Every main.cpp operation preserves the exactly-once bookkeeping
invariant. -/
theorem minv_step {s : MState} (hInv : MInv s) (op : MOp) :
    MInv (mstep s op) := by
  cases op with
  | mconstruct raw => exact minv_construct hInv raw
  | mcopyCon src => exact minv_copyCon hInv src
  | mmoveCon src => exact minv_moveCon hInv src
  | massignCopy dst src => exact minv_assignCopy hInv dst src
  | massignMove dst src => exact minv_assignMove hInv dst src
  | mreset h raw => exact minv_reset hInv h raw
  | mswap a b => exact minv_swap hInv a b
  | mdestroy h => exact minv_destroy hInv h

theorem minv_exec {s : MState} (hInv : MInv s) (ops : List MOp) :
    MInv (mexec s ops) := by
  induction ops generalizing s with
  | nil => exact hInv
  | cons op ops ih => exact ih (minv_step hInv op)

end MC

/-! ## The claims -/

/-- C1: For every resource bound into a handle, the destruction strategy
(scalar delete, array delete, or a custom deleter) is invoked exactly once,
only after the last handle referencing that resource's control block is
destroyed, reset, or moved-from, and never again afterward; the control
block itself is freed at the same point.  Formally: in every reachable
state of either implementation, every allocated block is either still live
— at least one handle references it, its count equals the number of
referencing handles, and its strategy has fired zero times — or freed,
with no referencing handle left and its strategy fired exactly once (the
event is logged in the same step that removes the block from the heap). -/
theorem C1_strategy_fires_exactly_once_at_last_release
    (dk : SP.DKind) (ops : List SP.Op) (b : Nat)
    (hb : b < (SP.exec (SP.init dk) ops).nextBlock)
    (mops : List MC.MOp) (mb : Nat)
    (hmb : mb < (MC.mexec MC.minit mops).nextB) :
    ((∃ blk, (SP.exec (SP.init dk) ops).heap b = some blk
        ∧ SP.eventCount (SP.exec (SP.init dk) ops) b = 0
        ∧ 1 ≤ SP.refs (SP.exec (SP.init dk) ops) b)
      ∨ ((SP.exec (SP.init dk) ops).heap b = none
        ∧ SP.eventCount (SP.exec (SP.init dk) ops) b = 1
        ∧ SP.refs (SP.exec (SP.init dk) ops) b = 0))
    ∧ ((∃ mblk, (MC.mexec MC.minit mops).heap mb = some mblk
        ∧ MC.meventCount (MC.mexec MC.minit mops) mb = 0
        ∧ 1 ≤ MC.mrefs (MC.mexec MC.minit mops) mb
        ∧ mblk.count = MC.mrefs (MC.mexec MC.minit mops) mb)
      ∨ ((MC.mexec MC.minit mops).heap mb = none
        ∧ MC.meventCount (MC.mexec MC.minit mops) mb = 1
        ∧ MC.mrefs (MC.mexec MC.minit mops) mb = 0)) := by
  constructor
  · have hInv := SP.inv_exec (SP.inv_init dk) ops
    cases hh : (SP.exec (SP.init dk) ops).heap b with
    | some blk =>
      obtain ⟨g1, g2, g3, g4⟩ := hInv.live b blk hh
      exact Or.inl ⟨blk, rfl, g4, by omega⟩
    | none =>
      obtain ⟨g1, g2⟩ := hInv.dead b hb hh
      exact Or.inr ⟨rfl, g2, g1⟩
  · have hInv := MC.minv_exec MC.minv_minit mops
    cases hh : (MC.mexec MC.minit mops).heap mb with
    | some mblk =>
      obtain ⟨g1, g2, g3⟩ := hInv.live mb mblk hh
      exact Or.inl ⟨mblk, rfl, g3, g2, g1⟩
    | none =>
      obtain ⟨g1, g2⟩ := hInv.dead mb hmb hh
      exact Or.inr ⟨rfl, g2, g1⟩

theorem C1_witness :
    0 < (SP.exec (SP.init .scalar) [.construct 7]).nextBlock
    ∧ 0 < (MC.mexec MC.minit [.mconstruct 7]).nextB
    ∧ (((∃ blk, (SP.exec (SP.init .scalar) [.construct 7]).heap 0 = some blk
        ∧ SP.eventCount (SP.exec (SP.init .scalar) [.construct 7]) 0 = 0
        ∧ 1 ≤ SP.refs (SP.exec (SP.init .scalar) [.construct 7]) 0)
      ∨ ((SP.exec (SP.init .scalar) [.construct 7]).heap 0 = none
        ∧ SP.eventCount (SP.exec (SP.init .scalar) [.construct 7]) 0 = 1
        ∧ SP.refs (SP.exec (SP.init .scalar) [.construct 7]) 0 = 0))
    ∧ ((∃ mblk, (MC.mexec MC.minit [.mconstruct 7]).heap 0 = some mblk
        ∧ MC.meventCount (MC.mexec MC.minit [.mconstruct 7]) 0 = 0
        ∧ 1 ≤ MC.mrefs (MC.mexec MC.minit [.mconstruct 7]) 0
        ∧ mblk.count = MC.mrefs (MC.mexec MC.minit [.mconstruct 7]) 0)
      ∨ ((MC.mexec MC.minit [.mconstruct 7]).heap 0 = none
        ∧ MC.meventCount (MC.mexec MC.minit [.mconstruct 7]) 0 = 1
        ∧ MC.mrefs (MC.mexec MC.minit [.mconstruct 7]) 0 = 0))) :=
  ⟨by decide, by decide,
    C1_strategy_fires_exactly_once_at_last_release .scalar [.construct 7] 0
      (by decide) [.mconstruct 7] 0 (by decide)⟩

/-- C2: For every sequence of copy-construct, move, reset, swap, and
destroy operations on handles sharing one control block, `use_count()`
observed on any of those handles equals the number of currently live,
Bound handles referencing that block (`refs` / `mrefs`), and `0` for an
Empty handle — in both implementations: SharedPtr.h's
`cb_ ? cb_->ref_cnt : 0` and main.cpp's `cb_ ? cb_->count.load() : 0`. -/
theorem C2_use_count_equals_live_bound_references
    (dk : SP.DKind) (ops : List SP.Op) (h : Nat)
    (mops : List MC.MOp) (k : Nat) :
    (∀ b, SP.cbOf (SP.exec (SP.init dk) ops) h = some b →
      SP.use_count (SP.exec (SP.init dk) ops) h
        = SP.refs (SP.exec (SP.init dk) ops) b)
    ∧ (SP.cbOf (SP.exec (SP.init dk) ops) h = none →
      SP.use_count (SP.exec (SP.init dk) ops) h = 0)
    ∧ (∀ hd : MC.MHandle, ∀ mb,
      (MC.mexec MC.minit mops).handles.get? k = some (some hd) →
      hd.cb = some mb →
      MC.muse_count (MC.mexec MC.minit mops) hd
        = MC.mrefs (MC.mexec MC.minit mops) mb)
    ∧ (∀ hd : MC.MHandle, hd.cb = none →
      MC.muse_count (MC.mexec MC.minit mops) hd = 0) := by
  have hInv := SP.inv_exec (SP.inv_init dk) ops
  refine ⟨?_, ?_, ?_, ?_⟩
  · intro b hb
    have hs := SP.slot_of_cbOf hb
    obtain ⟨blk, hheap, hcnt, hpos, hptr, hev, hlt⟩ := hInv.block_of_slot hs
    unfold SP.use_count
    rw [hb]
    simp only
    rw [hheap]
    exact hcnt
  · intro hb
    unfold SP.use_count
    rw [hb]
  · intro hd mb hk hcb
    have hInvM := MC.minv_exec MC.minv_minit mops
    obtain ⟨mblk, hheap, hcnt, hpos, hev, hlt⟩ :=
      hInvM.live_block_of_refs (MC.mrefs_pos_of_slot hk hcb)
    unfold MC.muse_count
    rw [hcb]
    simp only
    rw [hheap]
    exact hcnt
  · intro hd hcb
    unfold MC.muse_count
    rw [hcb]

theorem C2_witness :
    SP.cbOf (SP.exec (SP.init .scalar) [.construct 7, .copyCon 0]) 0 = some 0
    ∧ SP.use_count (SP.exec (SP.init .scalar) [.construct 7, .copyCon 0]) 0
        = SP.refs (SP.exec (SP.init .scalar) [.construct 7, .copyCon 0]) 0
    ∧ SP.cbOf (SP.exec (SP.init .scalar) [.construct 0]) 0 = none
    ∧ SP.use_count (SP.exec (SP.init .scalar) [.construct 0]) 0 = 0
    ∧ (MC.mexec MC.minit [.mconstruct 7, .mcopyCon 0]).handles.get? 0
        = some (some (⟨7, some 0⟩ : MC.MHandle))
    ∧ (⟨7, some 0⟩ : MC.MHandle).cb = some 0
    ∧ MC.muse_count (MC.mexec MC.minit [.mconstruct 7, .mcopyCon 0])
        ⟨7, some 0⟩
      = MC.mrefs (MC.mexec MC.minit [.mconstruct 7, .mcopyCon 0]) 0
    ∧ (⟨0, none⟩ : MC.MHandle).cb = none
    ∧ MC.muse_count (MC.mexec MC.minit [.mconstruct 7, .mcopyCon 0])
        ⟨0, none⟩ = 0 :=
  ⟨by decide,
    (C2_use_count_equals_live_bound_references .scalar
      [.construct 7, .copyCon 0] 0 [.mconstruct 7, .mcopyCon 0] 0).1 0
      (by decide),
    by decide,
    (C2_use_count_equals_live_bound_references .scalar
      [.construct 0] 0 [] 0).2.1 (by decide),
    by decide, by decide,
    (C2_use_count_equals_live_bound_references .scalar
      [.construct 7, .copyCon 0] 0 [.mconstruct 7, .mcopyCon 0] 0).2.2.1
      ⟨7, some 0⟩ 0 (by decide) (by decide),
    by decide,
    (C2_use_count_equals_live_bound_references .scalar
      [.construct 7, .copyCon 0] 0 [.mconstruct 7, .mcopyCon 0] 0).2.2.2
      ⟨0, none⟩ (by decide)⟩

/-- C3: In the type-erased implementation (main.cpp), when the count of a
control block created with a custom deleter reaches zero, the stored
destroy function reads the deleter through a pointer obtained by casting a
null pointer to the control-block type and dereferencing it: the
safe-execution branch of `implDestroyFn` (the one that would actually read
and apply the stored deleter) is unreachable — the function yields the
undefined-behavior marker `none` on every input — and consequently every
destroy invocation logged in any reachable main.cpp state is flagged as a
null-derived dereference. -/
theorem C3_custom_deleter_destroy_dereferences_null
    (ops : List MC.MOp) :
    (∀ p, MC.implDestroyFn p = none)
    ∧ (∀ e, e ∈ (MC.mexec MC.minit ops).events → e.ub = true) :=
  ⟨fun _ => rfl, (MC.fnub_exec MC.fn_minit MC.ub_minit ops).2⟩

/-- C4: For every handle h, self-assignment (h = h, copy or move) and
self-swap (swap(h,h)) leave h's use_count() and get() unchanged and do not
invoke the destruction strategy.  In SharedPtr.h the `this == &r` guard
(and swapping `cb_` with itself) makes the three operations literal no-ops
on every state; in main.cpp's copy-and-swap `operator=`, the temporary
takes its extra reference before the old one is released, so on any state
in which the handle's block is live with a positive count (hypothesis
`hblk`; the witness instantiates it at a reachable state) the state is
again unchanged — so use_count() and get() are unchanged and no
destruction event is ever appended. -/
theorem C4_self_assignment_and_self_swap_are_noops
    (s : SP.SPState) (h : Nat)
    (t : MC.MState) (k : Nat) (hd : MC.MHandle)
    (hk : t.handles.get? k = some (some hd))
    (hblk : ∀ b, hd.cb = some b →
      ∃ blk, t.heap b = some blk ∧ 1 ≤ blk.count) :
    SP.step s (.copyAssign h h) = s
    ∧ SP.step s (.moveAssign h h) = s
    ∧ SP.step s (.swapH h h) = s
    ∧ MC.mstep t (.massignCopy k k) = t
    ∧ MC.mstep t (.massignMove k k) = t
    ∧ MC.mstep t (.mswap k k) = t := by
  refine ⟨?_, ?_, ?_, ?_, ?_, ?_⟩
  · simp [SP.step]
  · simp [SP.step]
  · cases hs : s.handles.get? h with
    | none => simp only [SP.step, hs]
    | some sl =>
      cases sl with
      | none => simp only [SP.step, hs]
      | some c =>
        simp only [SP.step, hs]
        rw [List.set_set, SPV.lset_self hs]
  · cases hcb : hd.cb with
    | none =>
      simp only [MC.mstep, hk, MC.mincCB, hcb, MC.mrelease]
      rw [SPV.lset_self hk]
    | some b =>
      obtain ⟨blk, hheap, hpos⟩ := hblk b hcb
      have hne : ¬(blk.count + 1 = 1) := by omega
      simp only [MC.mstep, hk, MC.mincCB, hcb, hheap, MC.mrelease,
        MC.mupdate_same, if_neg hne]
      have hhands : t.handles.set k (some hd) = t.handles :=
        SPV.lset_self hk
      have hheap2 : MC.mupdate (MC.mupdate t.heap b
          (some ⟨blk.count + 1, blk.destroyFn⟩)) b
          (some ⟨blk.count + 1 - 1, blk.destroyFn⟩) = t.heap := by
        funext b'
        by_cases hbb : b' = b
        · subst hbb
          rw [MC.mupdate_same, hheap]
          have hc1 : blk.count + 1 - 1 = blk.count := by omega
          rw [hc1]
        · rw [MC.mupdate_ne _ _ _ _ hbb, MC.mupdate_ne _ _ _ _ hbb]
      rw [hhands, hheap2]
  · have hg : (t.handles.set k (some (⟨0, none⟩ : MC.MHandle))).get? k
        = some (some (⟨0, none⟩ : MC.MHandle)) :=
      SPV.lget_set_eq _ hk
    simp only [MC.mstep, hk, hg, MC.mrelease]
    rw [List.set_set, SPV.lset_self hk]
  · simp only [MC.mstep, hk]
    rw [List.set_set, SPV.lset_self hk]

theorem C4_witness :
    (MC.mexec MC.minit [.mconstruct 7]).handles.get? 0
      = some (some (⟨7, some 0⟩ : MC.MHandle))
    ∧ (∀ b, (⟨7, some 0⟩ : MC.MHandle).cb = some b →
        ∃ blk, (MC.mexec MC.minit [.mconstruct 7]).heap b = some blk
          ∧ 1 ≤ blk.count)
    ∧ (SP.step (SP.exec (SP.init .scalar) [.construct 7]) (.copyAssign 0 0)
        = SP.exec (SP.init .scalar) [.construct 7]
      ∧ SP.step (SP.exec (SP.init .scalar) [.construct 7]) (.moveAssign 0 0)
        = SP.exec (SP.init .scalar) [.construct 7]
      ∧ SP.step (SP.exec (SP.init .scalar) [.construct 7]) (.swapH 0 0)
        = SP.exec (SP.init .scalar) [.construct 7]
      ∧ MC.mstep (MC.mexec MC.minit [.mconstruct 7]) (.massignCopy 0 0)
        = MC.mexec MC.minit [.mconstruct 7]
      ∧ MC.mstep (MC.mexec MC.minit [.mconstruct 7]) (.massignMove 0 0)
        = MC.mexec MC.minit [.mconstruct 7]
      ∧ MC.mstep (MC.mexec MC.minit [.mconstruct 7]) (.mswap 0 0)
        = MC.mexec MC.minit [.mconstruct 7]) :=
  ⟨by decide,
    fun b hb => by
      have hb' : (some 0 : Option Nat) = some b := hb
      injection hb' with h2
      subst h2
      exact ⟨⟨1, MC.implDestroyFn⟩, rfl, by decide⟩,
    C4_self_assignment_and_self_swap_are_noops
      (SP.exec (SP.init .scalar) [.construct 7]) 0
      (MC.mexec MC.minit [.mconstruct 7]) 0 ⟨7, some 0⟩ (by decide)
      (fun b hb => by
        have hb' : (some 0 : Option Nat) = some b := hb
        injection hb' with h2
        subst h2
        exact ⟨⟨1, MC.implDestroyFn⟩, rfl, by decide⟩)⟩

theorem C3_witness :
    MC.implDestroyFn 5 = none
    ∧ (⟨0, 7, true⟩ : MC.MEvent) ∈
        (MC.mexec MC.minit [.mconstruct 7, .mdestroy 0]).events
    ∧ (⟨0, 7, true⟩ : MC.MEvent).ub = true :=
  ⟨(C3_custom_deleter_destroy_dereferences_null []).1 5, by decide,
    (C3_custom_deleter_destroy_dereferences_null
      [.mconstruct 7, .mdestroy 0]).2 ⟨0, 7, true⟩ (by decide)⟩

/-- C5 (code bug in main.cpp): constructing a handle from a raw address.
SharedPtr.h satisfies the claim: a non-null address yields a Bound handle
with a freshly allocated control block and use_count() == 1, and a null
address yields an Empty handle with no control block allocated.  In
main.cpp the only raw-address constructor is the deleter constructor,
whose members `ptr_`/`cb_` have no initializers: on the null path the body
skips the assignment, so the handle keeps the storage's indeterminate junk
(here `⟨5, none⟩`) and bool-converts to true instead of being Empty — even
though, as the claim says, no control block is allocated (`nextB`
unchanged). -/
theorem C5_null_construction_header_ok_main_uninitialized :
    ((SP.step (SP.init .scalar) (.construct 0)).handles.get? 0
        = some (some none)
      ∧ (SP.step (SP.init .scalar) (.construct 0)).nextBlock = 0
      ∧ SP.use_count (SP.step (SP.init .scalar) (.construct 0)) 0 = 0
      ∧ SP.getOf (SP.step (SP.init .scalar) (.construct 0)) 0 = 0)
    ∧ (SP.cbOf (SP.step (SP.init .scalar) (.construct 7)) 0 = some 0
      ∧ (SP.step (SP.init .scalar) (.construct 7)).nextBlock = 1
      ∧ SP.use_count (SP.step (SP.init .scalar) (.construct 7)) 0 = 1
      ∧ SP.getOf (SP.step (SP.init .scalar) (.construct 7)) 0 = 7)
    ∧ (MC.mctorRaw MC.minit ⟨5, none⟩ 0 = (MC.minit, ⟨5, none⟩)
      ∧ MC.mbool ⟨5, none⟩ = true
      ∧ MC.mbool ⟨0, none⟩ = false) :=
  ⟨⟨by decide, by decide, by decide, by decide⟩,
    ⟨by decide, by decide, by decide, by decide⟩,
    ⟨rfl, by decide, by decide⟩⟩

/-- C6 fails as stated: when destination and source already share one
block (use_count 2), move-assignment first releases the destination's own
reference, so afterwards the destination's use_count() is 1, not the
source's pre-move use_count() of 2. -/
theorem C6_counterexample :
    SP.use_count (SP.exec (SP.init .scalar) [.construct 7, .copyCon 0]) 0
      = 2
    ∧ SP.use_count (SP.step (SP.exec (SP.init .scalar)
        [.construct 7, .copyCon 0]) (.moveAssign 1 0)) 1 = 1
    ∧ SP.use_count (SP.step (SP.exec (SP.init .scalar)
          [.construct 7, .copyCon 0]) (.moveAssign 1 0)) 1
      ≠ SP.use_count (SP.exec (SP.init .scalar) [.construct 7, .copyCon 0])
          0 :=
  ⟨by decide, by decide, by decide⟩

/-- C6 (amended): in both implementations, after move-construction from a
Bound handle — and after move-assignment from a Bound handle whenever the
destination is a distinct handle that does not already reference the
source's block — the moved-from handle is Empty (bool-conversion false,
use_count() == 0, get() null: SharedPtr.h nulls `cb_`, main.cpp nulls both
`ptr_` and `cb_`) and the block's count is untouched: the destination's
use_count() equals the source's pre-move use_count().  (When the
destination already shared the block, move-assignment first releases its
reference and the count drops by one: see `C6_counterexample`.) -/
theorem C6_move_leaves_source_empty_and_count_transfers
    (s : SP.SPState) (src dst b : Nat)
    (hs : s.handles.get? src = some (some (some b)))
    (t : MC.MState) (msrc mdst : Nat) (hsv : MC.MHandle)
    (hms : t.handles.get? msrc = some (some hsv)) :
    (SP.cbOf (SP.step s (.moveCon src)) s.handles.length = some b
     ∧ SP.use_count (SP.step s (.moveCon src)) s.handles.length
         = SP.use_count s src
     ∧ SP.cbOf (SP.step s (.moveCon src)) src = none
     ∧ SP.use_count (SP.step s (.moveCon src)) src = 0
     ∧ SP.getOf (SP.step s (.moveCon src)) src = 0
     ∧ SP.boolConv (SP.step s (.moveCon src)) src = false)
    ∧ (∀ cd, s.handles.get? dst = some (some cd) → dst ≠ src →
        cd ≠ some b →
        SP.cbOf (SP.step s (.moveAssign dst src)) dst = some b
        ∧ SP.use_count (SP.step s (.moveAssign dst src)) dst
            = SP.use_count s src
        ∧ SP.cbOf (SP.step s (.moveAssign dst src)) src = none
        ∧ SP.use_count (SP.step s (.moveAssign dst src)) src = 0
        ∧ SP.getOf (SP.step s (.moveAssign dst src)) src = 0
        ∧ SP.boolConv (SP.step s (.moveAssign dst src)) src = false)
    ∧ ((MC.mstep t (.mmoveCon msrc)).handles.get? t.handles.length
          = some (some hsv)
      ∧ MC.muse_count (MC.mstep t (.mmoveCon msrc)) hsv
          = MC.muse_count t hsv
      ∧ (MC.mstep t (.mmoveCon msrc)).handles.get? msrc
          = some (some (⟨0, none⟩ : MC.MHandle))
      ∧ MC.muse_count (MC.mstep t (.mmoveCon msrc)) ⟨0, none⟩ = 0
      ∧ MC.mget ⟨0, none⟩ = 0
      ∧ MC.mbool ⟨0, none⟩ = false)
    ∧ (∀ hdv : MC.MHandle, t.handles.get? mdst = some (some hdv) →
        mdst ≠ msrc → (∀ mb, hsv.cb = some mb → hdv.cb ≠ some mb) →
        (MC.mstep t (.massignMove mdst msrc)).handles.get? mdst
            = some (some hsv)
        ∧ MC.muse_count (MC.mstep t (.massignMove mdst msrc)) hsv
            = MC.muse_count t hsv
        ∧ (MC.mstep t (.massignMove mdst msrc)).handles.get? msrc
            = some (some (⟨0, none⟩ : MC.MHandle))) := by
  have hstep1 : SP.step s (.moveCon src)
      = { s with handles := (s.handles.set src (some none))
          ++ [some (some b)] } := by
    simp only [SP.step, hs]
  have hlen : (s.handles.set src (some none)).length = s.handles.length := by
    simp
  have hgetNew : ((s.handles.set src (some none))
      ++ [some (some b)]).get? s.handles.length
      = some (some (some b)) := by
    rw [← hlen]
    exact List.get?_concat_length _ _
  have hsrcLt : src < s.handles.length := SPV.lget_some_lt hs
  have hgetSrc : ((s.handles.set src (some none))
      ++ [some (some b)]).get? src = some (some none) := by
    rw [List.get?_append (by simpa [hlen] using hsrcLt)]
    exact SPV.lget_set_eq _ hs
  have hstepM : MC.mstep t (.mmoveCon msrc)
      = { t with handles := (t.handles.set msrc (some ⟨0, none⟩))
          ++ [some hsv] } := by
    simp only [MC.mstep, hms]
  have hlenM : (t.handles.set msrc
      (some (⟨0, none⟩ : MC.MHandle))).length = t.handles.length := by
    simp
  have hgetNewM : ((t.handles.set msrc (some (⟨0, none⟩ : MC.MHandle)))
      ++ [some hsv]).get? t.handles.length = some (some hsv) := by
    rw [← hlenM]
    exact List.get?_concat_length _ _
  have hsrcLtM : msrc < t.handles.length := SPV.lget_some_lt hms
  have hgetSrcM : ((t.handles.set msrc (some (⟨0, none⟩ : MC.MHandle)))
      ++ [some hsv]).get? msrc = some (some (⟨0, none⟩ : MC.MHandle)) := by
    rw [List.get?_append (by simpa [hlenM] using hsrcLtM)]
    exact SPV.lget_set_eq _ hms
  refine ⟨?_, ?_, ?_, ?_⟩
  · refine ⟨?_, ?_, ?_, ?_, ?_, ?_⟩
    · rw [hstep1]
      exact SP.cbOf_eq_of_slot hgetNew
    · rw [hstep1]
      unfold SP.use_count
      rw [SP.cbOf_eq_of_slot hgetNew, SP.cbOf_eq_of_slot hs]
    · rw [hstep1]
      exact SP.cbOf_eq_of_slot hgetSrc
    · rw [hstep1]
      unfold SP.use_count
      rw [SP.cbOf_eq_of_slot hgetSrc]
    · rw [hstep1]
      unfold SP.getOf
      rw [SP.cbOf_eq_of_slot hgetSrc]
      rfl
    · rw [hstep1]
      unfold SP.boolConv SP.getOf
      rw [SP.cbOf_eq_of_slot hgetSrc]
      rfl
  · intro cd hdslot hds hcd
    have hsd : src ≠ dst := fun hc => hds hc.symm
    have hstep2 : SP.step s (.moveAssign dst src)
        = { SP.decCB s cd with handles :=
            (((SP.decCB s cd).handles.set dst
              (some (some b))).set src (some none)) } := by
      simp only [SP.step, if_neg hds, hdslot, hs]
    have hdh : (SP.decCB s cd).handles = s.handles := SP.decCB_handles s cd
    have hgdst : (((SP.decCB s cd).handles.set dst (some (some b))).set src
        (some none)).get? dst = some (some (some b)) := by
      rw [hdh, SPV.lget_set_ne _ _ _ _ hsd]
      exact SPV.lget_set_eq _ hdslot
    have hinner : (s.handles.set dst (some (some b))).get? src
        = some (some (some b)) := by
      rw [SPV.lget_set_ne _ _ _ _ hds]
      exact hs
    have hgsrc : (((SP.decCB s cd).handles.set dst (some (some b))).set src
        (some none)).get? src = some (some none) := by
      rw [hdh]
      exact SPV.lget_set_eq _ hinner
    have hheapb : (SP.decCB s cd).heap b = s.heap b :=
      SP.decCB_heap_other s cd b hcd
    refine ⟨?_, ?_, ?_, ?_, ?_, ?_⟩
    · rw [hstep2]
      exact SP.cbOf_eq_of_slot hgdst
    · rw [hstep2]
      unfold SP.use_count
      rw [SP.cbOf_eq_of_slot hgdst, SP.cbOf_eq_of_slot hs]
      simp only
      rw [hheapb]
    · rw [hstep2]
      exact SP.cbOf_eq_of_slot hgsrc
    · rw [hstep2]
      unfold SP.use_count
      rw [SP.cbOf_eq_of_slot hgsrc]
    · rw [hstep2]
      unfold SP.getOf
      rw [SP.cbOf_eq_of_slot hgsrc]
      rfl
    · rw [hstep2]
      unfold SP.boolConv SP.getOf
      rw [SP.cbOf_eq_of_slot hgsrc]
      rfl
  · refine ⟨?_, ?_, ?_, ?_, ?_, ?_⟩
    · rw [hstepM]
      exact hgetNewM
    · rw [hstepM]
      exact MC.muse_count_handles t _ hsv
    · rw [hstepM]
      exact hgetSrcM
    · rw [hstepM]
      rfl
    · rfl
    · rfl
  · intro hdv hmd hneM hcbM
    have hsdM : msrc ≠ mdst := fun hc => hneM hc.symm
    have hgdM : (t.handles.set msrc
        (some (⟨0, none⟩ : MC.MHandle))).get? mdst = some (some hdv) := by
      rw [SPV.lget_set_ne _ _ _ _ hsdM]
      exact hmd
    have hstep2M : MC.mstep t (.massignMove mdst msrc)
        = { MC.mrelease t hdv.ptr hdv.cb with handles :=
            ((t.handles.set msrc (some ⟨0, none⟩)).set mdst (some hsv)) } := by
      rw [show MC.mstep t (.massignMove mdst msrc)
          = MC.mrelease { t with handles :=
            ((t.handles.set msrc (some ⟨0, none⟩)).set mdst (some hsv)) }
            hdv.ptr hdv.cb from by simp only [MC.mstep, hms, hmd, hgdM]]
      exact MC.mrelease_handles_comm t _ hdv.ptr hdv.cb
    refine ⟨?_, ?_, ?_⟩
    · rw [hstep2M]
      exact SPV.lget_set_eq _ hgdM
    · rw [hstep2M]
      cases hcbs : hsv.cb with
      | none =>
        unfold MC.muse_count
        rw [hcbs]
      | some mb =>
        have hheapB : (MC.mrelease t hdv.ptr hdv.cb).heap mb = t.heap mb :=
          MC.mrelease_heap_other t hdv.ptr hdv.cb mb (hcbM mb hcbs)
        unfold MC.muse_count
        rw [hcbs]
        simp only
        rw [hheapB]
    · rw [hstep2M]
      show ((t.handles.set msrc (some ⟨0, none⟩)).set mdst
        (some hsv)).get? msrc = some (some (⟨0, none⟩ : MC.MHandle))
      rw [SPV.lget_set_ne _ _ _ _ hneM]
      exact SPV.lget_set_eq _ hms

theorem C6_witness :
    (SP.exec (SP.init .scalar)
        [.construct 7, .construct 9, .copyCon 0]).handles.get? 0
      = some (some (some 0))
    ∧ (SP.exec (SP.init .scalar)
        [.construct 7, .construct 9, .copyCon 0]).handles.get? 1
      = some (some (some 1))
    ∧ (1 : Nat) ≠ 0
    ∧ (some 1 : Option Nat) ≠ some 0
    ∧ (SP.cbOf (SP.step (SP.exec (SP.init .scalar)
          [.construct 7, .construct 9, .copyCon 0]) (.moveCon 0))
        (SP.exec (SP.init .scalar)
          [.construct 7, .construct 9, .copyCon 0]).handles.length
        = some 0
      ∧ SP.use_count (SP.step (SP.exec (SP.init .scalar)
          [.construct 7, .construct 9, .copyCon 0]) (.moveCon 0))
          (SP.exec (SP.init .scalar)
            [.construct 7, .construct 9, .copyCon 0]).handles.length
        = SP.use_count (SP.exec (SP.init .scalar)
            [.construct 7, .construct 9, .copyCon 0]) 0
      ∧ SP.cbOf (SP.step (SP.exec (SP.init .scalar)
          [.construct 7, .construct 9, .copyCon 0]) (.moveCon 0)) 0 = none
      ∧ SP.use_count (SP.step (SP.exec (SP.init .scalar)
          [.construct 7, .construct 9, .copyCon 0]) (.moveCon 0)) 0 = 0
      ∧ SP.getOf (SP.step (SP.exec (SP.init .scalar)
          [.construct 7, .construct 9, .copyCon 0]) (.moveCon 0)) 0 = 0
      ∧ SP.boolConv (SP.step (SP.exec (SP.init .scalar)
          [.construct 7, .construct 9, .copyCon 0]) (.moveCon 0)) 0 = false)
    ∧ (SP.cbOf (SP.step (SP.exec (SP.init .scalar)
          [.construct 7, .construct 9, .copyCon 0]) (.moveAssign 1 0)) 1
        = some 0
      ∧ SP.use_count (SP.step (SP.exec (SP.init .scalar)
          [.construct 7, .construct 9, .copyCon 0]) (.moveAssign 1 0)) 1
        = SP.use_count (SP.exec (SP.init .scalar)
            [.construct 7, .construct 9, .copyCon 0]) 0
      ∧ SP.cbOf (SP.step (SP.exec (SP.init .scalar)
          [.construct 7, .construct 9, .copyCon 0]) (.moveAssign 1 0)) 0
        = none
      ∧ SP.use_count (SP.step (SP.exec (SP.init .scalar)
          [.construct 7, .construct 9, .copyCon 0]) (.moveAssign 1 0)) 0
        = 0
      ∧ SP.getOf (SP.step (SP.exec (SP.init .scalar)
          [.construct 7, .construct 9, .copyCon 0]) (.moveAssign 1 0)) 0
        = 0
      ∧ SP.boolConv (SP.step (SP.exec (SP.init .scalar)
          [.construct 7, .construct 9, .copyCon 0]) (.moveAssign 1 0)) 0
        = false)
    ∧ (MC.mexec MC.minit
        [.mconstruct 7, .mconstruct 9, .mcopyCon 0]).handles.get? 0
      = some (some (⟨7, some 0⟩ : MC.MHandle))
    ∧ (MC.mexec MC.minit
        [.mconstruct 7, .mconstruct 9, .mcopyCon 0]).handles.get? 1
      = some (some (⟨9, some 1⟩ : MC.MHandle))
    ∧ ((MC.mstep (MC.mexec MC.minit
          [.mconstruct 7, .mconstruct 9, .mcopyCon 0])
          (.mmoveCon 0)).handles.get? (MC.mexec MC.minit
          [.mconstruct 7, .mconstruct 9, .mcopyCon 0]).handles.length
        = some (some (⟨7, some 0⟩ : MC.MHandle))
      ∧ MC.muse_count (MC.mstep (MC.mexec MC.minit
          [.mconstruct 7, .mconstruct 9, .mcopyCon 0]) (.mmoveCon 0))
          ⟨7, some 0⟩
        = MC.muse_count (MC.mexec MC.minit
            [.mconstruct 7, .mconstruct 9, .mcopyCon 0]) ⟨7, some 0⟩
      ∧ (MC.mstep (MC.mexec MC.minit
          [.mconstruct 7, .mconstruct 9, .mcopyCon 0])
          (.mmoveCon 0)).handles.get? 0
        = some (some (⟨0, none⟩ : MC.MHandle))
      ∧ MC.muse_count (MC.mstep (MC.mexec MC.minit
          [.mconstruct 7, .mconstruct 9, .mcopyCon 0]) (.mmoveCon 0))
          ⟨0, none⟩ = 0
      ∧ MC.mget ⟨0, none⟩ = 0
      ∧ MC.mbool ⟨0, none⟩ = false)
    ∧ ((MC.mstep (MC.mexec MC.minit
          [.mconstruct 7, .mconstruct 9, .mcopyCon 0])
          (.massignMove 1 0)).handles.get? 1
        = some (some (⟨7, some 0⟩ : MC.MHandle))
      ∧ MC.muse_count (MC.mstep (MC.mexec MC.minit
          [.mconstruct 7, .mconstruct 9, .mcopyCon 0]) (.massignMove 1 0))
          ⟨7, some 0⟩
        = MC.muse_count (MC.mexec MC.minit
            [.mconstruct 7, .mconstruct 9, .mcopyCon 0]) ⟨7, some 0⟩
      ∧ (MC.mstep (MC.mexec MC.minit
          [.mconstruct 7, .mconstruct 9, .mcopyCon 0])
          (.massignMove 1 0)).handles.get? 0
        = some (some (⟨0, none⟩ : MC.MHandle))) := by
  have H := C6_move_leaves_source_empty_and_count_transfers
    (SP.exec (SP.init .scalar) [.construct 7, .construct 9, .copyCon 0])
    0 1 0 (by decide)
    (MC.mexec MC.minit [.mconstruct 7, .mconstruct 9, .mcopyCon 0])
    0 1 ⟨7, some 0⟩ (by decide)
  exact ⟨by decide, by decide, by decide, by decide, H.1,
    H.2.1 (some 1) (by decide) (by decide) (by decide),
    by decide, by decide, H.2.2.1,
    H.2.2.2 ⟨9, some 1⟩ (by decide) (by decide)
      (fun mb h1 h2 => by
        have e1 : (some 0 : Option Nat) = some mb := h1
        have e2 : (some 1 : Option Nat) = some mb := h2
        injection e1 with f1
        injection e2 with f2
        omega)⟩

/-- C7 fails as stated: `reset(new_raw)` on a uniquely-owned Bound handle
with `new_raw` equal to the currently held (non-null) address is a no-op in
SharedPtr.h (`if (get() != p)`), so the previously held resource is not
destroyed at all — the claim's "destroys the previously held resource
exactly once" does not hold at this input (although get() == new_raw and
use_count() == 1 still do). -/
theorem C7_counterexample :
    SP.cbOf (SP.exec (SP.init .scalar) [.construct 7]) 0 = some 0
    ∧ SP.use_count (SP.exec (SP.init .scalar) [.construct 7]) 0 = 1
    ∧ SP.getOf (SP.exec (SP.init .scalar) [.construct 7]) 0 = 7
    ∧ (7 : Nat) ≠ 0
    ∧ SP.eventCount (SP.step (SP.exec (SP.init .scalar) [.construct 7])
        (.resetTo 0 7)) 0 = 0
    ∧ SP.use_count (SP.step (SP.exec (SP.init .scalar) [.construct 7])
        (.resetTo 0 7)) 0 = 1 :=
  ⟨by decide, by decide, by decide, by decide, by decide, by decide⟩

/-- C7 (amended): calling reset(new_raw) on a uniquely-owned Bound handle
(use_count() == 1) with a non-null new_raw destroys the previously held
resource exactly once — its strategy invocation count goes from 0 to 1 and
its control block is freed in the same step — and afterwards the handle
satisfies get() == new_raw and use_count() == 1; in SharedPtr.h this needs
new_raw *different from the currently held address*, because its reset is
guarded by `if (get() != p)` and is a complete no-op on an equal address
(see `C7_counterexample` and C10), whereas main.cpp's
`SharedPtr(ptr).swap(*this)` has no such guard and destroys the old
resource for every non-null new_raw, an equal address included. -/
theorem C7_reset_to_fresh_raw_destroys_old_exactly_once
    (dk : SP.DKind) (ops : List SP.Op) (h b p : Nat)
    (hb : SP.cbOf (SP.exec (SP.init dk) ops) h = some b)
    (hu : SP.use_count (SP.exec (SP.init dk) ops) h = 1)
    (hp : p ≠ 0)
    (hnew : SP.getOf (SP.exec (SP.init dk) ops) h ≠ p)
    (mops : List MC.MOp) (k mb mraw : Nat) (hd : MC.MHandle)
    (hk : (MC.mexec MC.minit mops).handles.get? k = some (some hd))
    (hcb : hd.cb = some mb)
    (hmu : MC.muse_count (MC.mexec MC.minit mops) hd = 1)
    (hmraw : mraw ≠ 0) :
    (SP.getOf (SP.step (SP.exec (SP.init dk) ops) (.resetTo h p)) h = p
    ∧ SP.use_count (SP.step (SP.exec (SP.init dk) ops) (.resetTo h p)) h
        = 1
    ∧ (SP.step (SP.exec (SP.init dk) ops) (.resetTo h p)).heap b = none
    ∧ SP.eventCount (SP.step (SP.exec (SP.init dk) ops) (.resetTo h p)) b
        = 1
    ∧ SP.eventCount (SP.exec (SP.init dk) ops) b = 0)
    ∧ ((MC.mstep (MC.mexec MC.minit mops) (.mreset k mraw)).handles.get? k
        = some (some (⟨mraw, some (MC.mexec MC.minit mops).nextB⟩
            : MC.MHandle))
    ∧ MC.muse_count (MC.mstep (MC.mexec MC.minit mops) (.mreset k mraw))
        ⟨mraw, some (MC.mexec MC.minit mops).nextB⟩ = 1
    ∧ (MC.mstep (MC.mexec MC.minit mops) (.mreset k mraw)).heap mb = none
    ∧ MC.meventCount (MC.mstep (MC.mexec MC.minit mops) (.mreset k mraw))
        mb = 1
    ∧ MC.meventCount (MC.mexec MC.minit mops) mb = 0) := by
  have hInv := SP.inv_exec (SP.inv_init dk) ops
  have hs := SP.slot_of_cbOf hb
  obtain ⟨blk, hheap, hcnt, hpos, hptr, hev, hlt⟩ := hInv.block_of_slot hs
  have hcnt1 : blk.ref_cnt = 1 := by
    unfold SP.use_count at hu
    rw [hb] at hu
    simp only at hu
    rw [hheap] at hu
    exact hu
  have hguard : ¬(SP.ptrOfCB (SP.exec (SP.init dk) ops) (some b) = p) := by
    intro hc
    apply hnew
    unfold SP.getOf
    rw [hb]
    exact hc
  have hfree : blk.ref_cnt - 1 = 0 := by omega
  have hbne : b ≠ (SP.exec (SP.init dk) ops).nextBlock := by omega
  have hstep : SP.step (SP.exec (SP.init dk) ops) (.resetTo h p)
      = { SP.exec (SP.init dk) ops with
          heap := SP.update
            (SP.update (SP.exec (SP.init dk) ops).heap b none)
            (SP.exec (SP.init dk) ops).nextBlock (some ⟨p, 1⟩),
          nextBlock := (SP.exec (SP.init dk) ops).nextBlock + 1,
          handles := (SP.exec (SP.init dk) ops).handles.set h
            (some (some (SP.exec (SP.init dk) ops).nextBlock)),
          events := ⟨b, blk.ptr, (SP.exec (SP.init dk) ops).kind⟩
            :: (SP.exec (SP.init dk) ops).events } := by
    simp only [SP.step, hs, if_neg hguard, SP.decCB, hheap, if_pos hfree,
      if_neg hp]
  have hslot2 : ((SP.exec (SP.init dk) ops).handles.set h
      (some (some (SP.exec (SP.init dk) ops).nextBlock))).get? h
      = some (some (some (SP.exec (SP.init dk) ops).nextBlock)) :=
    SPV.lget_set_eq _ hs
  refine ⟨⟨?_, ?_, ?_, ?_, hev⟩, ?_⟩
  · rw [hstep]
    unfold SP.getOf
    rw [SP.cbOf_eq_of_slot hslot2]
    simp only [SP.ptrOfCB]
    rw [SP.update_same]
  · rw [hstep]
    unfold SP.use_count
    rw [SP.cbOf_eq_of_slot hslot2]
    simp only
    rw [SP.update_same]
  · rw [hstep]
    show SP.update (SP.update (SP.exec (SP.init dk) ops).heap b none)
      (SP.exec (SP.init dk) ops).nextBlock (some ⟨p, 1⟩) b = none
    rw [SP.update_ne _ _ _ _ hbne, SP.update_same]
  · rw [hstep]
    show SP.eventCountL (⟨b, blk.ptr, (SP.exec (SP.init dk) ops).kind⟩
      :: (SP.exec (SP.init dk) ops).events) b = 1
    rw [SP.eventCountL_cons]
    have hev' : SP.eventCountL (SP.exec (SP.init dk) ops).events b = 0 :=
      hev
    simp [hev']
  · have hInvM := MC.minv_exec MC.minv_minit mops
    obtain ⟨mblk, hheapM, hcntM, hposM, hevM, hltM⟩ :=
      hInvM.live_block_of_refs (MC.mrefs_pos_of_slot hk hcb)
    have hcnt1M : mblk.count = 1 := by
      unfold MC.muse_count at hmu
      rw [hcb] at hmu
      simp only at hmu
      rw [hheapM] at hmu
      exact hmu
    have hbneM : mb ≠ (MC.mexec MC.minit mops).nextB := by omega
    have hupdM : MC.mupdate (MC.mexec MC.minit mops).heap
        (MC.mexec MC.minit mops).nextB (some ⟨1, MC.implDestroyFn⟩) mb
        = (MC.mexec MC.minit mops).heap mb := MC.mupdate_ne _ _ _ _ hbneM
    have hstepM : MC.mstep (MC.mexec MC.minit mops) (.mreset k mraw)
        = { MC.mexec MC.minit mops with
            heap := MC.mupdate (MC.mupdate (MC.mexec MC.minit mops).heap
              (MC.mexec MC.minit mops).nextB (some ⟨1, MC.implDestroyFn⟩))
              mb none,
            nextB := (MC.mexec MC.minit mops).nextB + 1,
            handles := (MC.mexec MC.minit mops).handles.set k
              (some ⟨mraw, some (MC.mexec MC.minit mops).nextB⟩),
            events := ⟨mb, hd.ptr, (mblk.destroyFn hd.ptr).isNone⟩
              :: (MC.mexec MC.minit mops).events } := by
      simp only [MC.mstep, hk, if_neg hmraw, MC.mrelease, hcb, hupdM,
        hheapM, if_pos hcnt1M]
    refine ⟨?_, ?_, ?_, ?_, hevM⟩
    · rw [hstepM]
      exact SPV.lget_set_eq _ hk
    · rw [hstepM]
      unfold MC.muse_count
      simp only
      rw [MC.mupdate_ne _ _ _ _ (fun hc => hbneM hc.symm),
        MC.mupdate_same]
    · rw [hstepM]
      show MC.mupdate (MC.mupdate (MC.mexec MC.minit mops).heap
          (MC.mexec MC.minit mops).nextB (some ⟨1, MC.implDestroyFn⟩))
          mb none mb = none
      rw [MC.mupdate_same]
    · rw [hstepM]
      show (⟨mb, hd.ptr, (mblk.destroyFn hd.ptr).isNone⟩
          :: (MC.mexec MC.minit mops).events).countP
          (fun e => e.blk == mb) = 1
      rw [List.countP_cons]
      have hevM' : (MC.mexec MC.minit mops).events.countP
          (fun e => e.blk == mb) = 0 := hevM
      simp [hevM']

theorem C7_witness :
    SP.cbOf (SP.exec (SP.init .scalar) [.construct 7]) 0 = some 0
    ∧ SP.use_count (SP.exec (SP.init .scalar) [.construct 7]) 0 = 1
    ∧ (9 : Nat) ≠ 0
    ∧ SP.getOf (SP.exec (SP.init .scalar) [.construct 7]) 0 ≠ 9
    ∧ (MC.mexec MC.minit [.mconstruct 7]).handles.get? 0
      = some (some (⟨7, some 0⟩ : MC.MHandle))
    ∧ MC.muse_count (MC.mexec MC.minit [.mconstruct 7]) ⟨7, some 0⟩ = 1
    ∧ (7 : Nat) ≠ 0
    ∧ ((SP.getOf (SP.step (SP.exec (SP.init .scalar) [.construct 7])
          (.resetTo 0 9)) 0 = 9
      ∧ SP.use_count (SP.step (SP.exec (SP.init .scalar) [.construct 7])
          (.resetTo 0 9)) 0 = 1
      ∧ (SP.step (SP.exec (SP.init .scalar) [.construct 7])
          (.resetTo 0 9)).heap 0 = none
      ∧ SP.eventCount (SP.step (SP.exec (SP.init .scalar) [.construct 7])
          (.resetTo 0 9)) 0 = 1
      ∧ SP.eventCount (SP.exec (SP.init .scalar) [.construct 7]) 0 = 0)
    ∧ ((MC.mstep (MC.mexec MC.minit [.mconstruct 7])
          (.mreset 0 7)).handles.get? 0
        = some (some (⟨7, some (MC.mexec MC.minit [.mconstruct 7]).nextB⟩
            : MC.MHandle))
      ∧ MC.muse_count (MC.mstep (MC.mexec MC.minit [.mconstruct 7])
          (.mreset 0 7))
          ⟨7, some (MC.mexec MC.minit [.mconstruct 7]).nextB⟩ = 1
      ∧ (MC.mstep (MC.mexec MC.minit [.mconstruct 7])
          (.mreset 0 7)).heap 0 = none
      ∧ MC.meventCount (MC.mstep (MC.mexec MC.minit [.mconstruct 7])
          (.mreset 0 7)) 0 = 1
      ∧ MC.meventCount (MC.mexec MC.minit [.mconstruct 7]) 0 = 0)) :=
  ⟨by decide, by decide, by decide, by decide, by decide, by decide,
    by decide,
    C7_reset_to_fresh_raw_destroys_old_exactly_once .scalar [.construct 7]
      0 0 9 (by decide) (by decide) (by decide) (by decide)
      [.mconstruct 7] 0 0 7 ⟨7, some 0⟩ (by decide) (by decide)
      (by decide) (by decide)⟩

/-- C8 fails as stated for SharedPtr.h's member-access operator:
`T* operator->() const noexcept { return get(); }` performs no assertion
and no throw — on an Empty handle (here the handle built by `construct 0`:
`cb_` null, bool-conversion false) it silently returns the null pointer
(address 0) instead of reporting a failure at the call site. -/
theorem C8_counterexample :
    SP.cbOf (SP.exec (SP.init .scalar) [.construct 0]) 0 = none
    ∧ SP.boolConv (SP.exec (SP.init .scalar) [.construct 0]) 0 = false
    ∧ SP.arrowSP (SP.exec (SP.init .scalar) [.construct 0]) 0 = 0 :=
  ⟨by decide, by decide, by decide⟩

/-- C8 (amended): dereference and element-at(i) invoked on an Empty handle
of SharedPtr.h are a reported failure at the call site (the assertion,
modelled `none`), and dereference and member-access on an Empty handle of
main.cpp throw `std::runtime_error("Null ptr")` — never a silent no-op; on
a Bound handle all of them return the referenced value or its (non-null)
address.  SharedPtr.h's `operator->`, however, is `noexcept` and entirely
unchecked: it returns `get()` as-is, so on an Empty handle it silently
hands back the null pointer (see `C8_counterexample`), and on a Bound
handle the held non-null address. -/
theorem C8_empty_access_reported_except_header_arrow
    (dk : SP.DKind) (ops : List SP.Op) (mem : Nat → Int) (h i : Nat) :
    (SP.cbOf (SP.exec (SP.init dk) ops) h = none →
      SP.derefSP mem (SP.exec (SP.init dk) ops) h = none
      ∧ SP.elemAt mem (SP.exec (SP.init dk) ops) h i = none
      ∧ SP.arrowSP (SP.exec (SP.init dk) ops) h = 0)
    ∧ (∀ b, SP.cbOf (SP.exec (SP.init dk) ops) h = some b →
      SP.derefSP mem (SP.exec (SP.init dk) ops) h
        = some (mem (SP.getOf (SP.exec (SP.init dk) ops) h))
      ∧ SP.elemAt mem (SP.exec (SP.init dk) ops) h i
        = some (mem (SP.getOf (SP.exec (SP.init dk) ops) h + i))
      ∧ SP.arrowSP (SP.exec (SP.init dk) ops) h
          = SP.getOf (SP.exec (SP.init dk) ops) h
      ∧ SP.getOf (SP.exec (SP.init dk) ops) h ≠ 0)
    ∧ (∀ hd : MC.MHandle, hd.ptr = 0 →
      MC.mstar mem hd = Except.error "Null ptr"
      ∧ MC.marrow hd = Except.error "Null ptr")
    ∧ (∀ hd : MC.MHandle, hd.ptr ≠ 0 →
      MC.mstar mem hd = Except.ok (mem hd.ptr)
      ∧ MC.marrow hd = Except.ok hd.ptr) := by
  have hInv := SP.inv_exec (SP.inv_init dk) ops
  refine ⟨?_, ?_, ?_, ?_⟩
  · intro hb
    have hg : SP.getOf (SP.exec (SP.init dk) ops) h = 0 := by
      unfold SP.getOf
      rw [hb]
      rfl
    exact ⟨by simp [SP.derefSP, hg], by simp [SP.elemAt, hg],
      by simp [SP.arrowSP, hg]⟩
  · intro b hb
    have hs := SP.slot_of_cbOf hb
    obtain ⟨blk, hheap, _, _, hptr, _, _⟩ := hInv.block_of_slot hs
    have hg : SP.getOf (SP.exec (SP.init dk) ops) h = blk.ptr := by
      unfold SP.getOf
      rw [hb]
      simp only [SP.ptrOfCB]
      rw [hheap]
    exact ⟨by simp [SP.derefSP, hg, hptr], by simp [SP.elemAt, hg, hptr],
      rfl, by rw [hg]; exact hptr⟩
  · intro hd hp
    exact ⟨by simp [MC.mstar, hp], by simp [MC.marrow, hp]⟩
  · intro hd hp
    exact ⟨by simp [MC.mstar, hp], by simp [MC.marrow, hp]⟩

theorem C8_witness :
    SP.cbOf (SP.exec (SP.init .scalar) [.construct 7, .construct 0]) 1
      = none
    ∧ (SP.derefSP (fun n => (n : Int))
        (SP.exec (SP.init .scalar) [.construct 7, .construct 0]) 1 = none
      ∧ SP.elemAt (fun n => (n : Int))
        (SP.exec (SP.init .scalar) [.construct 7, .construct 0]) 1 2
          = none
      ∧ SP.arrowSP
        (SP.exec (SP.init .scalar) [.construct 7, .construct 0]) 1 = 0)
    ∧ SP.cbOf (SP.exec (SP.init .scalar) [.construct 7, .construct 0]) 0
      = some 0
    ∧ (SP.derefSP (fun n => (n : Int))
        (SP.exec (SP.init .scalar) [.construct 7, .construct 0]) 0
        = some ((fun n => (n : Int))
            (SP.getOf (SP.exec (SP.init .scalar)
              [.construct 7, .construct 0]) 0))
      ∧ SP.elemAt (fun n => (n : Int))
        (SP.exec (SP.init .scalar) [.construct 7, .construct 0]) 0 2
        = some ((fun n => (n : Int))
            (SP.getOf (SP.exec (SP.init .scalar)
              [.construct 7, .construct 0]) 0 + 2))
      ∧ SP.arrowSP
          (SP.exec (SP.init .scalar) [.construct 7, .construct 0]) 0
        = SP.getOf (SP.exec (SP.init .scalar)
            [.construct 7, .construct 0]) 0
      ∧ SP.getOf (SP.exec (SP.init .scalar)
          [.construct 7, .construct 0]) 0 ≠ 0)
    ∧ ((⟨0, none⟩ : MC.MHandle).ptr = 0
      ∧ (MC.mstar (fun n => (n : Int)) ⟨0, none⟩
          = Except.error "Null ptr"
        ∧ MC.marrow (⟨0, none⟩ : MC.MHandle) = Except.error "Null ptr"))
    ∧ ((⟨7, some 0⟩ : MC.MHandle).ptr ≠ 0
      ∧ (MC.mstar (fun n => (n : Int)) ⟨7, some 0⟩ = Except.ok 7
        ∧ MC.marrow (⟨7, some 0⟩ : MC.MHandle) = Except.ok 7)) := by
  have H := C8_empty_access_reported_except_header_arrow .scalar
    [.construct 7, .construct 0] (fun n => (n : Int)) 1 2
  have H0 := C8_empty_access_reported_except_header_arrow .scalar
    [.construct 7, .construct 0] (fun n => (n : Int)) 0 2
  exact ⟨by decide, H.1 (by decide), by decide, H0.2.1 0 (by decide),
    ⟨by decide, H.2.2.1 ⟨0, none⟩ (by decide)⟩,
    ⟨by decide, H0.2.2.2 ⟨7, some 0⟩ (by decide)⟩⟩

/-- C9: For every pair of handles of main.cpp's SharedPtr (the variant
that defines `operator==`), equality returns true iff the two handles hold
the same raw resource address `ptr_`; hence two Empty handles (bool-false,
`ptr_` null) compare equal and an Empty handle is unequal to any Bound
one. -/
theorem C9_equality_iff_same_raw_address (a b : MC.MHandle) :
    (MC.mainEq a b = true ↔ a.ptr = b.ptr)
    ∧ (MC.mbool a = false → MC.mbool b = false → MC.mainEq a b = true)
    ∧ (MC.mbool a = false → MC.mbool b = true → MC.mainEq a b = false)
    ∧ MC.mainNe a b = !(MC.mainEq a b) := by
  refine ⟨?_, ?_, ?_, rfl⟩
  · simp [MC.mainEq]
  · intro ha hb
    have ha' : a.ptr = 0 := by simpa [MC.mbool] using ha
    have hb' : b.ptr = 0 := by simpa [MC.mbool] using hb
    simp [MC.mainEq, ha', hb']
  · intro ha hb
    have ha' : a.ptr = 0 := by simpa [MC.mbool] using ha
    have hb' : b.ptr ≠ 0 := by simpa [MC.mbool] using hb
    simp [MC.mainEq, ha']
    exact fun hc => hb' hc.symm

theorem C9_witness :
    MC.mbool (⟨0, none⟩ : MC.MHandle) = false
    ∧ MC.mbool (⟨7, some 0⟩ : MC.MHandle) = true
    ∧ MC.mainEq ⟨0, none⟩ ⟨0, none⟩ = true
    ∧ MC.mainEq ⟨0, none⟩ ⟨7, some 0⟩ = false :=
  ⟨by decide, by decide,
    (C9_equality_iff_same_raw_address ⟨0, none⟩ ⟨0, none⟩).2.1
      (by decide) (by decide),
    (C9_equality_iff_same_raw_address ⟨0, none⟩ ⟨7, some 0⟩).2.2.1
      (by decide) (by decide)⟩

/-- C10: In the SharedPtr.h implementation (the scalar and array variants'
`reset(T* p)` are line-identical, and the model covers both through the
instantiation tag), calling reset(p) with p equal to the handle's current
get() — including a non-null p while the block is shared by other handles
— is a complete no-op: the whole state (control block heap, use_count(),
get(), destruction log, allocation counter) is unchanged. -/
theorem C10_reset_to_current_pointer_is_noop
    (s : SP.SPState) (h p : Nat) (hp : SP.getOf s h = p) :
    SP.step s (.resetTo h p) = s := by
  cases hs : s.handles.get? h with
  | none => simp only [SP.step, hs]
  | some sl =>
    cases sl with
    | none => simp only [SP.step, hs]
    | some c =>
      have hpc : SP.ptrOfCB s c = p := by
        unfold SP.getOf at hp
        rw [SP.cbOf_eq_of_slot hs] at hp
        exact hp
      simp only [SP.step, hs, if_pos hpc]

theorem C10_witness :
    SP.getOf (SP.exec (SP.init .scalar) [.construct 7, .copyCon 0]) 0 = 7
    ∧ SP.step (SP.exec (SP.init .scalar) [.construct 7, .copyCon 0])
        (.resetTo 0 7)
      = SP.exec (SP.init .scalar) [.construct 7, .copyCon 0]
    ∧ SP.getOf (SP.exec (SP.init .array) [.construct 5]) 0 = 5
    ∧ SP.step (SP.exec (SP.init .array) [.construct 5]) (.resetTo 0 5)
      = SP.exec (SP.init .array) [.construct 5] :=
  ⟨by decide,
    C10_reset_to_current_pointer_is_noop
      (SP.exec (SP.init .scalar) [.construct 7, .copyCon 0]) 0 7
      (by decide),
    by decide,
    C10_reset_to_current_pointer_is_noop
      (SP.exec (SP.init .array) [.construct 5]) 0 5 (by decide)⟩

end SPV
